import Mathlib

/-!
# eSLIM++ : subjective-logic opinions, multi-source fusion and conflict

A shallow embedding of the numeric core of the library
(`opinion_no_base.hpp`, `opinion.hpp`, `trusted_opinion.hpp`, `fusion_operators.hpp`,
`conflict_operators.hpp`, `trust_revision_operators.hpp`, `trusted_fusion_operators.hpp`,
`dirichlet_distribution.hpp`, `convert.hpp`) together with theorems about it.

Conventions of the embedding

* The scalar type `FloatT` is interpreted by the exact rationals `ℚ`; rounding
  is not modelled, except for the conversion to `float` that `fminf` performs
  on its arguments (`to_float`).  In `ℚ` a division by zero yields `0`, where IEEE
  arithmetic yields an infinity or a NaN, so no theorem below rests on the
  value of a quotient whose divisor can be zero unless it says so.  Where such
  a quotient decides the outcome, the operator is evaluated over `FloatX`,
  which carries the infinities and NaN.
* `Array<N, FloatT>` is a function `Fin N → ℚ`; `Array::sum` is the finite
  sum over all indices.
* `std::vector<T>` is `List T`.
* `std::size_t` arithmetic is arithmetic on `ℕ` modulo `2 ^ 64`.
* An in-place member `f_` and its copying twin `f` compute the same value, so
  the embedding of `f_` returns the updated receiver.
* A `throw std::logic_error` is an `Except.error` carrying the message.
-/

namespace subjective_logic

/-- The comparison threshold `EPS_v<double>` of `util.hpp` (`1e-10`). -/
def EPS : ℚ := 1 / 10000000000

/-- The type `Array<N, FloatT>` used for belief masses and priors. -/
abbrev BeliefType (N : ℕ) : Type := Fin N → ℚ

/-- The accessor `Array::front()`, that is `entries[0]`. -/
def front {N : ℕ} (a : BeliefType N) : ℚ :=
  if h : 0 < N then a ⟨0, h⟩ else 0

/-- The accessor `Array::back()`, that is `entries[N - 1]`. -/
def back {N : ℕ} (a : BeliefType N) : ℚ :=
  if h : 0 < N then a ⟨N - 1, Nat.sub_lt h Nat.one_pos⟩ else 0

/-- The value of `n - 1` computed in `std::size_t` (64 bit, wrapping). -/
def size_t_pred (n : ℕ) : ℕ := (n + (2 ^ 64 - 1)) % 2 ^ 64

/-- The class `OpinionNoBase<N, FloatT>`: a vector of belief masses. -/
@[ext]
structure OpinionNoBase (N : ℕ) where
  /-- The member `belief_masses_`. -/
  belief_masses : BeliefType N

namespace OpinionNoBase

variable {N : ℕ}

/-- The default constructor: every belief mass is `0` (the vacuous opinion). -/
def vacuous : OpinionNoBase N := ⟨fun _ => 0⟩

instance : Inhabited (OpinionNoBase N) := ⟨vacuous⟩

/-- The member `uncertainty()`: `1 - belief_masses_.sum()`. -/
def uncertainty (o : OpinionNoBase N) : ℚ := 1 - ∑ idx, o.belief_masses idx

/-- The member `is_valid()`. -/
def is_valid (o : OpinionNoBase N) : Bool :=
  decide ((∀ idx, o.belief_masses idx ≥ -EPS) ∧ (∑ idx, o.belief_masses idx) < 1 + EPS)

/-- The binomial accessor `belief()`, that is `belief_masses_[0]`. -/
def belief (o : OpinionNoBase N) : ℚ := front o.belief_masses

/-- The binomial accessor `disbelief()`, that is `belief_masses_[1]`. -/
def disbelief (o : OpinionNoBase N) : ℚ :=
  if h : 1 < N then o.belief_masses ⟨1, h⟩ else 0

/-- The static member `NeutralBeliefDistr()`: every entry is `1 / N`. -/
def NeutralBeliefDistr : BeliefType N := fun _ => 1 / (N : ℚ)

/-- The binomial member `getBinomialProjection(base_rate)`. -/
def getBinomialProjection (o : OpinionNoBase N) (base_rate : ℚ) : ℚ :=
  o.belief + o.uncertainty * base_rate

/-- The member `getProjection(base_rate)`. -/
def getProjection (o : OpinionNoBase N) (base_rate : BeliefType N) : BeliefType N :=
  let uncert := o.uncertainty
  fun idx => o.belief_masses idx + uncert * base_rate idx

/-- The binomial overload `degree_of_conflict(other, FloatT, FloatT)`. -/
def degree_of_conflict_binomial (this other : OpinionNoBase N)
    (base_rate base_rate_other : ℚ) : ℚ :=
  let proj_prob_distance :=
    |this.getBinomialProjection base_rate - other.getBinomialProjection base_rate_other|
  let conjunctive_certainty := (1 - this.uncertainty) * (1 - other.uncertainty)
  proj_prob_distance * conjunctive_certainty

/-- The overload `degree_of_conflict(other, BeliefType, BeliefType)`; both projections
of the non-binomial branch are taken with `base_rate`, as in the source. -/
def degree_of_conflict (this other : OpinionNoBase N)
    (base_rate base_rate_other : BeliefType N) : ℚ :=
  if N = 2 then
    degree_of_conflict_binomial this other (front base_rate) (front base_rate_other)
  else
    let prob_this := this.getProjection base_rate
    let prob_other := other.getProjection base_rate
    let proj_prob_distance := (∑ idx, |prob_this idx - prob_other idx|) / 2
    let conjunctive_certainty := (1 - this.uncertainty) * (1 - other.uncertainty)
    proj_prob_distance * conjunctive_certainty

/-- The binomial overload `degree_of_harmony(other, FloatT, FloatT)`. -/
def degree_of_harmony_binomial (this other : OpinionNoBase N)
    (base_rate base_rate_other : ℚ) : ℚ :=
  let proj_prob_distance :=
    |this.getBinomialProjection base_rate - other.getBinomialProjection base_rate_other|
  let conjunctive_certainty := (1 - this.uncertainty) * (1 - other.uncertainty)
  (1 - proj_prob_distance) * conjunctive_certainty

/-- The overload `degree_of_harmony(other, BeliefType, BeliefType)`; its binomial branch
calls `degree_of_conflict`, as in the source. -/
def degree_of_harmony (this other : OpinionNoBase N)
    (base_rate base_rate_other : BeliefType N) : ℚ :=
  if N = 2 then
    degree_of_conflict_binomial this other (front base_rate) (front base_rate_other)
  else
    let prob_this := this.getProjection base_rate
    let prob_other := other.getProjection base_rate
    let proj_prob_distance := (∑ idx, |prob_this idx - prob_other idx|) / 2
    let conjunctive_certainty := (1 - this.uncertainty) * (1 - other.uncertainty)
    (1 - proj_prob_distance) * conjunctive_certainty

/-- The member `cum_fuse_(other)` (and its copying twin `cum_fuse`). -/
def cum_fuse_ (this other : OpinionNoBase N) : OpinionNoBase N :=
  let uncert_this := this.uncertainty
  let uncert_other := other.uncertainty
  let denom := uncert_this + uncert_other - uncert_this * uncert_other
  if |denom| < EPS then
    ⟨fun idx => (this.belief_masses idx + other.belief_masses idx) / 2⟩
  else
    ⟨fun idx =>
      (this.belief_masses idx * uncert_other + other.belief_masses idx * uncert_this) / denom⟩

/-- The member `cum_fuse(other)`: `OpinionNoBase(*this).cum_fuse_(other)`. -/
def cum_fuse (this other : OpinionNoBase N) : OpinionNoBase N := this.cum_fuse_ other

/-- The member `cum_unfuse_(other)` (and its copying twin `cum_unfuse`). -/
def cum_unfuse_ (this other : OpinionNoBase N) : OpinionNoBase N :=
  let uncert_this := this.uncertainty
  let uncert_other := other.uncertainty
  let denom := uncert_other - uncert_this + uncert_other * uncert_this
  if |denom| < EPS then
    ⟨fun idx => (this.belief_masses idx + other.belief_masses idx) / 2⟩
  else
    ⟨fun idx =>
      (this.belief_masses idx * uncert_other - other.belief_masses idx * uncert_this) / denom⟩

/-- The member `cum_unfuse(other)`: `OpinionNoBase(*this).cum_unfuse_(other)`. -/
def cum_unfuse (this other : OpinionNoBase N) : OpinionNoBase N := this.cum_unfuse_ other

/-- The member `harmony(other)`. -/
def harmony (this other : OpinionNoBase N) : BeliefType N :=
  let uncert_this := this.uncertainty
  let uncert_other := other.uncertainty
  fun idx =>
    this.belief_masses idx * uncert_other + other.belief_masses idx * uncert_this +
      this.belief_masses idx * other.belief_masses idx

/-- The member `conflict(other)`: the sum of `b[idx1] * b'[idx2]` over `idx1 ≠ idx2`. -/
def conflict (this other : OpinionNoBase N) : ℚ :=
  ∑ idx1, ∑ idx2, if idx1 = idx2 then 0 else this.belief_masses idx1 * other.belief_masses idx2

/-- The member `bc_fuse_(other)` (and its copying twin `bc_fuse`). -/
def bc_fuse_ (this other : OpinionNoBase N) : OpinionNoBase N :=
  let harmony := this.harmony other
  let conflict := this.conflict other
  if |1 - conflict| < EPS then
    ⟨NeutralBeliefDistr⟩
  else
    let normalizer := 1 - conflict
    ⟨fun idx => harmony idx / normalizer⟩

/-- The member `bc_fuse(other)`: `OpinionNoBase(*this).bc_fuse_(other)`. -/
def bc_fuse (this other : OpinionNoBase N) : OpinionNoBase N := this.bc_fuse_ other

/-- The member `average_fuse_(other)` (and its copying twin `average_fuse`). -/
def average_fuse_ (this other : OpinionNoBase N) : OpinionNoBase N :=
  let uncert_this := this.uncertainty
  let uncert_other := other.uncertainty
  let denom := uncert_this + uncert_other
  if |denom| < EPS then
    ⟨fun idx => (this.belief_masses idx + other.belief_masses idx) / 2⟩
  else
    ⟨fun idx =>
      (this.belief_masses idx * uncert_other + other.belief_masses idx * uncert_this) / denom⟩

/-- The member `average_fuse(other)`: `OpinionNoBase(*this).average_fuse_(other)`. -/
def average_fuse (this other : OpinionNoBase N) : OpinionNoBase N := this.average_fuse_ other

/-- The member `operator==`: the summed absolute difference of the belief masses is
below `EPS`. -/
def eq_op (this other : OpinionNoBase N) : Bool :=
  decide ((∑ idx, |this.belief_masses idx - other.belief_masses idx|) < EPS)

/-- The constructor `OpinionNoBase(values...)` at `N = 2`: belief and disbelief mass. -/
def binomial (b d : ℚ) : OpinionNoBase 2 := ⟨![b, d]⟩

/-- The member `uncertainty_differential(other)`. -/
def uncertainty_differential (this other : OpinionNoBase N) : ℚ :=
  let uncert := this.uncertainty
  uncert / (uncert + other.uncertainty)

/-- The library function `std::clamp(v, lo, hi)`. -/
def clamp (v lo hi : ℚ) : ℚ :=
  if v < lo then lo else if hi < v then hi else v

/-- The binomial member `revise_trust_(revision_factor)` (and its copying twin
`revise_trust`). -/
def revise_trust_ (this : OpinionNoBase 2) (revision_factor : ℚ) : OpinionNoBase 2 :=
  let revision_factor := clamp revision_factor (-1) 1
  if revision_factor < 0 then
    let revision_factor := revision_factor * -1
    ⟨![this.belief_masses 0 + (1 - this.belief_masses 0) * revision_factor,
      this.belief_masses 1 * (1 - revision_factor)]⟩
  else
    ⟨![this.belief_masses 0 * (1 - revision_factor),
      this.belief_masses 1 + (1 - this.belief_masses 1) * revision_factor]⟩

/-- The binomial member `revise_trust_(degree_of_conflict, other)` (and its copying twin). -/
def revise_trust_by_conflict_ (this : OpinionNoBase 2) (degree_of_conflict : ℚ)
    (other : OpinionNoBase 2) : OpinionNoBase 2 :=
  let revision_factor := this.uncertainty_differential other * degree_of_conflict
  this.revise_trust_ revision_factor

/-- The member `trust_discount_(prop)` (and its copying twin `trust_discount`). -/
def trust_discount_ (this : OpinionNoBase N) (prop : ℚ) : OpinionNoBase N :=
  ⟨fun idx => this.belief_masses idx * prop⟩

/-- The member `trust_discount_(other, base_rate)` with a binomial trust opinion `other`
(and its copying twin). -/
def trust_discount_by_opinion_ (this : OpinionNoBase N) (other : OpinionNoBase 2)
    (base_rate : ℚ) : OpinionNoBase N :=
  this.trust_discount_ (other.getBinomialProjection base_rate)

/-- The member `limited_trust_discount_(limit, prop)` (and its copying twin). -/
def limited_trust_discount_ (this : OpinionNoBase N) (limit prop : ℚ) : OpinionNoBase N :=
  let uncert := this.uncertainty
  let min_prob := (1 - limit) / (1 - uncert)
  let prop := min 1 (max min_prob prop)
  this.trust_discount_ prop

/-- The member `limited_trust_discount_(limit, other, base_rate)` with a binomial trust
opinion `other` (and its copying twin). -/
def limited_trust_discount_by_opinion_ (this : OpinionNoBase N) (limit : ℚ)
    (other : OpinionNoBase 2) (base_rate : ℚ) : OpinionNoBase N :=
  this.limited_trust_discount_ limit (other.getBinomialProjection base_rate)

end OpinionNoBase

/-- The class `Opinion<N, FloatT>`: an `OpinionNoBase` with a prior. -/
@[ext]
structure Opinion (N : ℕ) where
  /-- The member `opinion_no_base_`. -/
  opinion_no_base : OpinionNoBase N
  /-- The member `prior_`. -/
  prior : BeliefType N

namespace Opinion

variable {N : ℕ}

/-- The default constructor: vacuous belief masses and the neutral prior. -/
def vacuous : Opinion N := ⟨OpinionNoBase.vacuous, OpinionNoBase.NeutralBeliefDistr⟩

instance : Inhabited (Opinion N) := ⟨vacuous⟩

/-- The member `belief_masses()`. -/
def belief_masses (o : Opinion N) : BeliefType N := o.opinion_no_base.belief_masses

/-- The member `prior_belief_masses()`. -/
def prior_belief_masses (o : Opinion N) : BeliefType N := o.prior

/-- The member `uncertainty()`. -/
def uncertainty (o : Opinion N) : ℚ := o.opinion_no_base.uncertainty

/-- The member `bc_fuse_(other)` (and its copying twin `bc_fuse`). -/
def bc_fuse_ (this other : Opinion N) : Opinion N :=
  let uncert_this := this.uncertainty
  let uncert_other := other.uncertainty
  let fused := this.opinion_no_base.bc_fuse_ other.opinion_no_base
  let denom := 2 - uncert_this - uncert_other
  if |denom| < EPS then
    ⟨fused, fun idx => (this.prior idx + other.prior idx) / 2⟩
  else
    ⟨fused, fun idx =>
      (this.prior idx * (1 - uncert_this) + other.prior idx * (1 - uncert_other)) / denom⟩

/-- The binomial member `getBinomialPrior()`, that is `prior_[0]`. -/
def getBinomialPrior (o : Opinion N) : ℚ := front o.prior

/-- The binomial member `getBinomialProjection()`. -/
def getBinomialProjection (o : Opinion N) : ℚ :=
  o.opinion_no_base.getBinomialProjection o.getBinomialPrior

/-- The member `getProjection()`. -/
def getProjection (o : Opinion N) : BeliefType N := o.opinion_no_base.getProjection o.prior

/-- The member `uncertainty_differential(other)`. -/
def uncertainty_differential (this other : Opinion N) : ℚ :=
  this.opinion_no_base.uncertainty_differential other.opinion_no_base

/-- The member `degree_of_conflict(other)`. -/
def degree_of_conflict (this other : Opinion N) : ℚ :=
  if N = 2 then
    this.opinion_no_base.degree_of_conflict_binomial other.opinion_no_base
      this.getBinomialPrior other.getBinomialPrior
  else
    this.opinion_no_base.degree_of_conflict other.opinion_no_base this.prior other.prior

/-- The member `degree_of_harmony(other)`. -/
def degree_of_harmony (this other : Opinion N) : ℚ :=
  if N = 2 then
    this.opinion_no_base.degree_of_harmony_binomial other.opinion_no_base
      this.getBinomialPrior other.getBinomialPrior
  else
    this.opinion_no_base.degree_of_harmony other.opinion_no_base this.prior other.prior

/-- The binomial member `revise_trust_(revision_factor)` (and its copying twin). -/
def revise_trust_ (this : Opinion 2) (revision_factor : ℚ) : Opinion 2 :=
  ⟨this.opinion_no_base.revise_trust_ revision_factor, this.prior⟩

/-- The binomial member `revise_trust_(degree_of_conflict, other)` (and its copying twin). -/
def revise_trust_by_conflict_ (this : Opinion 2) (degree_of_conflict : ℚ)
    (other : Opinion 2) : Opinion 2 :=
  ⟨this.opinion_no_base.revise_trust_by_conflict_ degree_of_conflict other.opinion_no_base,
    this.prior⟩

/-- The member `trust_discount_(prop)` (and its copying twin `trust_discount`). -/
def trust_discount_ (this : Opinion N) (prop : ℚ) : Opinion N :=
  ⟨this.opinion_no_base.trust_discount_ prop, this.prior⟩

/-- The member `trust_discount_(discount)` with a `Trust` opinion (and its copying twin). -/
def trust_discount_by_opinion_ (this : Opinion N) (discount : Opinion 2) : Opinion N :=
  ⟨this.opinion_no_base.trust_discount_ discount.getBinomialProjection, this.prior⟩

/-- The member `limited_trust_discount_(limit, prop)` (and its copying twin). -/
def limited_trust_discount_ (this : Opinion N) (limit prop : ℚ) : Opinion N :=
  ⟨this.opinion_no_base.limited_trust_discount_ limit prop, this.prior⟩

/-- The member `limited_trust_discount_(limit, discount)` with a `Trust` opinion (and its
copying twin). -/
def limited_trust_discount_by_opinion_ (this : Opinion N) (limit : ℚ)
    (discount : Opinion 2) : Opinion N :=
  ⟨this.opinion_no_base.limited_trust_discount_ limit discount.getBinomialProjection,
    this.prior⟩

end Opinion

/-- The alias `Trust<FloatT>`: a binomial `Opinion`. -/
abbrev Trust : Type := Opinion 2

/-- The members of the template parameter `OpinionT` that `TrustedOpinion<OpinionT>` and the
multi-source templates call; the library instantiates `OpinionT` with
`OpinionNoBase<N, FloatT>` and with `Opinion<N, FloatT>`. -/
class OpinionOps (O : Type) where
  /-- The call `opinion.trust_discount(prop)` with a scalar. -/
  trust_discount : O → ℚ → O
  /-- The call `opinion.degree_of_conflict(other)` with no further argument. -/
  degree_of_conflict : O → O → ℚ
  /-- The call `opinion.degree_of_harmony(other)` with no further argument. -/
  degree_of_harmony : O → O → ℚ
  /-- The call `opinion.uncertainty()`. -/
  uncertainty : O → ℚ

instance instOpinionOpsNoBase {N : ℕ} : OpinionOps (OpinionNoBase N) where
  trust_discount := OpinionNoBase.trust_discount_
  degree_of_conflict := fun x y =>
    x.degree_of_conflict y OpinionNoBase.NeutralBeliefDistr OpinionNoBase.NeutralBeliefDistr
  degree_of_harmony := fun x y =>
    x.degree_of_harmony y OpinionNoBase.NeutralBeliefDistr OpinionNoBase.NeutralBeliefDistr
  uncertainty := OpinionNoBase.uncertainty

instance instOpinionOpsOpinion {N : ℕ} : OpinionOps (Opinion N) where
  trust_discount := Opinion.trust_discount_
  degree_of_conflict := Opinion.degree_of_conflict
  degree_of_harmony := Opinion.degree_of_harmony
  uncertainty := Opinion.uncertainty

/-- The class `TrustedOpinion<OpinionT>`: an opinion paired with the trust in its source. -/
@[ext]
structure TrustedOpinion (O : Type) where
  /-- The member `trust_`. -/
  trust : Trust
  /-- The member `opinion_`. -/
  opinion : O

namespace TrustedOpinion

variable {O : Type}

/-- The static member `extractOpinions`. -/
def extractOpinions (trusted_opinions : List (TrustedOpinion O)) : List O :=
  trusted_opinions.map fun top => top.opinion

/-- The static member `extractTrusts`. -/
def extractTrusts (trusted_opinions : List (TrustedOpinion O)) : List Trust :=
  trusted_opinions.map fun top => top.trust

/-- The member `discounted_opinion()`. -/
def discounted_opinion [OpinionOps O] (this : TrustedOpinion O) : O :=
  OpinionOps.trust_discount this.opinion this.trust.getBinomialProjection

/-- The static member `extractDiscountedOpinions`. -/
def extractDiscountedOpinions [OpinionOps O] (trusted_opinions : List (TrustedOpinion O)) :
    List O :=
  trusted_opinions.map fun top => top.discounted_opinion

/-- The member `revise_trust_(revision_factor)` (and its copying twin `revise_trust`). -/
def revise_trust_ (this : TrustedOpinion O) (revision_factor : ℚ) : TrustedOpinion O :=
  ⟨this.trust.revise_trust_ revision_factor, this.opinion⟩

/-- The member `revise_trust_(other)`, which updates the receiver and `other` and returns
both (and its copying twin `revise_trust(other)`). -/
def revise_trust_pair_ [OpinionOps O] (this other : TrustedOpinion O) :
    TrustedOpinion O × TrustedOpinion O :=
  let conflict := OpinionOps.degree_of_conflict this.opinion other.opinion
  let revision_factor_this := this.trust.uncertainty_differential other.trust * conflict
  let revision_factor_other := other.trust.uncertainty_differential this.trust * conflict
  (⟨this.trust.revise_trust_ revision_factor_this, this.opinion⟩,
    ⟨other.trust.revise_trust_ revision_factor_other, other.opinion⟩)

end TrustedOpinion

namespace multisource

/-- The enumeration `Fusion::FusionType`. -/
inductive FusionType where
  | CUMULATIVE
  | BELIEF_CONSTRAINT
  | AVERAGE
  | WEIGHTED
  deriving DecidableEq, Repr

/-- The integer value of a `FusionType` enumerator. -/
def FusionType.toInt : FusionType → Int
  | .CUMULATIVE => 0
  | .BELIEF_CONSTRAINT => 1
  | .AVERAGE => 2
  | .WEIGHTED => 3

/-! ### `struct Fusion`, instantiated at `OpinionT = OpinionNoBase<N, FloatT>` -/

namespace Fusion

variable {N : ℕ}

/-- The function `Fusion::preprocess_opinions`: a single opinion is returned as it is; if
some opinion is dogmatic (`|uncertainty| < EPS`) the mean of the dogmatic opinions is
returned; otherwise the uncertainties are returned and no result. -/
def preprocess_opinions (opinions : List (OpinionNoBase N)) :
    List ℚ × Option (OpinionNoBase N) :=
  if opinions.length = 1 then
    ([], opinions.head?)
  else
    let uncertainties := opinions.map OpinionNoBase.uncertainty
    let dogmatic_opinions :=
      ((opinions.zip uncertainties).filter fun p => decide (|p.2| < EPS)).map Prod.fst
    let near_zero_uncertainties := !dogmatic_opinions.isEmpty
    if near_zero_uncertainties then
      let summed : BeliefType N := fun idx =>
        (dogmatic_opinions.map fun opinion => opinion.belief_masses idx).sum
      let n_dogmatic_elements := dogmatic_opinions.length
      ([], some ⟨fun idx => summed idx / (n_dogmatic_elements : ℚ)⟩)
    else
      (uncertainties, none)

/-- The function `Fusion::fuse_opinions_`. -/
def fuse_opinions_ (opinions : List (OpinionNoBase N))
    (fusion_operator : List (OpinionNoBase N) → List ℚ → ℚ → OpinionNoBase N) :
    OpinionNoBase N :=
  match preprocess_opinions opinions with
  | (_, some pre_result) => pre_result
  | (uncertainties, none) =>
    let uncert_prod := uncertainties.foldl (fun x y => x * y) 1
    fusion_operator opinions uncertainties uncert_prod

/-- The function `Fusion::cumulative_fusion_operator`. -/
def cumulative_fusion_operator (opinions : List (OpinionNoBase N)) (uncertainties : List ℚ)
    (uncertainty_product : ℚ) : OpinionNoBase N :=
  let n_elements := opinions.length
  let nominator : BeliefType N := fun mass_idx =>
    ((opinions.zip uncertainties).map fun p =>
      p.1.belief_masses mass_idx * uncertainty_product / p.2).sum
  let denom :=
    uncertainties.foldl (fun sum val => sum + uncertainty_product / val) 0 -
      (size_t_pred n_elements : ℚ) * uncertainty_product
  ⟨fun idx => nominator idx / denom⟩

/-- The function `Fusion::belief_constraint_fusion_operator`. -/
def belief_constraint_fusion_operator (opinions : List (OpinionNoBase N))
    (_uncertainties : List ℚ) (_uncertainty_product : ℚ) : OpinionNoBase N :=
  opinions.foldl (fun result opinion => result.bc_fuse_ opinion) OpinionNoBase.vacuous

/-- The function `Fusion::average_fusion_operator`. -/
def average_fusion_operator (opinions : List (OpinionNoBase N)) (uncertainties : List ℚ)
    (uncertainty_product : ℚ) : OpinionNoBase N :=
  let nominator : BeliefType N := fun mass_idx =>
    ((opinions.zip uncertainties).map fun p =>
      p.1.belief_masses mass_idx * uncertainty_product / p.2).sum
  let denom := uncertainties.foldl (fun sum val => sum + uncertainty_product / val) 0
  ⟨fun idx => nominator idx / denom⟩

/-- The entry point `Fusion::fuse_opinions(fusion_type, opinions)`. -/
def fuse_opinions (fusion_type : FusionType) (opinions : List (OpinionNoBase N)) :
    Except String (OpinionNoBase N) :=
  match fusion_type with
  | .CUMULATIVE => .ok (fuse_opinions_ opinions cumulative_fusion_operator)
  | .BELIEF_CONSTRAINT => .ok (fuse_opinions_ opinions belief_constraint_fusion_operator)
  | .AVERAGE => .ok (fuse_opinions_ opinions average_fusion_operator)
  | other =>
    .error ("MultiSource fusion is not yet implemented for: " ++ toString other.toInt)

end Fusion

/-! ### `struct Fusion`, instantiated at `OpinionT = Opinion<N, FloatT>` -/

namespace FusionOpinion

variable {N : ℕ}

/-- The function `Fusion::average_prior`. -/
def average_prior (opinions : List (Opinion N)) : BeliefType N :=
  let summed : BeliefType N := fun idx =>
    (opinions.map fun opinion => opinion.prior_belief_masses idx).sum
  fun idx => summed idx / (opinions.length : ℚ)

/-- The function `Fusion::preprocess_opinions`; the result of the dogmatic branch is built
from a default-constructed `Opinion`, whose prior is the neutral one. -/
def preprocess_opinions (opinions : List (Opinion N)) : List ℚ × Option (Opinion N) :=
  if opinions.length = 1 then
    ([], opinions.head?)
  else
    let uncertainties := opinions.map Opinion.uncertainty
    let dogmatic_opinions :=
      ((opinions.zip uncertainties).filter fun p => decide (|p.2| < EPS)).map Prod.fst
    let near_zero_uncertainties := !dogmatic_opinions.isEmpty
    if near_zero_uncertainties then
      let result : Opinion N := Opinion.vacuous
      let summed : BeliefType N := fun idx =>
        (dogmatic_opinions.map fun opinion => opinion.belief_masses idx).sum
      let n_dogmatic_elements := dogmatic_opinions.length
      ([], some ⟨⟨fun idx => summed idx / (n_dogmatic_elements : ℚ)⟩, result.prior⟩)
    else
      (uncertainties, none)

/-- The function `Fusion::fuse_opinions_`; the prior is averaged after the operator ran. -/
def fuse_opinions_ (opinions : List (Opinion N))
    (fusion_operator : List (Opinion N) → List ℚ → ℚ → Opinion N) : Opinion N :=
  match preprocess_opinions opinions with
  | (_, some pre_result) => pre_result
  | (uncertainties, none) =>
    let uncert_prod := uncertainties.foldl (fun x y => x * y) 1
    let result := fusion_operator opinions uncertainties uncert_prod
    ⟨result.opinion_no_base, average_prior opinions⟩

/-- The function `Fusion::cumulative_fusion_operator`. -/
def cumulative_fusion_operator (opinions : List (Opinion N)) (uncertainties : List ℚ)
    (uncertainty_product : ℚ) : Opinion N :=
  let n_elements := opinions.length
  let result : Opinion N := Opinion.vacuous
  let nominator : BeliefType N := fun mass_idx =>
    ((opinions.zip uncertainties).map fun p =>
      p.1.belief_masses mass_idx * uncertainty_product / p.2).sum
  let denom :=
    uncertainties.foldl (fun sum val => sum + uncertainty_product / val) 0 -
      (size_t_pred n_elements : ℚ) * uncertainty_product
  ⟨⟨fun idx => nominator idx / denom⟩, result.prior⟩

/-- The function `Fusion::belief_constraint_fusion_operator`. -/
def belief_constraint_fusion_operator (opinions : List (Opinion N))
    (_uncertainties : List ℚ) (_uncertainty_product : ℚ) : Opinion N :=
  opinions.foldl (fun result opinion => result.bc_fuse_ opinion) Opinion.vacuous

/-- The function `Fusion::average_fusion_operator`. -/
def average_fusion_operator (opinions : List (Opinion N)) (uncertainties : List ℚ)
    (uncertainty_product : ℚ) : Opinion N :=
  let result : Opinion N := Opinion.vacuous
  let nominator : BeliefType N := fun mass_idx =>
    ((opinions.zip uncertainties).map fun p =>
      p.1.belief_masses mass_idx * uncertainty_product / p.2).sum
  let denom := uncertainties.foldl (fun sum val => sum + uncertainty_product / val) 0
  ⟨⟨fun idx => nominator idx / denom⟩, result.prior⟩

/-- The entry point `Fusion::fuse_opinions(fusion_type, opinions)`. -/
def fuse_opinions (fusion_type : FusionType) (opinions : List (Opinion N)) :
    Except String (Opinion N) :=
  match fusion_type with
  | .CUMULATIVE => .ok (fuse_opinions_ opinions cumulative_fusion_operator)
  | .BELIEF_CONSTRAINT => .ok (fuse_opinions_ opinions belief_constraint_fusion_operator)
  | .AVERAGE => .ok (fuse_opinions_ opinions average_fusion_operator)
  | other =>
    .error ("MultiSource fusion is not yet implemented for: " ++ toString other.toInt)

end FusionOpinion

/-- The enumeration `Conflict::RelationType`. -/
inductive RelationType where
  | CONFLICT
  | HARMONY
  deriving DecidableEq, Repr

/-- The enumeration `Conflict::ConflictType`. -/
inductive ConflictType where
  | ACCUMULATE
  | AVERAGE
  | BELIEF_CUMULATIVE
  | BELIEF_BELIEF_CONSTRAINT
  | BELIEF_AVERAGE
  | BELIEF_WEIGHTED
  deriving DecidableEq, Repr

/-- The integer value of a `ConflictType` enumerator. -/
def ConflictType.toInt : ConflictType → Int
  | .ACCUMULATE => 0
  | .AVERAGE => 1
  | .BELIEF_CUMULATIVE => 2
  | .BELIEF_BELIEF_CONSTRAINT => 3
  | .BELIEF_AVERAGE => 4
  | .BELIEF_WEIGHTED => 5

/-! ### `struct Conflict`, instantiated at `OpinionT = OpinionNoBase<N, FloatT>` -/

namespace Conflict

variable {N : ℕ}

/-- The function `Conflict::get_belief_fusion_type`. -/
def get_belief_fusion_type (conflict_type : ConflictType) : Except String FusionType :=
  match conflict_type with
  | .BELIEF_CUMULATIVE => .ok FusionType.CUMULATIVE
  | .BELIEF_BELIEF_CONSTRAINT => .ok FusionType.BELIEF_CONSTRAINT
  | .BELIEF_AVERAGE => .ok FusionType.AVERAGE
  | .BELIEF_WEIGHTED => .ok FusionType.WEIGHTED
  | other =>
    .error ("Fusion types are only availalbe for Belief Constraint Conflict types, not for: " ++
      toString other.toInt)

/-- The relation applied to a pair of opinions: `degree_of_conflict` or `degree_of_harmony`,
both with the default (neutral) base rates. -/
def relation (rel : RelationType) (x y : OpinionNoBase N) : ℚ :=
  match rel with
  | .CONFLICT =>
    x.degree_of_conflict y OpinionNoBase.NeutralBeliefDistr OpinionNoBase.NeutralBeliefDistr
  | .HARMONY =>
    x.degree_of_harmony y OpinionNoBase.NeutralBeliefDistr OpinionNoBase.NeutralBeliefDistr

/-- The double loop of `Conflict::accumulated_operator`: for every outer index the relation
to every later element is added. -/
def accumulate_pairs (rel : RelationType) : List (OpinionNoBase N) → ℚ
  | [] => 0
  | outer :: rest => (rest.map fun inner => relation rel outer inner).sum +
      accumulate_pairs rel rest

/-- The function `Conflict::accumulated_operator`. -/
def accumulated_operator (rel : RelationType) (opinions : List (OpinionNoBase N)) : ℚ :=
  if opinions.length < 2 then 0 else accumulate_pairs rel opinions

/-- The function `Conflict::average_operator`; the number of connections is computed in
`std::size_t` with an integer division. -/
def average_operator (rel : RelationType) (opinions : List (OpinionNoBase N)) : ℚ :=
  let num_used := opinions.length
  if num_used < 2 then 0
  else
    let accumulated_conflict := accumulated_operator rel opinions
    let num_connections : ℕ := ((num_used * size_t_pred num_used) % 2 ^ 64) / 2
    accumulated_conflict / (num_connections : ℚ)

/-- The function `Conflict::belief_conflicts`. -/
def belief_conflicts (rel : RelationType) (reference_fusion_type : FusionType)
    (opinions : List (OpinionNoBase N)) (reference_fusion : Option (OpinionNoBase N)) :
    Except String (List ℚ × ℚ × ℚ) := do
  let reference ← match reference_fusion with
    | some r => pure r
    | none => Fusion.fuse_opinions reference_fusion_type opinions
  let conflicts := opinions.map fun opinion => relation rel reference opinion
  let max_conflict := conflicts.foldl (fun m c => if c > m then c else m) 0
  let acc_conflict := conflicts.foldl (fun acc c => acc + c) 0
  let avg_conflict := acc_conflict / (opinions.length : ℚ)
  pure (conflicts, max_conflict, avg_conflict)

/-- The function `Conflict::belief_conflict_operator`. -/
def belief_conflict_operator (rel : RelationType) (reference_fusion_type : FusionType)
    (opinions : List (OpinionNoBase N)) : Except String ℚ := do
  let r ← belief_conflicts rel reference_fusion_type opinions none
  pure r.2.2

/-- The function `Conflict::function_switch`. -/
def function_switch (rel : RelationType) (conflict_type : ConflictType)
    (opinions : List (OpinionNoBase N)) (use_opinion : Option (List Bool)) : Except String ℚ :=
  let opinions_used :=
    match use_opinion with
    | some flags => ((opinions.zip flags).filter fun p => p.2).map Prod.fst
    | none => opinions
  match conflict_type with
  | .ACCUMULATE => .ok (accumulated_operator rel opinions_used)
  | .AVERAGE => .ok (average_operator rel opinions_used)
  | other => do
    let fusion_type ← get_belief_fusion_type other
    belief_conflict_operator rel fusion_type opinions_used

/-- The entry point `Conflict::conflict(conflict_type, opinions, use_opinion)`. -/
def conflict (conflict_type : ConflictType) (opinions : List (OpinionNoBase N))
    (use_opinion : Option (List Bool)) : Except String ℚ :=
  function_switch .CONFLICT conflict_type opinions use_opinion

/-- The entry point `Conflict::harmony(conflict_type, opinions, use_opinion)`. -/
def harmony (conflict_type : ConflictType) (opinions : List (OpinionNoBase N))
    (use_opinion : Option (List Bool)) : Except String ℚ :=
  function_switch .HARMONY conflict_type opinions use_opinion

/-- The entry point `Conflict::conflict_shares<RelationT>(conflict_type, opinions)`. -/
def conflict_shares (rel : RelationType) (conflict_type : ConflictType)
    (opinions : List (OpinionNoBase N)) : Except String (ℚ × List ℚ) := do
  let number_ops := opinions.length
  let avg_conflict ← match rel with
    | .CONFLICT => conflict conflict_type opinions none
    | .HARMONY => harmony conflict_type opinions none
  if avg_conflict < EPS then
    pure (0, List.replicate number_ops 0)
  else
    let shares ← (List.range number_ops).mapM fun idx => do
      let use_opinions := (List.replicate number_ops true).set idx false
      let conflict_wo_self ← match rel with
        | .CONFLICT => conflict conflict_type opinions (some use_opinions)
        | .HARMONY => harmony conflict_type opinions (some use_opinions)
      pure (1 - conflict_wo_self / avg_conflict)
    pure (avg_conflict, shares)

/-- The function `Conflict::uncertainty_differentials(opinions)`. -/
def uncertainty_differentials (opinions : List (OpinionNoBase N)) : List ℚ :=
  let sum_of_uncertainty := opinions.foldl (fun sum ops => sum + ops.uncertainty) 0
  if sum_of_uncertainty < EPS then
    List.replicate opinions.length 0
  else
    opinions.map fun ops => ops.uncertainty / sum_of_uncertainty

end Conflict

/-! ### `struct Conflict`, instantiated at `OpinionT = Opinion<N, FloatT>` -/

namespace ConflictOpinion

variable {N : ℕ}

/-- The relation applied to a pair of opinions: `degree_of_conflict` or `degree_of_harmony`
of `Opinion`, each taking the priors of the two opinions. -/
def relation (rel : RelationType) (x y : Opinion N) : ℚ :=
  match rel with
  | .CONFLICT => x.degree_of_conflict y
  | .HARMONY => x.degree_of_harmony y

/-- The double loop of `Conflict::accumulated_operator`: for every outer index the relation
to every later element is added. -/
def accumulate_pairs (rel : RelationType) : List (Opinion N) → ℚ
  | [] => 0
  | outer :: rest => (rest.map fun inner => relation rel outer inner).sum +
      accumulate_pairs rel rest

/-- The function `Conflict::accumulated_operator`. -/
def accumulated_operator (rel : RelationType) (opinions : List (Opinion N)) : ℚ :=
  if opinions.length < 2 then 0 else accumulate_pairs rel opinions

/-- The function `Conflict::average_operator`; the number of connections is computed in
`std::size_t` with an integer division. -/
def average_operator (rel : RelationType) (opinions : List (Opinion N)) : ℚ :=
  let num_used := opinions.length
  if num_used < 2 then 0
  else
    let accumulated_conflict := accumulated_operator rel opinions
    let num_connections : ℕ := ((num_used * size_t_pred num_used) % 2 ^ 64) / 2
    accumulated_conflict / (num_connections : ℚ)

/-- The function `Conflict::belief_conflicts`. -/
def belief_conflicts (rel : RelationType) (reference_fusion_type : FusionType)
    (opinions : List (Opinion N)) (reference_fusion : Option (Opinion N)) :
    Except String (List ℚ × ℚ × ℚ) := do
  let reference ← match reference_fusion with
    | some r => pure r
    | none => FusionOpinion.fuse_opinions reference_fusion_type opinions
  let conflicts := opinions.map fun opinion => relation rel reference opinion
  let max_conflict := conflicts.foldl (fun m c => if c > m then c else m) 0
  let acc_conflict := conflicts.foldl (fun acc c => acc + c) 0
  let avg_conflict := acc_conflict / (opinions.length : ℚ)
  pure (conflicts, max_conflict, avg_conflict)

/-- The function `Conflict::belief_conflict_operator`. -/
def belief_conflict_operator (rel : RelationType) (reference_fusion_type : FusionType)
    (opinions : List (Opinion N)) : Except String ℚ := do
  let r ← belief_conflicts rel reference_fusion_type opinions none
  pure r.2.2

/-- The function `Conflict::function_switch`. -/
def function_switch (rel : RelationType) (conflict_type : ConflictType)
    (opinions : List (Opinion N)) (use_opinion : Option (List Bool)) : Except String ℚ :=
  let opinions_used :=
    match use_opinion with
    | some flags => ((opinions.zip flags).filter fun p => p.2).map Prod.fst
    | none => opinions
  match conflict_type with
  | .ACCUMULATE => .ok (accumulated_operator rel opinions_used)
  | .AVERAGE => .ok (average_operator rel opinions_used)
  | other => do
    let fusion_type ← Conflict.get_belief_fusion_type other
    belief_conflict_operator rel fusion_type opinions_used

/-- The entry point `Conflict::conflict(conflict_type, opinions, use_opinion)`. -/
def conflict (conflict_type : ConflictType) (opinions : List (Opinion N))
    (use_opinion : Option (List Bool)) : Except String ℚ :=
  function_switch .CONFLICT conflict_type opinions use_opinion

/-- The entry point `Conflict::harmony(conflict_type, opinions, use_opinion)`. -/
def harmony (conflict_type : ConflictType) (opinions : List (Opinion N))
    (use_opinion : Option (List Bool)) : Except String ℚ :=
  function_switch .HARMONY conflict_type opinions use_opinion

/-- The entry point `Conflict::conflict_shares<RelationT>(conflict_type, opinions)`. -/
def conflict_shares (rel : RelationType) (conflict_type : ConflictType)
    (opinions : List (Opinion N)) : Except String (ℚ × List ℚ) := do
  let number_ops := opinions.length
  let avg_conflict ← match rel with
    | .CONFLICT => conflict conflict_type opinions none
    | .HARMONY => harmony conflict_type opinions none
  if avg_conflict < EPS then
    pure (0, List.replicate number_ops 0)
  else
    let shares ← (List.range number_ops).mapM fun idx => do
      let use_opinions := (List.replicate number_ops true).set idx false
      let conflict_wo_self ← match rel with
        | .CONFLICT => conflict conflict_type opinions (some use_opinions)
        | .HARMONY => harmony conflict_type opinions (some use_opinions)
      pure (1 - conflict_wo_self / avg_conflict)
    pure (avg_conflict, shares)

/-- The function `Conflict::uncertainty_differentials(opinions)`. -/
def uncertainty_differentials (opinions : List (Opinion N)) : List ℚ :=
  let sum_of_uncertainty := opinions.foldl (fun sum ops => sum + ops.uncertainty) 0
  if sum_of_uncertainty < EPS then
    List.replicate opinions.length 0
  else
    opinions.map fun ops => ops.uncertainty / sum_of_uncertainty

end ConflictOpinion

/-- The overload `Conflict::uncertainty_differentials(opinions)` for a list of
`TrustedOpinion`s: the differentials of the extracted trusts. -/
def Conflict.uncertainty_differentials_trusted {O : Type}
    (opinions : List (TrustedOpinion O)) : List ℚ :=
  ConflictOpinion.uncertainty_differentials (TrustedOpinion.extractTrusts opinions)

/-- The static template functions of `Fusion` and `Conflict` that `TrustRevision` and
`TrustedFusion` call at their opinion type `OpinionT`. -/
class MultiSourceOps (O : Type) extends OpinionOps O where
  /-- The call `Fusion::fuse_opinions(fusion_type, opinions)`. -/
  fuse_opinions : FusionType → List O → Except String O
  /-- The call `Conflict::conflict(conflict_type, opinions, use_opinion)`. -/
  conflict : ConflictType → List O → Option (List Bool) → Except String ℚ
  /-- The call `Conflict::harmony(conflict_type, opinions, use_opinion)`. -/
  harmony : ConflictType → List O → Option (List Bool) → Except String ℚ
  /-- The call `Conflict::conflict_shares<RelationT>(conflict_type, opinions)`. -/
  conflict_shares : RelationType → ConflictType → List O → Except String (ℚ × List ℚ)
  /-- The call `Conflict::belief_conflicts<RelationT>(fusion_type, opinions, reference)`. -/
  belief_conflicts : RelationType → FusionType → List O → Option O →
    Except String (List ℚ × ℚ × ℚ)

instance instMultiSourceOpsNoBase {N : ℕ} : MultiSourceOps (OpinionNoBase N) where
  fuse_opinions := Fusion.fuse_opinions
  conflict := Conflict.conflict
  harmony := Conflict.harmony
  conflict_shares := Conflict.conflict_shares
  belief_conflicts := Conflict.belief_conflicts

instance instMultiSourceOpsOpinion {N : ℕ} : MultiSourceOps (Opinion N) where
  fuse_opinions := FusionOpinion.fuse_opinions
  conflict := ConflictOpinion.conflict
  harmony := ConflictOpinion.harmony
  conflict_shares := ConflictOpinion.conflict_shares
  belief_conflicts := ConflictOpinion.belief_conflicts

/-- The enumeration `TrustRevision::TrustRevisionType`. -/
inductive TrustRevisionType where
  | NORMAL
  | HARMONY_NORMAL
  | CONFLICT_SHARES
  | CONFLICT_SHARES_ALLOW_NEGATIVE
  | HARMONY_SHARES
  | HARMONY_SHARES_ALLOW_NEGATIVE
  | REFERENCE_FUSION
  | HARMONY_REFERENCE_FUSION
  deriving DecidableEq, Repr

/-! ### `struct TrustRevision`

An index loop `for (idx = 0; idx < num_ops; ++idx) ... v[idx]` is a map over
`List.range num_ops` reading `v.getD idx 0`; every vector read this way has `num_ops`
entries. -/

namespace TrustRevision

variable {O : Type} [MultiSourceOps O]

/-- The function `TrustRevision::normal_trust_revision<RelationT>`. -/
def normal_trust_revision (rel : RelationType) (conflict_type : ConflictType)
    (opinions : List (TrustedOpinion O)) : Except String (List ℚ) := do
  let num_ops := opinions.length
  let discounted_opinions := TrustedOpinion.extractDiscountedOpinions opinions
  let uncertainty_differentials := Conflict.uncertainty_differentials_trusted opinions
  let conflict ← match rel with
    | .CONFLICT => MultiSourceOps.conflict conflict_type discounted_opinions none
    | .HARMONY => MultiSourceOps.harmony conflict_type discounted_opinions none
  pure ((List.range num_ops).map fun idx =>
    let score := uncertainty_differentials.getD idx 0 * conflict
    match rel with
    | .HARMONY => score * -1
    | .CONFLICT => score)

/-- The function `TrustRevision::conflict_shares_trust_revision<RelationT>`. -/
def conflict_shares_trust_revision (rel : RelationType) (conflict_type : ConflictType)
    (opinions : List (TrustedOpinion O)) (positive_scores_only : Bool) :
    Except String (List ℚ) := do
  let num_ops := opinions.length
  let raw_opinions := TrustedOpinion.extractOpinions opinions
  let discounted_opinions := TrustedOpinion.extractDiscountedOpinions opinions
  let (conflict_avg, conflict_shares) ←
    MultiSourceOps.conflict_shares rel ConflictType.AVERAGE raw_opinions
  let conflict ←
    if conflict_type ≠ ConflictType.AVERAGE then
      match rel with
      | .CONFLICT => MultiSourceOps.conflict conflict_type discounted_opinions none
      | .HARMONY => MultiSourceOps.harmony conflict_type discounted_opinions none
    else
      pure conflict_avg
  pure ((List.range num_ops).map fun idx =>
    let share := conflict_shares.getD idx 0
    if positive_scores_only && decide (share < 0) then 0
    else
      let scaled_share := conflict * share
      match rel with
      | .HARMONY => scaled_share * -1
      | .CONFLICT => scaled_share)

/-- The function `TrustRevision::reference_fusion_trust_revision<RelationT>`, in the variant
compiled with `BELIEF_REVISION_FOLLOWING_JOSAN` defined. -/
def reference_fusion_trust_revision (rel : RelationType) (conflict_type : ConflictType)
    (trusted_opinions : List (TrustedOpinion O)) : Except String (List ℚ) := do
  let num_ops := trusted_opinions.length
  let discounted_opinions := TrustedOpinion.extractDiscountedOpinions trusted_opinions
  let opinions := TrustedOpinion.extractOpinions trusted_opinions
  let fusion_type ← Conflict.get_belief_fusion_type conflict_type
  let reference_fusion ← MultiSourceOps.fuse_opinions fusion_type discounted_opinions
  let fusion_type_again ← Conflict.get_belief_fusion_type conflict_type
  let (belief_conflicts, max_conflict, avg_conflict) ←
    MultiSourceOps.belief_conflicts rel fusion_type_again opinions (some reference_fusion)
  let denom := max_conflict - avg_conflict
  pure ((List.range num_ops).map fun idx =>
    let relative_conflict := belief_conflicts.getD idx 0 - avg_conflict
    if relative_conflict ≤ 0 then 0
    else
      let revision_factor := max_conflict * relative_conflict / denom
      match rel with
      | .HARMONY => revision_factor * -1
      | .CONFLICT => revision_factor)

/-- The entry point `TrustRevision::revision_factors(trust_revision_type, conflict_type,
opinions, use_opinion)`. -/
def revision_factors (trust_revision_type : TrustRevisionType) (conflict_type : ConflictType)
    (opinions : List (TrustedOpinion O)) (use_opinion : Option (List Bool)) :
    Except String (List ℚ) :=
  let opinions_used :=
    match use_opinion with
    | some flags => ((opinions.zip flags).filter fun p => p.2).map Prod.fst
    | none => opinions
  match trust_revision_type with
  | .NORMAL => normal_trust_revision .CONFLICT conflict_type opinions_used
  | .HARMONY_NORMAL => normal_trust_revision .HARMONY conflict_type opinions_used
  | .CONFLICT_SHARES => conflict_shares_trust_revision .CONFLICT conflict_type opinions_used true
  | .CONFLICT_SHARES_ALLOW_NEGATIVE =>
    conflict_shares_trust_revision .CONFLICT conflict_type opinions_used false
  | .HARMONY_SHARES => conflict_shares_trust_revision .HARMONY conflict_type opinions_used true
  | .HARMONY_SHARES_ALLOW_NEGATIVE =>
    conflict_shares_trust_revision .HARMONY conflict_type opinions_used false
  | .REFERENCE_FUSION => reference_fusion_trust_revision .CONFLICT conflict_type opinions_used
  | .HARMONY_REFERENCE_FUSION =>
    reference_fusion_trust_revision .HARMONY conflict_type opinions_used

end TrustRevision

/-! ### `struct TrustedFusion`

A call returns the caller's list as the callee leaves it together with the returned opinion
or the error raised; the copying entry points take the list by constant reference and run
the same `fusion_calculation` as the in-place ones. -/

/-- The alias `TrustedFusion::WeightedTypes`: revision type, conflict type and weight. -/
abbrev WeightedTypes : Type := TrustRevisionType × ConflictType × ℚ

namespace TrustedFusion

variable {O : Type} [MultiSourceOps O]

/-- The first loop of `TrustedFusion::fusion_calculation`: the revision factors of every
triple, computed on the list as passed in, are added up with their weights. -/
def weighted_revision_factors (weighted_types : List WeightedTypes)
    (trusted_opinions : List (TrustedOpinion O)) : Except String (List ℚ) :=
  let number_ops := trusted_opinions.length
  weighted_types.foldlM
    (fun weighted_revision_factors types => do
      let revision_factors ←
        TrustRevision.revision_factors types.1 types.2.1 trusted_opinions none
      pure ((List.range number_ops).map fun op_idx =>
        weighted_revision_factors.getD op_idx 0 + types.2.2 * revision_factors.getD op_idx 0))
    (List.replicate number_ops 0)

/-- The function `TrustedFusion::fusion_calculation`; `revision_function` returns the element
as it leaves it and the opinion it hands to the fusion. -/
def fusion_calculation (fusion_type : FusionType) (weighted_types : List WeightedTypes)
    (trusted_opinions : List (TrustedOpinion O))
    (revision_function : TrustedOpinion O → ℚ → TrustedOpinion O × O) :
    List (TrustedOpinion O) × Except String O :=
  match weighted_revision_factors weighted_types trusted_opinions with
  | .error e => (trusted_opinions, .error e)
  | .ok weighted_revision_factors =>
    let transformed := List.zipWith revision_function trusted_opinions weighted_revision_factors
    let discounted_opinions := transformed.map Prod.snd
    (transformed.map Prod.fst, MultiSourceOps.fuse_opinions fusion_type discounted_opinions)

/-- The revision function of the copying entry points: the trust of a copy is revised and
the discounted opinion of the copy is returned. -/
def revision_function_copy (top : TrustedOpinion O) (revision_factor : ℚ) :
    TrustedOpinion O × O :=
  let copy := top.revise_trust_ revision_factor
  (top, copy.discounted_opinion)

/-- The revision function of the in-place entry points: the trust of the element itself is
revised and its discounted opinion is returned. -/
def revision_function_inplace (top : TrustedOpinion O) (revision_factor : ℚ) :
    TrustedOpinion O × O :=
  let top := top.revise_trust_ revision_factor
  (top, top.discounted_opinion)

/-- The entry point `TrustedFusion::fuse_opinions(fusion_type, weighted_conflict_types,
trusted_opinions)`. -/
def fuse_opinions_weighted (fusion_type : FusionType)
    (weighted_conflict_types : List WeightedTypes)
    (trusted_opinions : List (TrustedOpinion O)) : List (TrustedOpinion O) × Except String O :=
  fusion_calculation fusion_type weighted_conflict_types trusted_opinions
    revision_function_copy

/-- The entry point `TrustedFusion::fuse_opinions(fusion_type, trusted_opinions)`. -/
def fuse_opinions (fusion_type : FusionType) (trusted_opinions : List (TrustedOpinion O)) :
    List (TrustedOpinion O) × Except String O :=
  fusion_calculation fusion_type [] trusted_opinions revision_function_copy

/-- The entry point `TrustedFusion::fuse_opinions(fusion_type, trust_revision_type,
conflict_type, trusted_opinions)`. -/
def fuse_opinions_typed (fusion_type : FusionType) (trust_revision_type : TrustRevisionType)
    (conflict_type : ConflictType) (trusted_opinions : List (TrustedOpinion O)) :
    List (TrustedOpinion O) × Except String O :=
  fuse_opinions_weighted fusion_type [(trust_revision_type, conflict_type, 1)]
    trusted_opinions

/-- The in-place entry point `TrustedFusion::fuse_opinions_(fusion_type,
weighted_conflict_types, trusted_opinions)`. -/
def fuse_opinions_weighted_ (fusion_type : FusionType)
    (weighted_conflict_types : List WeightedTypes)
    (trusted_opinions : List (TrustedOpinion O)) : List (TrustedOpinion O) × Except String O :=
  fusion_calculation fusion_type weighted_conflict_types trusted_opinions
    revision_function_inplace

/-- The in-place entry point `TrustedFusion::fuse_opinions_(fusion_type,
trust_revision_type, conflict_type, trusted_opinions)`. -/
def fuse_opinions_typed_ (fusion_type : FusionType) (trust_revision_type : TrustRevisionType)
    (conflict_type : ConflictType) (trusted_opinions : List (TrustedOpinion O)) :
    List (TrustedOpinion O) × Except String O :=
  fuse_opinions_weighted_ fusion_type [(trust_revision_type, conflict_type, 1)]
    trusted_opinions

end TrustedFusion

/-! ### Reference notions used to state the properties -/

section Reference

variable {N : ℕ}

/-- The dogmatic members of a list: the opinions with `|uncertainty| < EPS`, in list order. -/
def dogmatic (opinions : List (OpinionNoBase N)) : List (OpinionNoBase N) :=
  opinions.filter fun o => decide (|o.uncertainty| < EPS)

/-- The elementwise arithmetic mean of the belief masses of a list of opinions. -/
def belief_mean (opinions : List (OpinionNoBase N)) : OpinionNoBase N :=
  ⟨fun idx => (opinions.map fun o => o.belief_masses idx).sum / (opinions.length : ℚ)⟩

/-- The dogmatic members of a list of `Opinion`s: those with `|uncertainty| < EPS`. -/
def dogmatic_opinions (opinions : List (Opinion N)) : List (Opinion N) :=
  opinions.filter fun o => decide (|o.uncertainty| < EPS)

/-- The opinion that puts belief mass `1` on hypothesis `i` and `0` on every other one. -/
def full_belief_on (i : Fin N) : OpinionNoBase N := ⟨fun j => if j = i then 1 else 0⟩

/-- The list of `N` opinions whose `i`-th member puts its whole belief mass on hypothesis `i`. -/
def distinct_full_beliefs (N : ℕ) : List (OpinionNoBase N) :=
  (List.finRange N).map full_belief_on

/-- The degree of conflict of two `Opinion`s in which each opinion is projected with its own
prior: half the summed absolute difference of the projections `b + u a`, times
`(1 - u_x) (1 - u_y)`. -/
def own_prior_degree_of_conflict (x y : Opinion N) : ℚ :=
  (1 / 2) * (∑ idx, |x.getProjection idx - y.getProjection idx|) *
    ((1 - x.uncertainty) * (1 - y.uncertainty))

/-- The trust revision type of the shares strategy for a relation, without or with
`ALLOW_NEGATIVE`. -/
def shares_revision_type (rel : RelationType) (allow_negative : Bool) : TrustRevisionType :=
  match rel, allow_negative with
  | .CONFLICT, false => .CONFLICT_SHARES
  | .CONFLICT, true => .CONFLICT_SHARES_ALLOW_NEGATIVE
  | .HARMONY, false => .HARMONY_SHARES
  | .HARMONY, true => .HARMONY_SHARES_ALLOW_NEGATIVE

/-- The revision factor of the shares strategy for a source with share `share`, given the
aggregate `conflict`: `0` for a negative share unless negative shares are allowed, and
otherwise `conflict * share`, negated for the HARMONY relation. -/
def shares_factor (rel : RelationType) (allow_negative : Bool) (conflict share : ℚ) : ℚ :=
  if allow_negative = false ∧ share < 0 then 0
  else
    match rel with
    | .CONFLICT => conflict * share
    | .HARMONY => -(conflict * share)

/-- Three fully trusted sources with the binomial opinions `(1, 0)`, `(1, 0)`, `(0, 1)`: the
third one contradicts the other two. -/
def contradicting_sources : List (TrustedOpinion (OpinionNoBase 2)) :=
  [⟨⟨OpinionNoBase.binomial 1 0, ![1/2, 1/2]⟩, OpinionNoBase.binomial 1 0⟩,
    ⟨⟨OpinionNoBase.binomial 1 0, ![1/2, 1/2]⟩, OpinionNoBase.binomial 1 0⟩,
    ⟨⟨OpinionNoBase.binomial 1 0, ![1/2, 1/2]⟩, OpinionNoBase.binomial 0 1⟩]

end Reference

end multisource

/-! ## Further operators of `OpinionNoBase` and `Opinion` -/

/-- The function template `min<0, N>(func)` of `util.hpp`: the first value, replaced by every
later value that is smaller. The template requires `N > 0`. -/
def util_min : {N : ℕ} → (Fin N → ℚ) → ℚ
  | 0, _ => 0
  | _ + 1, func =>
    (List.finRange _).tail.foldl (fun min idx => if func idx < min then func idx else min)
      (func 0)

/-- Rounding to the nearest integer, a tie going to the even neighbour. -/
def round_half_even (q : ℚ) : ℤ :=
  let f := ⌊q⌋
  let r := q - f
  if r < 1 / 2 then f
  else if 1 / 2 < r then f + 1
  else if f % 2 = 0 then f else f + 1

/-- The conversion of a value to `float` (IEEE binary32, round to nearest, ties to even):
a significand of 24 bits at the binary exponent of the value, which is at least `-126`.
Values of magnitude `2^128` and above, which convert to an infinity, are outside the
model. -/
def to_float (x : ℚ) : ℚ :=
  let e : ℤ := max (Int.log 2 |x|) (-126) - 23
  let m := round_half_even (|x| / (2 : ℚ) ^ e)
  if x < 0 then -((m : ℚ) * (2 : ℚ) ^ e) else (m : ℚ) * (2 : ℚ) ^ e

/-- The C library function `fminf(float, float)`: both arguments are converted to `float`
and the smaller one is returned. -/
def fminf (a b : ℚ) : ℚ := min (to_float a) (to_float b)

namespace OpinionNoBase

variable {N : ℕ}

/-- The static member `VacuousBeliefDistr()`: the belief masses of the default-constructed
opinion. -/
def VacuousBeliefDistr : BeliefType N := (vacuous : OpinionNoBase N).belief_masses

/-- The member `cc_fuse_(other)` (and its copying twin `cc_fuse`); the consensus is taken
with `fminf`, whatever `FloatT` is. -/
def cc_fuse_ (this other : OpinionNoBase N) : OpinionNoBase N :=
  let uncert_this := this.uncertainty
  let uncert_other := other.uncertainty
  let consensus : BeliefType N := fun idx =>
    fminf (this.belief_masses idx) (other.belief_masses idx)
  let consensus_sum := ∑ idx, consensus idx
  let resA : BeliefType N := fun idx => this.belief_masses idx - consensus idx
  let resB : BeliefType N := fun idx => other.belief_masses idx - consensus idx
  let compromise : BeliefType N := fun idx =>
    let comp_different :=
      ∑ idx2, if idx = idx2 then 0 else resA idx * resB idx2 + resA idx2 * resB idx
    resA idx * uncert_other + resB idx * uncert_this + resA idx * resB idx + comp_different
  let compromise_sum := ∑ idx, compromise idx
  let uncert_pre := uncert_this * uncert_other
  if |compromise_sum| < EPS then
    ⟨VacuousBeliefDistr⟩
  else
    let normalization := (1 - consensus_sum - uncert_pre) / compromise_sum
    ⟨fun idx => consensus idx + normalization * compromise idx⟩

/-- The member `cc_fuse(other)`: `OpinionNoBase(*this).cc_fuse_(other)`. -/
def cc_fuse (this other : OpinionNoBase N) : OpinionNoBase N := this.cc_fuse_ other

/-- The binomial overload `deduction_(base_x, cond_1, cond_2)` with a scalar base rate (and
its copying twin `deduction`). -/
def deduction_binomial_ (this : OpinionNoBase 2) (base_x : ℚ)
    (cond_1 cond_2 : OpinionNoBase 2) : OpinionNoBase 2 :=
  let a_y_nom := base_x * cond_1.belief + (1 - base_x) * cond_2.belief
  let a_y_denom := 1 - (base_x * cond_1.uncertainty + (1 - base_x) * cond_2.uncertainty)
  let a_y := if |a_y_denom| > EPS then a_y_nom / a_y_denom else base_x
  let P_apex_bel :=
    base_x * cond_1.getBinomialProjection a_y + (1 - base_x) * cond_2.getBinomialProjection a_y
  let uncert_apex :=
    min ((P_apex_bel - min cond_1.belief cond_2.belief) / a_y)
      (((1 - P_apex_bel) - min cond_1.disbelief cond_2.disbelief) / (1 - a_y))
  let uncert_y_x := uncert_apex -
    ((uncert_apex - cond_1.uncertainty) * this.belief +
      (uncert_apex - cond_2.uncertainty) * this.disbelief)
  let P_y_x :=
    cond_1.getBinomialProjection a_y * this.getBinomialProjection base_x +
      cond_2.getBinomialProjection a_y * (1 - this.getBinomialProjection base_x)
  let bel := P_y_x - a_y * uncert_y_x
  ⟨![bel, 1 - bel - uncert_y_x]⟩

/-- The overload `deduction_(base_x, conditionals)` with a base-rate vector and one
conditional opinion per hypothesis (and its copying twin `deduction`). -/
def deduction_ (this : OpinionNoBase N) (base_x : BeliefType N)
    (conditionals : Fin N → OpinionNoBase N) : OpinionNoBase N :=
  let a_y_nom : BeliefType N := fun y_idx =>
    ∑ x_idx, base_x x_idx * (conditionals x_idx).belief_masses y_idx
  let a_y_denom : BeliefType N := fun _ =>
    ∑ x_idx, base_x x_idx * (conditionals x_idx).uncertainty
  let denom_near_zero : Bool := decide (∃ y_idx, 1 - a_y_denom y_idx < EPS)
  let a_y : BeliefType N :=
    if denom_near_zero then base_x
    else fun idx => a_y_nom idx / (1 - a_y_denom idx)
  let x_projection := this.getProjection base_x
  let cond_projections : Fin N → BeliefType N := fun idx =>
    (conditionals idx).getProjection a_y
  let P_apex : BeliefType N := fun y_idx =>
    ∑ x_idx, base_x x_idx * cond_projections x_idx y_idx
  let uncertainties : BeliefType N := fun y_idx =>
    let min_value := util_min fun x_idx => (conditionals x_idx).belief_masses y_idx
    (P_apex y_idx - min_value) / a_y y_idx
  let u_apex := util_min fun y_idx => uncertainties y_idx
  let u_y_x := u_apex * this.uncertainty +
    ∑ x_idx, (conditionals x_idx).uncertainty * this.belief_masses x_idx
  let P_y_x : BeliefType N := fun y_idx =>
    ∑ x_idx, x_projection x_idx * cond_projections x_idx y_idx
  ⟨fun y_idx => P_y_x y_idx - a_y y_idx * u_y_x⟩

end OpinionNoBase

namespace Opinion

variable {N : ℕ}

/-- The binomial accessor `belief()`. -/
def belief (o : Opinion N) : ℚ := o.opinion_no_base.belief

/-- The binomial accessor `disbelief()`. -/
def disbelief (o : Opinion N) : ℚ := o.opinion_no_base.disbelief

/-- The binomial accessor `prior_belief()`, that is `prior_[0]`. -/
def prior_belief (o : Opinion 2) : ℚ := o.prior 0

/-- The binomial accessor `prior_disbelief()`, that is `prior_[1]`. -/
def prior_disbelief (o : Opinion 2) : ℚ := o.prior 1

/-- The member `average_fuse_(other)` (and its copying twin `average_fuse`). -/
def average_fuse_ (this other : Opinion N) : Opinion N :=
  ⟨this.opinion_no_base.average_fuse_ other.opinion_no_base,
    fun idx => (this.prior idx + other.prior idx) / 2⟩

/-- The member `average_fuse(other)`: `Opinion(*this).average_fuse_(other)`. -/
def average_fuse (this other : Opinion N) : Opinion N := this.average_fuse_ other

/-- The binomial member `deduction_(cond_bel, cond_dis)` (and its copying twin `deduction`);
the quotient `a_y_nom / a_y_denom` is taken without a test of the divisor, as in the
source. -/
def deduction_ (this : Opinion 2) (cond_bel cond_dis : Opinion 2) : Opinion 2 :=
  let a_y_nom := this.prior_belief * cond_bel.belief + this.prior_disbelief * cond_dis.belief
  let a_y_denom := 1 -
    (this.prior_belief * cond_bel.uncertainty + this.prior_disbelief * cond_dis.uncertainty)
  let a_y := a_y_nom / a_y_denom
  ⟨this.opinion_no_base.deduction_binomial_ this.getBinomialPrior cond_bel.opinion_no_base
      cond_dis.opinion_no_base,
    ![a_y, 1 - a_y]⟩

/-- The member `deduction(cond_bel, cond_dis)`: `Opinion(*this).deduction_(...)`. -/
def deduction (this : Opinion 2) (cond_bel cond_dis : Opinion 2) : Opinion 2 :=
  this.deduction_ cond_bel cond_dis

end Opinion

/-! ## `DirichletDistribution` and the conversions of `convert.hpp` -/

/-- The class `DirichletDistribution<N, FloatT>`: an evidence vector and a prior. -/
@[ext]
structure DirichletDistribution (N : ℕ) where
  /-- The member `evidence_`. -/
  evidence : BeliefType N
  /-- The member `prior_`. -/
  prior : BeliefType N

namespace DirichletDistribution

variable {N : ℕ}

/-- The static member `from_evidences(evidences)`: the neutral prior is assumed. -/
def from_evidences (evidences : BeliefType N) : DirichletDistribution N :=
  ⟨evidences, fun _ => 1 / (N : ℚ)⟩

/-- The member `alphas()`: `evidence_ + N * prior_`. -/
def alphas (d : DirichletDistribution N) : BeliefType N :=
  fun idx => d.evidence idx + (N : ℚ) * d.prior idx

/-- The conversion `operator Opinion<N, FloatT>()`. -/
def toOpinion (d : DirichletDistribution N) : Opinion N :=
  let denom := (∑ idx, d.evidence idx) + (N : ℚ)
  ⟨⟨fun idx => d.evidence idx / denom⟩, d.prior⟩

/-- The conversion `operator OpinionNoBase<N, FloatT>()`. -/
def toOpinionNoBase (d : DirichletDistribution N) : OpinionNoBase N :=
  let denom := (∑ idx, d.evidence idx) + (N : ℚ)
  ⟨fun idx => d.evidence idx / denom⟩

end DirichletDistribution

/-- The conversion `Opinion::operator DirichletDistribution<N, FloatT>()`. -/
def Opinion.toDirichletDistribution {N : ℕ} (o : Opinion N) : DirichletDistribution N :=
  ⟨fun idx => (N : ℚ) * o.belief_masses idx / o.uncertainty, o.prior_belief_masses⟩

/-- The conversion `OpinionNoBase::operator DirichletDistribution<N, FloatT>()`. -/
def OpinionNoBase.toDirichletDistribution {N : ℕ} (o : OpinionNoBase N) :
    DirichletDistribution N :=
  ⟨fun idx => (N : ℚ) * o.belief_masses idx / o.uncertainty, OpinionNoBase.NeutralBeliefDistr⟩

/-! ## Deduction with the special values of IEEE 754

Where a quotient by zero decides the outcome, the binomial deduction is evaluated over
`FloatX`: finite values are exact rationals, and the quotients by zero are the infinities
and NaN of IEEE 754 (a zero divisor is taken as `+0`; rounding is not modelled). -/

/-- A value of `FloatT` with the special values of IEEE 754: a finite number, an infinity
(`negative` tells its sign) or NaN. -/
inductive FloatX where
  | fin (q : ℚ)
  | inf (negative : Bool)
  | nan
  deriving DecidableEq

namespace FloatX

/-- The sum of IEEE 754: opposite infinities give NaN. -/
def add : FloatX → FloatX → FloatX
  | fin a, fin b => fin (a + b)
  | fin _, inf s => inf s
  | inf s, fin _ => inf s
  | inf s, inf t => if s = t then inf s else nan
  | _, _ => nan

/-- The negation of IEEE 754. -/
def neg : FloatX → FloatX
  | fin a => fin (-a)
  | inf s => inf (!s)
  | nan => nan

/-- The difference of IEEE 754. -/
def sub (a b : FloatX) : FloatX := add a (neg b)

/-- The product of IEEE 754: zero times an infinity is NaN. -/
def mul : FloatX → FloatX → FloatX
  | fin a, fin b => fin (a * b)
  | fin a, inf s => if a = 0 then nan else inf (xor s (decide (a < 0)))
  | inf s, fin b => if b = 0 then nan else inf (xor s (decide (b < 0)))
  | inf s, inf t => inf (xor s t)
  | _, _ => nan

/-- The quotient of IEEE 754: a non-zero number over zero is an infinity, zero over zero and
an infinity over an infinity are NaN. -/
def div : FloatX → FloatX → FloatX
  | fin a, fin b =>
    if b = 0 then (if a = 0 then nan else inf (decide (a < 0))) else fin (a / b)
  | fin _, inf _ => fin 0
  | inf s, fin b => inf (xor s (decide (b < 0)))
  | _, _ => nan

/-- The comparison `a < b` of IEEE 754: false as soon as an operand is NaN. -/
def lt : FloatX → FloatX → Bool
  | fin a, fin b => decide (a < b)
  | fin _, inf s => !s
  | inf s, fin _ => s
  | inf s, inf t => s && !t
  | _, _ => false

/-- The function `std::abs`. -/
def abs : FloatX → FloatX
  | fin a => fin |a|
  | inf _ => inf false
  | nan => nan

/-- The function `std::min(a, b)`, that is `(b < a) ? b : a`. -/
def std_min (a b : FloatX) : FloatX := if lt b a then b else a

instance : Add FloatX := ⟨add⟩
instance : Sub FloatX := ⟨sub⟩
instance : Mul FloatX := ⟨mul⟩
instance : Div FloatX := ⟨div⟩

/-- The member `getBinomialProjection(base_rate)` of a finite opinion at a base rate in
`FloatX`. -/
def getBinomialProjection (o : OpinionNoBase 2) (base_rate : FloatX) : FloatX :=
  fin o.belief + fin o.uncertainty * base_rate

/-- The binomial overload `OpinionNoBase::deduction_(base_x, cond_1, cond_2)` on finite
arguments, every operation taken in `FloatX`; the result is the pair of the new belief and
the new disbelief. -/
def deduction_binomial_ (this : OpinionNoBase 2) (base_x : ℚ)
    (cond_1 cond_2 : OpinionNoBase 2) : FloatX × FloatX :=
  let a_y_nom := fin base_x * fin cond_1.belief + (fin 1 - fin base_x) * fin cond_2.belief
  let a_y_denom := fin 1 -
    (fin base_x * fin cond_1.uncertainty + (fin 1 - fin base_x) * fin cond_2.uncertainty)
  let a_y := if lt (fin EPS) (abs a_y_denom) then a_y_nom / a_y_denom else fin base_x
  let P_apex_bel :=
    fin base_x * getBinomialProjection cond_1 a_y +
      (fin 1 - fin base_x) * getBinomialProjection cond_2 a_y
  let uncert_apex :=
    std_min ((P_apex_bel - std_min (fin cond_1.belief) (fin cond_2.belief)) / a_y)
      (((fin 1 - P_apex_bel) - std_min (fin cond_1.disbelief) (fin cond_2.disbelief)) /
        (fin 1 - a_y))
  let uncert_y_x := uncert_apex -
    ((uncert_apex - fin cond_1.uncertainty) * fin this.belief +
      (uncert_apex - fin cond_2.uncertainty) * fin this.disbelief)
  let P_y_x :=
    getBinomialProjection cond_1 a_y * getBinomialProjection this (fin base_x) +
      getBinomialProjection cond_2 a_y * (fin 1 - getBinomialProjection this (fin base_x))
  let bel := P_y_x - a_y * uncert_y_x
  (bel, fin 1 - bel - uncert_y_x)

end FloatX

/-! ## Evidence, dissonance, multiplication, reduction and the prior-aware fusions -/

namespace OpinionNoBase

variable {N : ℕ}

/-- The member `evidence()`: `belief_masses_ * (SIZE / uncertainty())`. -/
def evidence (o : OpinionNoBase N) : BeliefType N := fun idx =>
  o.belief_masses idx * ((N : ℚ) / o.uncertainty)

/-- The lambda `balance` of `dissonance()`. -/
def balance (a b : ℚ) : ℚ :=
  let denom := a + b
  if denom < EPS then 0
  else
    let diff := a - b
    if diff < 0 then 1 + diff else 1 - diff

/-- The member `dissonance()`; an index whose `denom` is below `EPS` adds nothing. -/
def dissonance (o : OpinionNoBase N) : ℚ :=
  let belief_sum := ∑ idx, o.belief_masses idx
  ∑ i,
    let other_balanced :=
      ∑ j, if i = j then 0
        else o.belief_masses j * balance (o.belief_masses i) (o.belief_masses j)
    let denom := belief_sum - o.belief_masses i
    if denom < EPS then 0 else o.belief_masses i * other_balanced / denom

/-- The binomial member `multiply_(other, base_this, base_other)` (and its copying twin
`multiply`). -/
def multiply_ (this other : OpinionNoBase 2) (base_this base_other : ℚ) : OpinionNoBase 2 :=
  let fac := (1 - base_this) * base_other * this.belief * other.uncertainty +
    base_this * (1 - base_other) * this.uncertainty * other.belief
  let fac := fac / (1 - base_this * base_other)
  ⟨![this.belief * other.belief + fac,
    this.disbelief + (other.disbelief - this.disbelief * other.disbelief)]⟩

/-- The member `wb_fuse_(other)` (and its copying twin `wb_fuse`). -/
def wb_fuse_ (this other : OpinionNoBase N) : OpinionNoBase N :=
  let uncert_this := this.uncertainty
  let uncert_other := other.uncertainty
  let denom := uncert_this + uncert_other - 2 * uncert_this * uncert_other
  if |denom| < EPS then
    if |uncert_this * uncert_other| < EPS then
      ⟨fun idx => (this.belief_masses idx + other.belief_masses idx) / 2⟩
    else
      ⟨VacuousBeliefDistr⟩
  else
    ⟨fun idx =>
      (this.belief_masses idx * (1 - uncert_this) * uncert_other +
        other.belief_masses idx * (1 - uncert_other) * uncert_this) / denom⟩

/-- The member `getReducedOpinion<newN>(instance_reduction)`: the loop adds the belief mass
of every old hypothesis to the entry of its new hypothesis; the type of `instance_reduction`
renders `assert(new_hypotheses < newN)`. -/
def getReducedOpinion {newN : ℕ} (o : OpinionNoBase N) (instance_reduction : Fin N → Fin newN) :
    OpinionNoBase newN :=
  ⟨(List.finRange N).foldl
    (fun out idx =>
      Function.update out (instance_reduction idx)
        (out (instance_reduction idx) + o.belief_masses idx))
    (fun _ => 0)⟩

end OpinionNoBase

namespace Opinion

variable {N : ℕ}

/-- The binomial member `multiply_(other)` (and its copying twin `multiply`). -/
def multiply_ (this other : Opinion 2) : Opinion 2 :=
  let prior_belief := this.prior_belief * other.prior_belief
  ⟨this.opinion_no_base.multiply_ other.opinion_no_base this.prior_belief other.prior_belief,
    ![prior_belief, 1 - prior_belief]⟩

/-- The member `multiply(other)`: `Opinion(*this).multiply_(other)`. -/
def multiply (this other : Opinion 2) : Opinion 2 := this.multiply_ other

/-- The member `cum_fuse_(other)` (and its copying twin `cum_fuse`). -/
def cum_fuse_ (this other : Opinion N) : Opinion N :=
  let uncert_this := this.uncertainty
  let uncert_other := other.uncertainty
  let fused := this.opinion_no_base.cum_fuse_ other.opinion_no_base
  let denom := uncert_this + uncert_other - 2 * uncert_this * uncert_other
  if |denom| < EPS then
    ⟨fused, fun idx => (this.prior idx + other.prior idx) / 2⟩
  else
    ⟨fused, fun idx =>
      (this.prior idx * uncert_other + other.prior idx * uncert_this -
        (this.prior idx + other.prior idx) * uncert_this * uncert_other) / denom⟩

/-- The member `cum_fuse(other)`: `Opinion(*this).cum_fuse_(other)`. -/
def cum_fuse (this other : Opinion N) : Opinion N := this.cum_fuse_ other

/-- The member `bc_fuse(other)`: `Opinion(*this).bc_fuse_(other)`. -/
def bc_fuse (this other : Opinion N) : Opinion N := this.bc_fuse_ other

/-- The member `wb_fuse_(other)` (and its copying twin `wb_fuse`). -/
def wb_fuse_ (this other : Opinion N) : Opinion N :=
  let uncert_this := this.uncertainty
  let uncert_other := other.uncertainty
  let fused := this.opinion_no_base.wb_fuse_ other.opinion_no_base
  let denom := 2 - uncert_this - uncert_other
  if |denom| < EPS then
    ⟨fused, fun idx => (this.prior idx + other.prior idx) / 2⟩
  else
    ⟨fused, fun idx =>
      (this.prior idx * (1 - uncert_this) + other.prior idx * (1 - uncert_other)) / denom⟩

/-- The member `wb_fuse(other)`: `Opinion(*this).wb_fuse_(other)`. -/
def wb_fuse (this other : Opinion N) : Opinion N := this.wb_fuse_ other

/-- The member `cc_fuse_(other)` (and its copying twin `cc_fuse`): the prior is kept. -/
def cc_fuse_ (this other : Opinion N) : Opinion N :=
  ⟨this.opinion_no_base.cc_fuse_ other.opinion_no_base, this.prior⟩

/-- The member `cc_fuse(other)`: `Opinion(*this).cc_fuse_(other)`. -/
def cc_fuse (this other : Opinion N) : Opinion N := this.cc_fuse_ other

/-- The member `getReducedOpinion<newN>(instance_reduction)`: the loop adds the belief mass
and the prior mass of every old hypothesis to the entries of its new hypothesis. -/
def getReducedOpinion {newN : ℕ} (o : Opinion N) (instance_reduction : Fin N → Fin newN) :
    Opinion newN :=
  let out := (List.finRange N).foldl
    (fun (out : BeliefType newN × BeliefType newN) idx =>
      (Function.update out.1 (instance_reduction idx)
          (out.1 (instance_reduction idx) + o.belief_masses idx),
        Function.update out.2 (instance_reduction idx)
          (out.2 (instance_reduction idx) + o.prior_belief_masses idx)))
    (fun _ => 0, fun _ => 0)
  ⟨⟨out.1⟩, out.2⟩

end Opinion

namespace DirichletDistribution

variable {N : ℕ}

/-- The member `mean()`: `alphas / alphas.sum()`. -/
def mean (d : DirichletDistribution N) : BeliefType N :=
  let alphas := d.alphas
  let sum := ∑ idx, alphas idx
  fun idx => alphas idx / sum

/-- The member `moment_matching_update_(probabilities)` (and its copying twin
`moment_matching_update`). -/
def moment_matching_update_ (d : DirichletDistribution N) (probabilities : BeliefType N) :
    DirichletDistribution N :=
  let alphas := d.alphas
  let S := ∑ idx, alphas idx
  let moments : BeliefType N := fun idx => (alphas idx + probabilities idx) / (1 + S)
  let variances : BeliefType N := fun idx =>
    (1 + alphas idx) * (alphas idx + 2 * probabilities idx) / ((1 + S) * (2 + S))
  let nom : BeliefType N := fun idx =>
    (moments idx - variances idx) * (moments idx * (1 - moments idx))
  let denom : BeliefType N := fun idx =>
    (variances idx - moments idx * moments idx) * (moments idx * (1 - moments idx))
  let factor := (∑ idx, nom idx) / (∑ idx, denom idx)
  let new_alphas : BeliefType N := fun idx => moments idx * factor
  ⟨fun idx => new_alphas idx - (N : ℚ) * d.prior idx, d.prior⟩

/-- The member `moment_matching_update(probabilities)`. -/
def moment_matching_update (d : DirichletDistribution N) (probabilities : BeliefType N) :
    DirichletDistribution N :=
  d.moment_matching_update_ probabilities

end DirichletDistribution

/-! ## Reference notions for the operators

Quantities that the statements below name; each is written from the wording of the
statement and compared with the operator by a theorem. -/

section OperatorReference

variable {N : ℕ}

/-- The consensus that `cc_fuse_` computes: the elementwise `fminf` of the belief masses. -/
def cc_consensus (x y : OpinionNoBase N) : BeliefType N := fun idx =>
  fminf (x.belief_masses idx) (y.belief_masses idx)

/-- The compromise that `cc_fuse_` computes from the belief masses that remain after the
consensus is taken away. -/
def cc_compromise (x y : OpinionNoBase N) : BeliefType N := fun idx =>
  (x.belief_masses idx - cc_consensus x y idx) * y.uncertainty +
    (y.belief_masses idx - cc_consensus x y idx) * x.uncertainty +
    (x.belief_masses idx - cc_consensus x y idx) * (y.belief_masses idx - cc_consensus x y idx) +
    ∑ idx2, if idx = idx2 then 0 else
      (x.belief_masses idx - cc_consensus x y idx) *
          (y.belief_masses idx2 - cc_consensus x y idx2) +
        (x.belief_masses idx2 - cc_consensus x y idx2) *
          (y.belief_masses idx - cc_consensus x y idx)

/-- The compromise sum that `cc_fuse_` computes: the sum of all entries of the compromise. -/
def cc_compromise_sum (x y : OpinionNoBase N) : ℚ := ∑ idx, cc_compromise x y idx

/-- The compromise sum of two opinions when the consensus is the exact elementwise minimum
of the belief masses. -/
def exact_cc_compromise_sum (x y : OpinionNoBase N) : ℚ :=
  ∑ idx,
    ((x.belief_masses idx - min (x.belief_masses idx) (y.belief_masses idx)) * y.uncertainty +
      (y.belief_masses idx - min (x.belief_masses idx) (y.belief_masses idx)) * x.uncertainty +
      (x.belief_masses idx - min (x.belief_masses idx) (y.belief_masses idx)) *
        (y.belief_masses idx - min (x.belief_masses idx) (y.belief_masses idx)) +
      ∑ idx2, if idx = idx2 then 0 else
        (x.belief_masses idx - min (x.belief_masses idx) (y.belief_masses idx)) *
            (y.belief_masses idx2 - min (x.belief_masses idx2) (y.belief_masses idx2)) +
          (x.belief_masses idx2 - min (x.belief_masses idx2) (y.belief_masses idx2)) *
            (y.belief_masses idx - min (x.belief_masses idx) (y.belief_masses idx)))

/-- The induced base rate `a_y` that the binomial `OpinionNoBase::deduction_` computes first:
the quotient `a_y_nom / a_y_denom`, and the base rate `base_x` when `|a_y_denom|` does not
exceed `EPS`. -/
def induced_base_rate (base_x : ℚ) (cond_1 cond_2 : OpinionNoBase 2) : ℚ :=
  if |1 - (base_x * cond_1.uncertainty + (1 - base_x) * cond_2.uncertainty)| > EPS then
    (base_x * cond_1.belief + (1 - base_x) * cond_2.belief) /
      (1 - (base_x * cond_1.uncertainty + (1 - base_x) * cond_2.uncertainty))
  else base_x

/-- The unnormalised belief masses of the belief constraint fusion of three opinions: every
product of one factor per opinion, each factor a belief mass of the hypothesis or the
uncertainty, that names the hypothesis at least once. -/
def bc_triple_harmony (w a b : OpinionNoBase N) : BeliefType N := fun idx =>
  w.belief_masses idx * a.uncertainty * b.uncertainty +
    w.uncertainty * a.belief_masses idx * b.uncertainty +
    w.uncertainty * a.uncertainty * b.belief_masses idx +
    w.belief_masses idx * a.belief_masses idx * b.uncertainty +
    w.belief_masses idx * a.uncertainty * b.belief_masses idx +
    w.uncertainty * a.belief_masses idx * b.belief_masses idx +
    w.belief_masses idx * a.belief_masses idx * b.belief_masses idx

/-- The balance function of reference [2]: `1 - |b_j - b_i| / (b_j + b_i)` when
`b_i + b_j > 0`, and `0` otherwise. -/
def reference_balance (bj bi : ℚ) : ℚ :=
  if bi + bj > 0 then 1 - |bj - bi| / (bj + bi) else 0

/-- The dissonance of reference [2]: the sum over `i` of
`b_i * (sum over j ≠ i of b_j * Bal(b_j, b_i)) / (sum over j ≠ i of b_j)`, a term with a zero
denominator adding nothing. -/
def reference_dissonance (o : OpinionNoBase N) : ℚ :=
  ∑ i,
    if (∑ j, if j = i then 0 else o.belief_masses j) = 0 then 0
    else
      o.belief_masses i *
        (∑ j, if j = i then 0
          else o.belief_masses j * reference_balance (o.belief_masses j) (o.belief_masses i)) /
        (∑ j, if j = i then 0 else o.belief_masses j)

/-- The scaling factor that `moment_matching_update_` computes: `nom.sum() / denom.sum()`. -/
def moment_matching_factor (d : DirichletDistribution N) (probabilities : BeliefType N) : ℚ :=
  (∑ idx,
    ((d.alphas idx + probabilities idx) / (1 + ∑ i, d.alphas i) -
        (1 + d.alphas idx) * (d.alphas idx + 2 * probabilities idx) /
          ((1 + ∑ i, d.alphas i) * (2 + ∑ i, d.alphas i))) *
      ((d.alphas idx + probabilities idx) / (1 + ∑ i, d.alphas i) *
        (1 - (d.alphas idx + probabilities idx) / (1 + ∑ i, d.alphas i)))) /
  (∑ idx,
    ((1 + d.alphas idx) * (d.alphas idx + 2 * probabilities idx) /
          ((1 + ∑ i, d.alphas i) * (2 + ∑ i, d.alphas i)) -
        (d.alphas idx + probabilities idx) / (1 + ∑ i, d.alphas i) *
          ((d.alphas idx + probabilities idx) / (1 + ∑ i, d.alphas i))) *
      ((d.alphas idx + probabilities idx) / (1 + ∑ i, d.alphas i) *
        (1 - (d.alphas idx + probabilities idx) / (1 + ∑ i, d.alphas i))))

end OperatorReference

end subjective_logic

/-! # Theorems -/

namespace subjective_logic

/-! ## Auxiliary facts about the list reductions -/

theorem foldl_mul_one_eq_prod (l : List ℚ) : l.foldl (fun x y => x * y) 1 = l.prod :=
  List.prod_eq_foldl.symm

theorem foldl_add_div_eq_sum (P : ℚ) (l : List ℚ) (acc : ℚ) :
    l.foldl (fun sum val => sum + P / val) acc = acc + (l.map fun val => P / val).sum := by
  induction l generalizing acc with
  | nil => simp
  | cons a t ih => simp [ih, add_assoc]

theorem zip_map_self {α β γ : Type} (l : List α) (u : α → β) (g : α × β → γ) :
    (l.zip (l.map u)).map g = l.map fun o => g (o, u o) := by
  induction l with
  | nil => simp
  | cons a t ih => simp [ih]

theorem zip_map_filter_fst {α β : Type} (l : List α) (u : α → β) (p : β → Bool) :
    ((l.zip (l.map u)).filter fun q => p q.2).map Prod.fst = l.filter fun o => p (u o) := by
  induction l with
  | nil => simp
  | cons a t ih =>
    simp only [List.map_cons, List.zip_cons_cons, List.filter_cons]
    by_cases h : p (u a) = true
    · simp [h, ih]
    · simp [h, ih]

theorem perm_isEmpty {α : Type} {l l' : List α} (h : l.Perm l') : l.isEmpty = l'.isEmpty := by
  have := h.length_eq
  cases l <;> cases l' <;> simp_all

theorem size_t_pred_of_pos {n : ℕ} (h0 : 0 < n) (h : n < 2 ^ 64) : size_t_pred n = n - 1 := by
  unfold size_t_pred
  have : n + (2 ^ 64 - 1) = (n - 1) + 2 ^ 64 := by omega
  rw [this, Nat.add_mod_right, Nat.mod_eq_of_lt (by omega)]

namespace multisource

variable {N : ℕ}

namespace Fusion

/-! ## Closed forms of the N-ary fusion -/

theorem preprocess_opinions_eq (l : List (OpinionNoBase N)) (h : l.length ≠ 1) :
    preprocess_opinions l =
      if (dogmatic l).isEmpty then (l.map OpinionNoBase.uncertainty, none)
      else ([], some (belief_mean (dogmatic l))) := by
  unfold preprocess_opinions
  rw [if_neg h]
  simp only [zip_map_filter_fst l OpinionNoBase.uncertainty (fun x => decide (|x| < EPS))]
  by_cases hd : (dogmatic l).isEmpty = true
  · have hd' : (List.filter (fun o => decide (|o.uncertainty| < EPS)) l).isEmpty = true := hd
    simp [hd, hd']
  · have hd' : ¬ (List.filter (fun o => decide (|o.uncertainty| < EPS)) l).isEmpty = true := hd
    simp only [hd, hd']
    simp [belief_mean, dogmatic]

theorem fuse_opinions__dogmatic (l : List (OpinionNoBase N)) (h : l.length ≠ 1)
    (hd : (dogmatic l).isEmpty = false)
    (op : List (OpinionNoBase N) → List ℚ → ℚ → OpinionNoBase N) :
    fuse_opinions_ l op = belief_mean (dogmatic l) := by
  unfold fuse_opinions_
  rw [preprocess_opinions_eq l h]
  simp [hd]

theorem fuse_opinions__regular (l : List (OpinionNoBase N)) (h : l.length ≠ 1)
    (hd : (dogmatic l).isEmpty = true)
    (op : List (OpinionNoBase N) → List ℚ → ℚ → OpinionNoBase N) :
    fuse_opinions_ l op =
      op l (l.map OpinionNoBase.uncertainty) (l.map OpinionNoBase.uncertainty).prod := by
  unfold fuse_opinions_
  rw [preprocess_opinions_eq l h]
  simp [hd, foldl_mul_one_eq_prod]

theorem cumulative_fusion_operator_eq (l : List (OpinionNoBase N)) (P : ℚ) :
    cumulative_fusion_operator l (l.map OpinionNoBase.uncertainty) P =
      ⟨fun idx => (l.map fun o => o.belief_masses idx * P / o.uncertainty).sum /
        ((l.map fun o => P / o.uncertainty).sum - (size_t_pred l.length : ℚ) * P)⟩ := by
  unfold cumulative_fusion_operator
  simp only [foldl_add_div_eq_sum, zip_map_self, List.map_map, zero_add]
  rfl

theorem average_fusion_operator_eq (l : List (OpinionNoBase N)) (P : ℚ) :
    average_fusion_operator l (l.map OpinionNoBase.uncertainty) P =
      ⟨fun idx => (l.map fun o => o.belief_masses idx * P / o.uncertainty).sum /
        (l.map fun o => P / o.uncertainty).sum⟩ := by
  unfold average_fusion_operator
  simp only [foldl_add_div_eq_sum, zip_map_self, List.map_map, zero_add]
  rfl

theorem cumulative_fusion_operator_perm {l l' : List (OpinionNoBase N)} (h : l.Perm l') :
    cumulative_fusion_operator l' (l'.map OpinionNoBase.uncertainty)
        (l'.map OpinionNoBase.uncertainty).prod =
      cumulative_fusion_operator l (l.map OpinionNoBase.uncertainty)
        (l.map OpinionNoBase.uncertainty).prod := by
  rw [cumulative_fusion_operator_eq, cumulative_fusion_operator_eq,
    (h.map OpinionNoBase.uncertainty).prod_eq, h.length_eq]
  congr 1
  funext idx
  rw [(h.map _).sum_eq, (h.map _).sum_eq]

theorem average_fusion_operator_perm {l l' : List (OpinionNoBase N)} (h : l.Perm l') :
    average_fusion_operator l' (l'.map OpinionNoBase.uncertainty)
        (l'.map OpinionNoBase.uncertainty).prod =
      average_fusion_operator l (l.map OpinionNoBase.uncertainty)
        (l.map OpinionNoBase.uncertainty).prod := by
  rw [average_fusion_operator_eq, average_fusion_operator_eq,
    (h.map OpinionNoBase.uncertainty).prod_eq]
  congr 1
  funext idx
  rw [(h.map _).sum_eq, (h.map _).sum_eq]

theorem belief_mean_perm {l l' : List (OpinionNoBase N)} (h : l.Perm l') :
    belief_mean l' = belief_mean l := by
  unfold belief_mean
  rw [h.length_eq]
  congr 1
  funext idx
  rw [(h.map _).sum_eq]

theorem dogmatic_perm {l l' : List (OpinionNoBase N)} (h : l.Perm l') :
    (dogmatic l).Perm (dogmatic l') := h.filter _

/-- Permutation invariance of `fuse_opinions_` for an operator that is itself invariant. -/
theorem fuse_opinions__perm {l l' : List (OpinionNoBase N)} (h : l.Perm l')
    (op : List (OpinionNoBase N) → List ℚ → ℚ → OpinionNoBase N)
    (hop : op l' (l'.map OpinionNoBase.uncertainty) (l'.map OpinionNoBase.uncertainty).prod =
      op l (l.map OpinionNoBase.uncertainty) (l.map OpinionNoBase.uncertainty).prod) :
    fuse_opinions_ l' op = fuse_opinions_ l op := by
  by_cases h1 : l.length = 1
  · obtain ⟨o, rfl⟩ := List.length_eq_one.mp h1
    have : l' = [o] := List.perm_singleton.mp h.symm
    rw [this]
  · have h1' : l'.length ≠ 1 := by rw [← h.length_eq]; exact h1
    have hE := perm_isEmpty (dogmatic_perm h)
    cases hd : (dogmatic l).isEmpty
    · rw [fuse_opinions__dogmatic l h1 hd, fuse_opinions__dogmatic l' h1' (hE ▸ hd),
        belief_mean_perm (dogmatic_perm h)]
    · rw [fuse_opinions__regular l h1 hd, fuse_opinions__regular l' h1' (hE ▸ hd), hop]

end Fusion

open OpinionNoBase

namespace FusionOpinion

theorem opinion_preprocess_opinions_eq (l : List (Opinion N)) (h : l.length ≠ 1) :
    preprocess_opinions l =
      if (dogmatic_opinions l).isEmpty then (l.map Opinion.uncertainty, none)
      else ([], some ⟨belief_mean ((dogmatic_opinions l).map Opinion.opinion_no_base),
        OpinionNoBase.NeutralBeliefDistr⟩) := by
  unfold preprocess_opinions
  rw [if_neg h]
  simp only [zip_map_filter_fst l Opinion.uncertainty (fun x => decide (|x| < EPS))]
  by_cases hd : (dogmatic_opinions l).isEmpty = true
  · have hd' : (List.filter (fun o => decide (|o.uncertainty| < EPS)) l).isEmpty = true := hd
    simp [hd, hd']
  · have hd' : ¬ (List.filter (fun o => decide (|o.uncertainty| < EPS)) l).isEmpty = true := hd
    simp only [hd, hd']
    simp [belief_mean, dogmatic_opinions, Opinion.vacuous, Opinion.belief_masses]
    rfl

theorem opinion_fuse_opinions__dogmatic (l : List (Opinion N)) (h : l.length ≠ 1)
    (hd : (dogmatic_opinions l).isEmpty = false)
    (op : List (Opinion N) → List ℚ → ℚ → Opinion N) :
    fuse_opinions_ l op =
      ⟨belief_mean ((dogmatic_opinions l).map Opinion.opinion_no_base),
        OpinionNoBase.NeutralBeliefDistr⟩ := by
  unfold fuse_opinions_
  rw [opinion_preprocess_opinions_eq l h]
  simp [hd]

theorem opinion_fuse_opinions__regular (l : List (Opinion N)) (h : l.length ≠ 1)
    (hd : (dogmatic_opinions l).isEmpty = true)
    (op : List (Opinion N) → List ℚ → ℚ → Opinion N) :
    fuse_opinions_ l op =
      ⟨(op l (l.map Opinion.uncertainty) (l.map Opinion.uncertainty).prod).opinion_no_base,
        average_prior l⟩ := by
  unfold fuse_opinions_
  rw [opinion_preprocess_opinions_eq l h]
  simp [hd, foldl_mul_one_eq_prod]

theorem average_prior_perm {l l' : List (Opinion N)} (h : l.Perm l') :
    average_prior l' = average_prior l := by
  unfold average_prior
  funext idx
  simp only [h.length_eq]
  rw [(h.map _).sum_eq]

end FusionOpinion

/-! ## Order independence of the N-ary fusion -/

end multisource

/-! ## The pairwise operators -/

theorem EPS_pos : 0 < EPS := by norm_num [EPS]

namespace OpinionNoBase
variable {N : ℕ}

theorem sum_cum_fuse_regular (a b : OpinionNoBase N) (D : ℚ) :
    (∑ idx, (a.belief_masses idx * b.uncertainty + b.belief_masses idx * a.uncertainty) / D) =
      ((1 - a.uncertainty) * b.uncertainty + (1 - b.uncertainty) * a.uncertainty) / D := by
  rw [← Finset.sum_div, Finset.sum_add_distrib, ← Finset.sum_mul, ← Finset.sum_mul]
  simp [uncertainty]

theorem uncertainty_cum_fuse (a b : OpinionNoBase N)
    (h : EPS ≤ |a.uncertainty + b.uncertainty - a.uncertainty * b.uncertainty|) :
    (a.cum_fuse b).uncertainty =
      a.uncertainty * b.uncertainty /
        (a.uncertainty + b.uncertainty - a.uncertainty * b.uncertainty) := by
  have hD : a.uncertainty + b.uncertainty - a.uncertainty * b.uncertainty ≠ 0 := by
    intro h0
    rw [h0, abs_zero] at h
    exact absurd EPS_pos (not_lt.mpr h)
  have hf : ∀ idx, (a.cum_fuse b).belief_masses idx =
      (a.belief_masses idx * b.uncertainty + b.belief_masses idx * a.uncertainty) /
        (a.uncertainty + b.uncertainty - a.uncertainty * b.uncertainty) := by
    intro idx
    simp only [cum_fuse, cum_fuse_]
    rw [if_neg (not_lt.mpr h)]
  show 1 - ∑ idx, (a.cum_fuse b).belief_masses idx = _
  simp only [hf]
  rw [sum_cum_fuse_regular]
  field_simp
  ring

/-! ### Evaluation on binomial opinions -/

theorem binomial_eq_iff (b d b' d' : ℚ) : binomial b d = binomial b' d' ↔ b = b' ∧ d = d' := by
  constructor
  · intro h
    have h0 := congrFun (congrArg OpinionNoBase.belief_masses h) 0
    have h1 := congrFun (congrArg OpinionNoBase.belief_masses h) 1
    exact ⟨by simpa [binomial] using h0, by simpa [binomial] using h1⟩
  · rintro ⟨rfl, rfl⟩
    rfl

theorem mk_binomial (f : Fin 2 → ℚ) : (⟨f⟩ : OpinionNoBase 2) = binomial (f 0) (f 1) := by
  ext idx
  fin_cases idx <;> simp [binomial]

theorem uncertainty_binomial (b d : ℚ) : (binomial b d).uncertainty = 1 - (b + d) := by
  simp [uncertainty, binomial, Fin.sum_univ_two]

theorem cum_fuse_binomial (b d b' d' : ℚ) :
    (binomial b d).cum_fuse (binomial b' d') =
      if |(1 - (b + d)) + (1 - (b' + d')) - (1 - (b + d)) * (1 - (b' + d'))| < EPS then
        binomial ((b + b') / 2) ((d + d') / 2)
      else
        binomial
          ((b * (1 - (b' + d')) + b' * (1 - (b + d))) /
            ((1 - (b + d)) + (1 - (b' + d')) - (1 - (b + d)) * (1 - (b' + d'))))
          ((d * (1 - (b' + d')) + d' * (1 - (b + d))) /
            ((1 - (b + d)) + (1 - (b' + d')) - (1 - (b + d)) * (1 - (b' + d')))) := by
  simp only [cum_fuse, cum_fuse_, uncertainty_binomial]
  split_ifs <;> rw [mk_binomial] <;> simp [binomial]

theorem cum_unfuse_binomial (b d b' d' : ℚ) :
    (binomial b d).cum_unfuse (binomial b' d') =
      if |(1 - (b' + d')) - (1 - (b + d)) + (1 - (b' + d')) * (1 - (b + d))| < EPS then
        binomial ((b + b') / 2) ((d + d') / 2)
      else
        binomial
          ((b * (1 - (b' + d')) - b' * (1 - (b + d))) /
            ((1 - (b' + d')) - (1 - (b + d)) + (1 - (b' + d')) * (1 - (b + d))))
          ((d * (1 - (b' + d')) - d' * (1 - (b + d))) /
            ((1 - (b' + d')) - (1 - (b + d)) + (1 - (b' + d')) * (1 - (b + d)))) := by
  simp only [cum_unfuse, cum_unfuse_, uncertainty_binomial]
  split_ifs <;> rw [mk_binomial] <;> simp [binomial]

theorem average_fuse_binomial (b d b' d' : ℚ) :
    (binomial b d).average_fuse (binomial b' d') =
      if |(1 - (b + d)) + (1 - (b' + d'))| < EPS then
        binomial ((b + b') / 2) ((d + d') / 2)
      else
        binomial
          ((b * (1 - (b' + d')) + b' * (1 - (b + d))) / ((1 - (b + d)) + (1 - (b' + d'))))
          ((d * (1 - (b' + d')) + d' * (1 - (b + d))) / ((1 - (b + d)) + (1 - (b' + d')))) := by
  simp only [average_fuse, average_fuse_, uncertainty_binomial]
  split_ifs <;> rw [mk_binomial] <;> simp [binomial]

theorem eq_op_binomial (b d b' d' : ℚ) :
    (binomial b d).eq_op (binomial b' d') = decide (|b - b'| + |d - d'| < EPS) := by
  simp [eq_op, binomial, Fin.sum_univ_two]

end OpinionNoBase

namespace multisource

open OpinionNoBase

variable {N : ℕ}

/-- C2 (as stated) fails: with `a = (1/2, 0)` and the dogmatic `b = (1, 0)`, the opinion
`a.cum_fuse(b).cum_unfuse(b)` is `(1, 0)`, which `operator==` tells apart from `a`. -/
theorem C2_counterexample :
    (((binomial (1/2) 0).cum_fuse (binomial 1 0)).cum_unfuse (binomial 1 0)).eq_op
      (binomial (1/2) 0) = false := by
  rw [cum_fuse_binomial, if_neg (by norm_num [EPS, abs_lt]),
    cum_unfuse_binomial, if_pos (by norm_num [EPS, abs_lt]), eq_op_binomial]
  norm_num [EPS, abs_lt]

/-- The denominator of `cum_unfuse` after `cum_fuse`: `u_b^2 / (u_a + u_b - u_a u_b)`. -/
theorem cum_unfuse_denominator (a b : OpinionNoBase N)
    (h1 : EPS ≤ |a.uncertainty + b.uncertainty - a.uncertainty * b.uncertainty|) :
    b.uncertainty - (a.cum_fuse b).uncertainty + b.uncertainty * (a.cum_fuse b).uncertainty =
      b.uncertainty * b.uncertainty /
        (a.uncertainty + b.uncertainty - a.uncertainty * b.uncertainty) := by
  have hD : a.uncertainty + b.uncertainty - a.uncertainty * b.uncertainty ≠ 0 := by
    intro h0
    rw [h0, abs_zero] at h1
    exact absurd EPS_pos (not_lt.mpr h1)
  rw [uncertainty_cum_fuse a b h1]
  field_simp
  ring

theorem cum_unfuse_cum_fuse_of_regular (a b : OpinionNoBase N)
    (h1 : EPS ≤ |a.uncertainty + b.uncertainty - a.uncertainty * b.uncertainty|)
    (h2 : EPS ≤ |b.uncertainty - (a.cum_fuse b).uncertainty +
      b.uncertainty * (a.cum_fuse b).uncertainty|) :
    (a.cum_fuse b).cum_unfuse b = a := by
  have hD : a.uncertainty + b.uncertainty - a.uncertainty * b.uncertainty ≠ 0 := by
    intro h0
    rw [h0, abs_zero] at h1
    exact absurd EPS_pos (not_lt.mpr h1)
  have hD2 : b.uncertainty - (a.cum_fuse b).uncertainty +
      b.uncertainty * (a.cum_fuse b).uncertainty ≠ 0 := by
    intro h0
    rw [h0, abs_zero] at h2
    exact absurd EPS_pos (not_lt.mpr h2)
  have hu := uncertainty_cum_fuse a b h1
  have hf : ∀ idx, (a.cum_fuse b).belief_masses idx =
      (a.belief_masses idx * b.uncertainty + b.belief_masses idx * a.uncertainty) /
        (a.uncertainty + b.uncertainty - a.uncertainty * b.uncertainty) := by
    intro idx
    simp only [cum_fuse, cum_fuse_]
    rw [if_neg (not_lt.mpr h1)]
  ext idx
  simp only [cum_unfuse, cum_unfuse_]
  rw [if_neg (not_lt.mpr h2)]
  simp only []
  rw [div_eq_iff hD2, hf idx]
  rw [hu] at hD2 ⊢
  field_simp
  ring

/-- The round trip is well conditioned when the denominator of `cum_unfuse` is at least
`0.01`: if the fused opinion is off by at most `1e-13` in total (several hundred units in the
last place of a `double`), unfusing it still gives `a` up to less than `EPS`. -/
theorem cum_unfuse_perturbed (a b F f : OpinionNoBase N)
    (ha : ∀ idx, 0 ≤ a.belief_masses idx) (ha1 : (∑ idx, a.belief_masses idx) ≤ 1)
    (hb : ∀ idx, 0 ≤ b.belief_masses idx) (hub : 0 ≤ b.uncertainty)
    (hd2 : 1 / 100 ≤ b.uncertainty - F.uncertainty + b.uncertainty * F.uncertainty)
    (hF : ∀ idx, F.belief_masses idx * b.uncertainty - b.belief_masses idx * F.uncertainty =
      a.belief_masses idx *
        (b.uncertainty - F.uncertainty + b.uncertainty * F.uncertainty))
    (hf : (∑ idx, |f.belief_masses idx - F.belief_masses idx|) ≤ 1 / 10000000000000) :
    (f.cum_unfuse b).eq_op a = true := by
  have hub1 : b.uncertainty ≤ 1 := by
    have := Finset.sum_nonneg fun idx (_ : idx ∈ Finset.univ) => hb idx
    simp only [uncertainty]
    linarith
  have hsb : (∑ idx, b.belief_masses idx) ≤ 1 := by
    simp only [uncertainty] at hub
    linarith
  obtain ⟨D, hD⟩ : ∃ D, D = ∑ idx, (f.belief_masses idx - F.belief_masses idx) := ⟨_, rfl⟩
  have hDabs : |D| ≤ 1 / 10000000000000 := by
    rw [hD]
    exact le_trans (Finset.abs_sum_le_sum_abs _ _) hf
  have huf : f.uncertainty = F.uncertainty - D := by
    rw [hD, Finset.sum_sub_distrib]
    simp only [uncertainty]
    ring
  have hD1 := (abs_le.mp hDabs).1
  have hD2 := (abs_le.mp hDabs).2
  have hden : b.uncertainty - f.uncertainty + b.uncertainty * f.uncertainty =
      (b.uncertainty - F.uncertainty + b.uncertainty * F.uncertainty) +
        (1 - b.uncertainty) * D := by
    rw [huf]
    ring
  have hdge : 99 / 10000 ≤ b.uncertainty - f.uncertainty + b.uncertainty * f.uncertainty := by
    rw [hden]
    have h1 : -(1 / 10000000000000) ≤ (1 - b.uncertainty) * D := by
      have := mul_le_mul_of_nonneg_left hD1 (sub_nonneg.mpr hub1)
      nlinarith
    linarith
  have hdpos : 0 < b.uncertainty - f.uncertainty + b.uncertainty * f.uncertainty := by linarith
  have hbranch : ¬ |b.uncertainty - f.uncertainty + b.uncertainty * f.uncertainty| < EPS := by
    rw [abs_of_pos hdpos, not_lt]
    exact le_trans (by norm_num [EPS]) hdge
  have hr : ∀ idx, (f.cum_unfuse b).belief_masses idx - a.belief_masses idx =
      ((f.belief_masses idx - F.belief_masses idx) * b.uncertainty +
        b.belief_masses idx * D - a.belief_masses idx * ((1 - b.uncertainty) * D)) /
        (b.uncertainty - f.uncertainty + b.uncertainty * f.uncertainty) := by
    intro idx
    simp only [cum_unfuse, cum_unfuse_]
    rw [if_neg hbranch]
    simp only []
    rw [eq_div_iff hdpos.ne', sub_mul, div_mul_cancel₀ _ hdpos.ne']
    rw [hden, huf]
    linear_combination hF idx
  have hnum : ∀ idx, |(f.belief_masses idx - F.belief_masses idx) * b.uncertainty +
      b.belief_masses idx * D - a.belief_masses idx * ((1 - b.uncertainty) * D)| ≤
      |f.belief_masses idx - F.belief_masses idx| +
        b.belief_masses idx * (1 / 10000000000000) +
        a.belief_masses idx * (1 / 10000000000000) := by
    intro idx
    have e1 : |(f.belief_masses idx - F.belief_masses idx) * b.uncertainty| ≤
        |f.belief_masses idx - F.belief_masses idx| := by
      rw [abs_mul, abs_of_nonneg hub]
      exact mul_le_of_le_one_right (abs_nonneg _) hub1
    have e2 : |b.belief_masses idx * D| ≤ b.belief_masses idx * (1 / 10000000000000) := by
      rw [abs_mul, abs_of_nonneg (hb idx)]
      exact mul_le_mul_of_nonneg_left hDabs (hb idx)
    have e3 : |a.belief_masses idx * ((1 - b.uncertainty) * D)| ≤
        a.belief_masses idx * (1 / 10000000000000) := by
      rw [abs_mul, abs_of_nonneg (ha idx), abs_mul, abs_of_nonneg (sub_nonneg.mpr hub1)]
      apply mul_le_mul_of_nonneg_left _ (ha idx)
      calc (1 - b.uncertainty) * |D| ≤ 1 * |D| :=
            mul_le_mul_of_nonneg_right (by linarith) (abs_nonneg _)
        _ ≤ 1 / 10000000000000 := by rw [one_mul]; exact hDabs
    calc _ ≤ |(f.belief_masses idx - F.belief_masses idx) * b.uncertainty +
          b.belief_masses idx * D| + |a.belief_masses idx * ((1 - b.uncertainty) * D)| :=
          abs_sub _ _
      _ ≤ |(f.belief_masses idx - F.belief_masses idx) * b.uncertainty| +
          |b.belief_masses idx * D| + |a.belief_masses idx * ((1 - b.uncertainty) * D)| := by
          linarith [abs_add ((f.belief_masses idx - F.belief_masses idx) * b.uncertainty)
            (b.belief_masses idx * D)]
      _ ≤ _ := by linarith
  have htotal : (∑ idx, |(f.cum_unfuse b).belief_masses idx - a.belief_masses idx|) ≤
      (3 / 10000000000000) /
        (b.uncertainty - f.uncertainty + b.uncertainty * f.uncertainty) := by
    simp only [hr, abs_div, abs_of_pos hdpos]
    rw [← Finset.sum_div]
    apply div_le_div_of_nonneg_right _ hdpos.le
    calc _ ≤ ∑ idx, (|f.belief_masses idx - F.belief_masses idx| +
          b.belief_masses idx * (1 / 10000000000000) +
          a.belief_masses idx * (1 / 10000000000000)) :=
          Finset.sum_le_sum fun idx _ => hnum idx
      _ = (∑ idx, |f.belief_masses idx - F.belief_masses idx|) +
          (∑ idx, b.belief_masses idx) * (1 / 10000000000000) +
          (∑ idx, a.belief_masses idx) * (1 / 10000000000000) := by
          rw [Finset.sum_add_distrib, Finset.sum_add_distrib, Finset.sum_mul, Finset.sum_mul]
      _ ≤ _ := by nlinarith
  have hlt : (3 / 10000000000000) /
      (b.uncertainty - f.uncertainty + b.uncertainty * f.uncertainty) < EPS := by
    rw [div_lt_iff₀ hdpos]
    have : EPS * (99 / 10000) ≤
        EPS * (b.uncertainty - f.uncertainty + b.uncertainty * f.uncertainty) :=
      mul_le_mul_of_nonneg_left hdge EPS_pos.le
    have h2 : (3 / 10000000000000 : ℚ) < EPS * (99 / 10000) := by norm_num [EPS]
    linarith
  simp only [eq_op, decide_eq_true_eq]
  exact lt_of_le_of_lt htotal hlt

/-- C2 (amended). For valid opinions `a` and `b` (belief masses `>= 0`, sum at most `1`) with
`u_b >= 0.1`, the denominator of `cum_fuse`, `u_a + u_b - u_a u_b`, lies in `[0.1, 1]` and the
one of `cum_unfuse`, `u_b - u_f + u_b u_f = u_b^2 / (u_a + u_b - u_a u_b)` with `u_f` the
uncertainty of `a.cum_fuse(b)`, is at least `0.01`: no fallback is taken,
`a.cum_fuse(b).cum_unfuse(b)` has the belief masses of `a`, and `operator==` holds between
the two.  The round trip is well conditioned there: `operator==` still holds when the fused
opinion that is unfused is off by up to `1e-13` in total. -/
theorem C2_cum_unfuse_cum_fuse (a b : OpinionNoBase N)
    (ha : ∀ idx, 0 ≤ a.belief_masses idx) (ha1 : (∑ idx, a.belief_masses idx) ≤ 1)
    (hb : ∀ idx, 0 ≤ b.belief_masses idx) (hub : 1 / 10 ≤ b.uncertainty) :
    1 / 10 ≤ a.uncertainty + b.uncertainty - a.uncertainty * b.uncertainty ∧
    a.uncertainty + b.uncertainty - a.uncertainty * b.uncertainty ≤ 1 ∧
    1 / 100 ≤ b.uncertainty - (a.cum_fuse b).uncertainty +
      b.uncertainty * (a.cum_fuse b).uncertainty ∧
    (a.cum_fuse b).cum_unfuse b = a ∧ ((a.cum_fuse b).cum_unfuse b).eq_op a = true ∧
    ∀ f : OpinionNoBase N,
      (∑ idx, |f.belief_masses idx - (a.cum_fuse b).belief_masses idx|) ≤
          1 / 10000000000000 →
        (f.cum_unfuse b).eq_op a = true := by
  have hua0 : 0 ≤ a.uncertainty := by
    simp only [uncertainty]
    linarith
  have hua1 : a.uncertainty ≤ 1 := by
    have := Finset.sum_nonneg fun idx (_ : idx ∈ Finset.univ) => ha idx
    simp only [uncertainty]
    linarith
  have hub1 : b.uncertainty ≤ 1 := by
    have := Finset.sum_nonneg fun idx (_ : idx ∈ Finset.univ) => hb idx
    simp only [uncertainty]
    linarith
  have hd1 : 1 / 10 ≤ a.uncertainty + b.uncertainty - a.uncertainty * b.uncertainty := by
    nlinarith [mul_nonneg hua0 (sub_nonneg.mpr hub1)]
  have hd1' : a.uncertainty + b.uncertainty - a.uncertainty * b.uncertainty ≤ 1 := by
    nlinarith [mul_nonneg (sub_nonneg.mpr hua1) (sub_nonneg.mpr hub1)]
  have hd1pos : 0 < a.uncertainty + b.uncertainty - a.uncertainty * b.uncertainty := by
    linarith
  have h1 : EPS ≤ |a.uncertainty + b.uncertainty - a.uncertainty * b.uncertainty| := by
    rw [abs_of_pos hd1pos]
    exact le_trans (by norm_num [EPS]) hd1
  have hd2 : 1 / 100 ≤ b.uncertainty - (a.cum_fuse b).uncertainty +
      b.uncertainty * (a.cum_fuse b).uncertainty := by
    rw [cum_unfuse_denominator a b h1, le_div_iff₀ hd1pos]
    nlinarith
  have hd2pos : 0 < b.uncertainty - (a.cum_fuse b).uncertainty +
      b.uncertainty * (a.cum_fuse b).uncertainty := by linarith
  have h2 : EPS ≤ |b.uncertainty - (a.cum_fuse b).uncertainty +
      b.uncertainty * (a.cum_fuse b).uncertainty| := by
    rw [abs_of_pos hd2pos]
    exact le_trans (by norm_num [EPS]) hd2
  have key := cum_unfuse_cum_fuse_of_regular a b h1 h2
  have hF : ∀ idx, (a.cum_fuse b).belief_masses idx * b.uncertainty -
      b.belief_masses idx * (a.cum_fuse b).uncertainty =
      a.belief_masses idx * (b.uncertainty - (a.cum_fuse b).uncertainty +
        b.uncertainty * (a.cum_fuse b).uncertainty) := by
    intro idx
    have h := congrFun (congrArg OpinionNoBase.belief_masses key) idx
    simp only [cum_unfuse, cum_unfuse_] at h
    rw [if_neg (not_lt.mpr h2)] at h
    exact (div_eq_iff hd2pos.ne').mp h
  refine ⟨hd1, hd1', hd2, key, ?_, fun f hf =>
    cum_unfuse_perturbed a b (a.cum_fuse b) f ha ha1 hb (by linarith) hd2 hF hf⟩
  rw [key]
  simp [eq_op, EPS_pos]

/-- C2 (amended), instance: the opinions of the unit test `CumulativeUnfusion`,
`a = (0.7, 0.1)` and `b = (0.2, 0.3)`. -/
theorem C2_cum_unfuse_cum_fuse_witness :
    ((binomial (7/10) (1/10)).cum_fuse (binomial (1/5) (3/10))).cum_unfuse
        (binomial (1/5) (3/10)) = binomial (7/10) (1/10) ∧
    (((binomial (7/10) (1/10)).cum_fuse (binomial (1/5) (3/10))).cum_unfuse
        (binomial (1/5) (3/10))).eq_op (binomial (7/10) (1/10)) = true ∧
    ∀ f : OpinionNoBase 2,
      (∑ idx, |f.belief_masses idx -
          ((binomial (7/10) (1/10)).cum_fuse (binomial (1/5) (3/10))).belief_masses idx|) ≤
          1 / 10000000000000 →
        (f.cum_unfuse (binomial (1/5) (3/10))).eq_op (binomial (7/10) (1/10)) = true :=
  (C2_cum_unfuse_cum_fuse (binomial (7/10) (1/10)) (binomial (1/5) (3/10))
    (by intro idx; fin_cases idx <;> norm_num [binomial])
    (by norm_num [binomial, Fin.sum_univ_two])
    (by intro idx; fin_cases idx <;> norm_num [binomial])
    (by rw [uncertainty_binomial]; norm_num)).2.2.2

/-! ## Dogmatic inputs -/

theorem dogmatic_isEmpty_eq_false {l : List (OpinionNoBase N)}
    (hd : ∃ o ∈ l, |o.uncertainty| < EPS) : (dogmatic l).isEmpty = false := by
  obtain ⟨o, ho, hu⟩ := hd
  have hmem : o ∈ dogmatic l := by
    simp only [dogmatic, List.mem_filter, decide_eq_true_eq]
    exact ⟨ho, hu⟩
  cases hl : dogmatic l with
  | nil => rw [hl] at hmem; cases hmem
  | cons a t => rfl

theorem dogmatic_opinions_isEmpty_eq_false {m : List (Opinion N)}
    (hd : ∃ o ∈ m, |o.uncertainty| < EPS) : (dogmatic_opinions m).isEmpty = false := by
  obtain ⟨o, ho, hu⟩ := hd
  have hmem : o ∈ dogmatic_opinions m := by
    simp only [dogmatic_opinions, List.mem_filter, decide_eq_true_eq]
    exact ⟨ho, hu⟩
  cases hl : dogmatic_opinions m with
  | nil => rw [hl] at hmem; cases hmem
  | cons a t => rfl

/-- C3. For CUMULATIVE, BELIEF_CONSTRAINT and AVERAGE and every list of at least two opinions
of which at least one is dogmatic (`|uncertainty| < EPS`), `Fusion::fuse_opinions` returns the
elementwise arithmetic mean of the belief masses of exactly the dogmatic inputs, and a second
list with the same dogmatic members gives the same result, whatever its other members; the
belief masses returned for a list of `Opinion`s are that mean as well. -/
theorem C3_fuse_opinions_dogmatic_mean (t : FusionType) (ht : t ≠ FusionType.WEIGHTED)
    (l : List (OpinionNoBase N)) (h2 : 2 ≤ l.length)
    (hd : ∃ o ∈ l, |o.uncertainty| < EPS)
    (m : List (Opinion N)) (hm2 : 2 ≤ m.length) (hmd : ∃ o ∈ m, |o.uncertainty| < EPS) :
    Fusion.fuse_opinions t l = .ok (belief_mean (dogmatic l)) ∧
    (∀ l2 : List (OpinionNoBase N), 2 ≤ l2.length → dogmatic l2 = dogmatic l →
      Fusion.fuse_opinions t l2 = Fusion.fuse_opinions t l) ∧
    ∃ r : Opinion N, FusionOpinion.fuse_opinions t m = .ok r ∧
      r.opinion_no_base = belief_mean ((dogmatic_opinions m).map Opinion.opinion_no_base) := by
  have key : ∀ k : List (OpinionNoBase N), 2 ≤ k.length → (dogmatic k).isEmpty = false →
      Fusion.fuse_opinions t k = .ok (belief_mean (dogmatic k)) := by
    intro k hk hdk
    have h1 : k.length ≠ 1 := by omega
    cases t with
    | WEIGHTED => exact absurd rfl ht
    | CUMULATIVE => simp only [Fusion.fuse_opinions, Fusion.fuse_opinions__dogmatic k h1 hdk]
    | BELIEF_CONSTRAINT =>
      simp only [Fusion.fuse_opinions, Fusion.fuse_opinions__dogmatic k h1 hdk]
    | AVERAGE => simp only [Fusion.fuse_opinions, Fusion.fuse_opinions__dogmatic k h1 hdk]
  have hdl := dogmatic_isEmpty_eq_false hd
  refine ⟨key l h2 hdl, ?_, ?_⟩
  · intro l2 h22 heq
    rw [key l h2 hdl, key l2 h22 (by rw [heq]; exact hdl), heq]
  · have hm1 : m.length ≠ 1 := by omega
    have hdm := dogmatic_opinions_isEmpty_eq_false hmd
    refine ⟨⟨belief_mean ((dogmatic_opinions m).map Opinion.opinion_no_base),
      OpinionNoBase.NeutralBeliefDistr⟩, ?_, rfl⟩
    cases t with
    | WEIGHTED => exact absurd rfl ht
    | CUMULATIVE =>
      simp only [FusionOpinion.fuse_opinions,
        FusionOpinion.opinion_fuse_opinions__dogmatic m hm1 hdm]
    | BELIEF_CONSTRAINT =>
      simp only [FusionOpinion.fuse_opinions,
        FusionOpinion.opinion_fuse_opinions__dogmatic m hm1 hdm]
    | AVERAGE =>
      simp only [FusionOpinion.fuse_opinions,
        FusionOpinion.opinion_fuse_opinions__dogmatic m hm1 hdm]

theorem belief_mean_binomial_four (b1 d1 b2 d2 b3 d3 b4 d4 : ℚ) :
    belief_mean [binomial b1 d1, binomial b2 d2, binomial b3 d3, binomial b4 d4] =
      binomial ((b1 + b2 + b3 + b4) / 4) ((d1 + d2 + d3 + d4) / 4) := by
  unfold belief_mean
  rw [mk_binomial]
  simp [binomial, add_assoc]

/-- C3, instance: the four dogmatic binomial opinions `(1,0), (1,0), (0,1), (0,1)` fuse to
belief `1/2`, disbelief `1/2` and uncertainty `0`. -/
theorem C3_fuse_opinions_dogmatic_mean_witness :
    Fusion.fuse_opinions FusionType.CUMULATIVE
        [binomial 1 0, binomial 1 0, binomial 0 1, binomial 0 1] =
      .ok (binomial (1/2) (1/2)) ∧
    (binomial (1/2) (1/2)).uncertainty = 0 := by
  have h := (C3_fuse_opinions_dogmatic_mean FusionType.CUMULATIVE (by decide)
    [binomial 1 0, binomial 1 0, binomial 0 1, binomial 0 1] (by simp)
    ⟨binomial 1 0, by simp, by norm_num [uncertainty_binomial, EPS]⟩
    [(⟨binomial 1 0, ![1/2, 1/2]⟩ : Opinion 2), ⟨binomial 0 1, ![1/2, 1/2]⟩] (by simp)
    ⟨⟨binomial 1 0, ![1/2, 1/2]⟩, by simp,
      by norm_num [Opinion.uncertainty, uncertainty_binomial, EPS]⟩).1
  have hdog : dogmatic [binomial 1 0, binomial 1 0, binomial 0 1, binomial 0 1] =
      [binomial 1 0, binomial 1 0, binomial 0 1, binomial 0 1] := by
    simp [dogmatic, uncertainty_binomial, EPS]
  rw [hdog, belief_mean_binomial_four] at h
  refine ⟨?_, by norm_num [uncertainty_binomial]⟩
  rw [h]
  norm_num

/-! ## The prior of the fused opinion -/

/-- C4, failing input. Two equal dogmatic binomial `Opinion`s `(1, 0)` with prior
`(9/10, 1/10)`: for each of CUMULATIVE, BELIEF_CONSTRAINT and AVERAGE the opinion returned by
`Fusion::fuse_opinions` carries the neutral prior `(1/2, 1/2)` of a default-constructed
`Opinion`, whereas `Fusion::average_prior` of the inputs is `(9/10, 1/10)`. -/
theorem C4_dogmatic_prior_not_averaged :
    (∀ t : FusionType, t ≠ FusionType.WEIGHTED →
      ∃ r : Opinion 2,
        FusionOpinion.fuse_opinions t
          [⟨binomial 1 0, ![9/10, 1/10]⟩, ⟨binomial 1 0, ![9/10, 1/10]⟩] = .ok r ∧
        r.prior_belief_masses 0 = 1/2 ∧ r.prior_belief_masses 1 = 1/2) ∧
    FusionOpinion.average_prior
      [(⟨binomial 1 0, ![9/10, 1/10]⟩ : Opinion 2), ⟨binomial 1 0, ![9/10, 1/10]⟩] 0 = 9/10 ∧
    FusionOpinion.average_prior
      [(⟨binomial 1 0, ![9/10, 1/10]⟩ : Opinion 2), ⟨binomial 1 0, ![9/10, 1/10]⟩] 1 = 1/10 := by
  have hpre : FusionOpinion.preprocess_opinions
      [(⟨binomial 1 0, ![9/10, 1/10]⟩ : Opinion 2), ⟨binomial 1 0, ![9/10, 1/10]⟩] =
      ([], some ⟨⟨fun idx =>
        ([(⟨binomial 1 0, ![9/10, 1/10]⟩ : Opinion 2), ⟨binomial 1 0, ![9/10, 1/10]⟩].map
          fun o => o.belief_masses idx).sum / 2⟩, OpinionNoBase.NeutralBeliefDistr⟩) := by
    simp [FusionOpinion.preprocess_opinions, Opinion.uncertainty, uncertainty_binomial, EPS,
      Opinion.vacuous]
  have hf : ∀ op, FusionOpinion.fuse_opinions_
      [(⟨binomial 1 0, ![9/10, 1/10]⟩ : Opinion 2), ⟨binomial 1 0, ![9/10, 1/10]⟩] op =
      ⟨⟨fun idx =>
        ([(⟨binomial 1 0, ![9/10, 1/10]⟩ : Opinion 2), ⟨binomial 1 0, ![9/10, 1/10]⟩].map
          fun o => o.belief_masses idx).sum / 2⟩, OpinionNoBase.NeutralBeliefDistr⟩ := by
    intro op
    simp only [FusionOpinion.fuse_opinions_, hpre]
  refine ⟨?_, ?_, ?_⟩
  · intro t ht
    refine ⟨⟨⟨fun idx =>
        ([(⟨binomial 1 0, ![9/10, 1/10]⟩ : Opinion 2), ⟨binomial 1 0, ![9/10, 1/10]⟩].map
          fun o => o.belief_masses idx).sum / 2⟩, OpinionNoBase.NeutralBeliefDistr⟩, ?_, ?_, ?_⟩
    · cases t with
      | WEIGHTED => exact absurd rfl ht
      | CUMULATIVE => simp only [FusionOpinion.fuse_opinions, hf]
      | BELIEF_CONSTRAINT => simp only [FusionOpinion.fuse_opinions, hf]
      | AVERAGE => simp only [FusionOpinion.fuse_opinions, hf]
    · norm_num [Opinion.prior_belief_masses, NeutralBeliefDistr]
    · norm_num [Opinion.prior_belief_masses, NeutralBeliefDistr]
  · norm_num [FusionOpinion.average_prior, Opinion.prior_belief_masses]
  · norm_num [FusionOpinion.average_prior, Opinion.prior_belief_masses]

/-! ## Two sources against the pairwise operators -/

theorem belief_mean_pair (a b : OpinionNoBase N) :
    belief_mean [a, b] = ⟨fun idx => (a.belief_masses idx + b.belief_masses idx) / 2⟩ := by
  simp [belief_mean]

theorem belief_mean_single (a : OpinionNoBase N) : belief_mean [a] = a := by
  simp [belief_mean]

theorem size_t_pred_two : size_t_pred 2 = 1 := by decide

theorem size_t_pred_three : size_t_pred 3 = 2 := by decide

theorem not_abs_lt_EPS {u : ℚ} (h : EPS ≤ u) : ¬ |u| < EPS :=
  not_lt.mpr (le_trans h (le_abs_self u))

theorem dogmatic_pair (a b : OpinionNoBase N) :
    dogmatic [a, b] =
      if |a.uncertainty| < EPS then
        (if |b.uncertainty| < EPS then [a, b] else [a])
      else
        (if |b.uncertainty| < EPS then [b] else []) := by
  unfold dogmatic
  by_cases ha : |a.uncertainty| < EPS <;> by_cases hb : |b.uncertainty| < EPS <;>
    simp [List.filter_cons, ha, hb]

/-- C5 (as stated) fails: the valid binomial opinions `a = (1 - 2e-11, 0)` and
`b = (0, 1 - 9e-11)` are both dogmatic for `Fusion::fuse_opinions`, which returns their mean
(belief below `1/2`), while the denominator of `a.cum_fuse(b)` reaches `EPS`, so the pairwise
operator weighs them by their uncertainties (belief above `4/5`). -/
theorem C5_counterexample :
    ∃ r : OpinionNoBase 2,
      Fusion.fuse_opinions FusionType.CUMULATIVE
        [binomial (1 - 2 / 100000000000) 0, binomial 0 (1 - 9 / 100000000000)] = .ok r ∧
      r.belief_masses 0 < 1 / 2 ∧
      4 / 5 < ((binomial (1 - 2 / 100000000000) 0).cum_fuse
        (binomial 0 (1 - 9 / 100000000000))).belief_masses 0 := by
  refine ⟨_, rfl, ?_, ?_⟩
  · rw [Fusion.fuse_opinions__dogmatic _ (by simp)
      (by rw [dogmatic_pair]; norm_num [uncertainty_binomial, EPS, abs_lt])]
    rw [dogmatic_pair, if_pos (by norm_num [uncertainty_binomial, EPS, abs_lt]),
      if_pos (by norm_num [uncertainty_binomial, EPS, abs_lt]), belief_mean_pair]
    norm_num [binomial]
  · rw [cum_fuse_binomial, if_neg (by norm_num [EPS, abs_lt])]
    norm_num [binomial]

/-- C5 (amended). For two valid `OpinionNoBase` values (belief masses `>= 0` summing to at
most `1`) each of which is either exactly dogmatic (`uncertainty = 0`) or not dogmatic
(`uncertainty >= EPS`), `Fusion::fuse_opinions` on `[a, b]` returns `a.cum_fuse(b)` for
CUMULATIVE and `a.average_fuse(b)` for AVERAGE. -/
theorem C5_fuse_opinions_two_eq_pairwise (a b : OpinionNoBase N)
    (ha0 : ∀ idx, 0 ≤ a.belief_masses idx) (ha1 : ∑ idx, a.belief_masses idx ≤ 1)
    (hb0 : ∀ idx, 0 ≤ b.belief_masses idx) (hb1 : ∑ idx, b.belief_masses idx ≤ 1)
    (ha : a.uncertainty = 0 ∨ EPS ≤ a.uncertainty)
    (hb : b.uncertainty = 0 ∨ EPS ≤ b.uncertainty) :
    Fusion.fuse_opinions FusionType.CUMULATIVE [a, b] = .ok (a.cum_fuse b) ∧
    Fusion.fuse_opinions FusionType.AVERAGE [a, b] = .ok (a.average_fuse b) := by
  have hlen : [a, b].length ≠ 1 := by simp
  have hua1 : a.uncertainty ≤ 1 := by
    have : 0 ≤ ∑ idx, a.belief_masses idx := Finset.sum_nonneg fun i _ => ha0 i
    simp only [uncertainty]; linarith
  have hub1 : b.uncertainty ≤ 1 := by
    have : 0 ≤ ∑ idx, b.belief_masses idx := Finset.sum_nonneg fun i _ => hb0 i
    simp only [uncertainty]; linarith
  have hua0 : 0 ≤ a.uncertainty := by simp only [uncertainty]; linarith
  have hub0 : 0 ≤ b.uncertainty := by simp only [uncertainty]; linarith
  have hE := EPS_pos
  simp only [Fusion.fuse_opinions, Except.ok.injEq]
  rcases ha with ha | ha <;> rcases hb with hb | hb
  · -- both exactly dogmatic: the mean on either side
    have hd : dogmatic [a, b] = [a, b] := by
      rw [dogmatic_pair, ha, hb]; simp [hE]
    rw [Fusion.fuse_opinions__dogmatic _ hlen (by rw [hd]; rfl),
      Fusion.fuse_opinions__dogmatic _ hlen (by rw [hd]; rfl), hd, belief_mean_pair]
    constructor
    · simp [cum_fuse, cum_fuse_, ha, hb, hE]
    · simp [average_fuse, average_fuse_, ha, hb, hE]
  · -- only `a` dogmatic
    have hd : dogmatic [a, b] = [a] := by
      rw [dogmatic_pair, ha]; simp [hE, not_abs_lt_EPS hb]
    have hb' : b.uncertainty ≠ 0 := by linarith
    rw [Fusion.fuse_opinions__dogmatic _ hlen (by rw [hd]; rfl),
      Fusion.fuse_opinions__dogmatic _ hlen (by rw [hd]; rfl), hd, belief_mean_single]
    constructor
    · ext idx
      simp [cum_fuse, cum_fuse_, ha, not_abs_lt_EPS hb, hb']
    · ext idx
      simp [average_fuse, average_fuse_, ha, not_abs_lt_EPS hb, hb']
  · -- only `b` dogmatic
    have hd : dogmatic [a, b] = [b] := by
      rw [dogmatic_pair, hb]; simp [hE, not_abs_lt_EPS ha]
    have ha' : a.uncertainty ≠ 0 := by linarith
    rw [Fusion.fuse_opinions__dogmatic _ hlen (by rw [hd]; rfl),
      Fusion.fuse_opinions__dogmatic _ hlen (by rw [hd]; rfl), hd, belief_mean_single]
    constructor
    · ext idx
      simp [cum_fuse, cum_fuse_, hb, not_abs_lt_EPS ha, ha']
    · ext idx
      simp [average_fuse, average_fuse_, hb, not_abs_lt_EPS ha, ha']
  · -- neither dogmatic: the n-ary formulas at n = 2
    have hd : dogmatic [a, b] = [] := by
      rw [dogmatic_pair]; simp [not_abs_lt_EPS ha, not_abs_lt_EPS hb]
    have ha' : a.uncertainty ≠ 0 := by linarith
    have hb' : b.uncertainty ≠ 0 := by linarith
    have hD : EPS ≤ a.uncertainty + b.uncertainty - a.uncertainty * b.uncertainty := by
      nlinarith
    have hD' : a.uncertainty + b.uncertainty - a.uncertainty * b.uncertainty ≠ 0 := by
      linarith
    have hS : EPS ≤ a.uncertainty + b.uncertainty := by linarith
    have hS' : a.uncertainty + b.uncertainty ≠ 0 := by linarith
    rw [Fusion.fuse_opinions__regular _ hlen (by rw [hd]; rfl),
      Fusion.fuse_opinions__regular _ hlen (by rw [hd]; rfl),
      Fusion.cumulative_fusion_operator_eq, Fusion.average_fusion_operator_eq]
    have hlen2 : [a, b].length = 2 := rfl
    have e1 : a.uncertainty * (b.uncertainty * 1) / a.uncertainty = b.uncertainty := by
      field_simp
    have e2 : a.uncertainty * (b.uncertainty * 1) / b.uncertainty = a.uncertainty := by
      field_simp
    have n1 : ∀ x : ℚ, x * (a.uncertainty * (b.uncertainty * 1)) / a.uncertainty =
        x * b.uncertainty := by
      intro x; field_simp; ring
    have n2 : ∀ x : ℚ, x * (a.uncertainty * (b.uncertainty * 1)) / b.uncertainty =
        x * a.uncertainty := by
      intro x; field_simp; ring
    constructor
    · ext idx
      simp only [cum_fuse, cum_fuse_, if_neg (not_abs_lt_EPS hD), List.map_cons, List.map_nil,
        List.sum_cons, List.sum_nil, List.prod_cons, List.prod_nil, hlen2, size_t_pred_two,
        e1, e2, n1, n2]
      norm_num
      congr 1
      ring
    · ext idx
      simp only [average_fuse, average_fuse_, if_neg (not_abs_lt_EPS hS), List.map_cons,
        List.map_nil, List.sum_cons, List.sum_nil, List.prod_cons, List.prod_nil,
        e1, e2, n1, n2]
      congr 1 <;> ring

/-- C5 (amended), instance: the exactly dogmatic `a = (1, 0)` and `b = (0, 1/2)`. -/
theorem C5_fuse_opinions_two_eq_pairwise_witness :
    Fusion.fuse_opinions FusionType.CUMULATIVE [binomial 1 0, binomial 0 (1/2)] =
      .ok ((binomial 1 0).cum_fuse (binomial 0 (1/2))) ∧
    Fusion.fuse_opinions FusionType.AVERAGE [binomial 1 0, binomial 0 (1/2)] =
      .ok ((binomial 1 0).average_fuse (binomial 0 (1/2))) :=
  C5_fuse_opinions_two_eq_pairwise (binomial 1 0) (binomial 0 (1/2))
    (by intro idx; fin_cases idx <;> norm_num [binomial])
    (by norm_num [binomial, Fin.sum_univ_two])
    (by intro idx; fin_cases idx <;> norm_num [binomial])
    (by norm_num [binomial, Fin.sum_univ_two])
    (Or.inl (by norm_num [uncertainty_binomial]))
    (Or.inr (by norm_num [uncertainty_binomial, EPS]))

/-! ## The worked example -/

theorem dogmatic_triple_regular (a b c : OpinionNoBase N) (ha : EPS ≤ a.uncertainty)
    (hb : EPS ≤ b.uncertainty) (hc : EPS ≤ c.uncertainty) : dogmatic [a, b, c] = [] := by
  simp [dogmatic, List.filter_cons, not_abs_lt_EPS ha, not_abs_lt_EPS hb, not_abs_lt_EPS hc]

theorem josang_example_cumulative :
    Fusion.fuse_opinions FusionType.CUMULATIVE
        [binomial (1/10) (3/10), binomial (4/10) (2/10), binomial (7/10) (1/10)] =
      .ok (binomial (28/43) (9/43)) := by
  simp only [Fusion.fuse_opinions]
  rw [Fusion.fuse_opinions__regular _ (by simp)
      (by rw [dogmatic_triple_regular] <;> norm_num [uncertainty_binomial, EPS]),
    Fusion.cumulative_fusion_operator_eq, mk_binomial]
  have hlen3 : [binomial (1/10) (3/10), binomial (4/10) (2/10),
      binomial (7/10) (1/10)].length = 3 := rfl
  simp only [hlen3, size_t_pred_three, List.map_cons, List.map_nil, List.sum_cons,
    List.sum_nil, List.prod_cons, List.prod_nil, uncertainty_binomial]
  norm_num [binomial]

theorem josang_example_average :
    Fusion.fuse_opinions FusionType.AVERAGE
        [binomial (1/10) (3/10), binomial (4/10) (2/10), binomial (7/10) (1/10)] =
      .ok (binomial (28/55) (9/55)) := by
  simp only [Fusion.fuse_opinions]
  rw [Fusion.fuse_opinions__regular _ (by simp)
      (by rw [dogmatic_triple_regular] <;> norm_num [uncertainty_binomial, EPS]),
    Fusion.average_fusion_operator_eq, mk_binomial]
  simp only [List.map_cons, List.map_nil, List.sum_cons,
    List.sum_nil, List.prod_cons, List.prod_nil, uncertainty_binomial]
  norm_num [binomial]

/-- C6. Fusing the binomial opinions `(0.1, 0.3)`, `(0.4, 0.2)`, `(0.7, 0.1)` in any order
gives belief `28/43` and disbelief `9/43` under CUMULATIVE, and belief `28/55` and disbelief
`9/55` under AVERAGE. -/
theorem C6_josang_example (l : List (OpinionNoBase 2))
    (h : l.Perm [binomial (1/10) (3/10), binomial (4/10) (2/10), binomial (7/10) (1/10)]) :
    Fusion.fuse_opinions FusionType.CUMULATIVE l = .ok (binomial (28/43) (9/43)) ∧
    Fusion.fuse_opinions FusionType.AVERAGE l = .ok (binomial (28/55) (9/55)) := by
  constructor
  · rw [← josang_example_cumulative]
    simp only [Fusion.fuse_opinions]
    rw [Fusion.fuse_opinions__perm h.symm _ (Fusion.cumulative_fusion_operator_perm h.symm)]
  · rw [← josang_example_average]
    simp only [Fusion.fuse_opinions]
    rw [Fusion.fuse_opinions__perm h.symm _ (Fusion.average_fusion_operator_perm h.symm)]

/-- C6, instance: the order `(0.7, 0.1)`, `(0.1, 0.3)`, `(0.4, 0.2)` of the unit test. -/
theorem C6_josang_example_witness :
    Fusion.fuse_opinions FusionType.CUMULATIVE
        [binomial (7/10) (1/10), binomial (1/10) (3/10), binomial (4/10) (2/10)] =
      .ok (binomial (28/43) (9/43)) ∧
    Fusion.fuse_opinions FusionType.AVERAGE
        [binomial (7/10) (1/10), binomial (1/10) (3/10), binomial (4/10) (2/10)] =
      .ok (binomial (28/55) (9/55)) :=
  C6_josang_example _
    (List.perm_append_comm :
      ([binomial (7/10) (1/10)] ++ [binomial (1/10) (3/10), binomial (4/10) (2/10)]).Perm
        ([binomial (1/10) (3/10), binomial (4/10) (2/10)] ++ [binomial (7/10) (1/10)]))

/-! ## Errors -/

/-- C7. `Fusion::fuse_opinions` raises exactly when the fusion type is WEIGHTED: then the
error, which carries the enum value `3`, is raised whatever the list; for every other fusion
type an opinion is returned (for `OpinionNoBase` and for `Opinion` lists alike). -/
theorem C7_fuse_opinions_error_iff_weighted (t : FusionType) (l : List (OpinionNoBase N))
    (l' : List (Opinion N)) :
    ((∃ e, Fusion.fuse_opinions t l = .error e) ↔ t = FusionType.WEIGHTED) ∧
    ((∃ o, Fusion.fuse_opinions t l = .ok o) ↔ t ≠ FusionType.WEIGHTED) ∧
    ((∃ e, FusionOpinion.fuse_opinions t l' = .error e) ↔ t = FusionType.WEIGHTED) ∧
    ((∃ o, FusionOpinion.fuse_opinions t l' = .ok o) ↔ t ≠ FusionType.WEIGHTED) ∧
    Fusion.fuse_opinions FusionType.WEIGHTED l =
      .error "MultiSource fusion is not yet implemented for: 3" ∧
    FusionOpinion.fuse_opinions FusionType.WEIGHTED l' =
      .error "MultiSource fusion is not yet implemented for: 3" := by
  refine ⟨?_, ?_, ?_, ?_, rfl, rfl⟩ <;>
    cases t <;> simp [Fusion.fuse_opinions, FusionOpinion.fuse_opinions]

/-- C8. `Conflict::get_belief_fusion_type` maps the four BELIEF conflict types to the fusion
type of the same name and raises for exactly the conflict types ACCUMULATE and AVERAGE. -/
theorem C8_get_belief_fusion_type (c : ConflictType) :
    Conflict.get_belief_fusion_type ConflictType.BELIEF_CUMULATIVE =
      .ok FusionType.CUMULATIVE ∧
    Conflict.get_belief_fusion_type ConflictType.BELIEF_BELIEF_CONSTRAINT =
      .ok FusionType.BELIEF_CONSTRAINT ∧
    Conflict.get_belief_fusion_type ConflictType.BELIEF_AVERAGE = .ok FusionType.AVERAGE ∧
    Conflict.get_belief_fusion_type ConflictType.BELIEF_WEIGHTED = .ok FusionType.WEIGHTED ∧
    ((∃ e, Conflict.get_belief_fusion_type c = .error e) ↔
      (c = ConflictType.ACCUMULATE ∨ c = ConflictType.AVERAGE)) := by
  refine ⟨rfl, rfl, rfl, rfl, ?_⟩
  cases c <;> simp [Conflict.get_belief_fusion_type]

/-! ## Maximal conflict -/

theorem uncertainty_full_belief_on (i : Fin N) : (full_belief_on i).uncertainty = 0 := by
  simp [uncertainty, full_belief_on]

theorem sum_abs_sub_indicator {i j : Fin N} (h : i ≠ j) :
    (∑ k : Fin N, |(if k = i then (1 : ℚ) else 0) - (if k = j then 1 else 0)|) = 2 := by
  have hterm : ∀ k : Fin N, |(if k = i then (1 : ℚ) else 0) - (if k = j then 1 else 0)| =
      (if k = i then (1 : ℚ) else 0) + (if k = j then 1 else 0) := by
    intro k
    by_cases hki : k = i
    · have hkj : k ≠ j := fun hkj => h (hki ▸ hkj)
      simp [hki, h]
    · by_cases hkj : k = j
      · subst hkj
        simp [hki]
      · simp [hki, hkj]
  simp only [hterm, Finset.sum_add_distrib, Finset.sum_ite_eq', Finset.mem_univ, if_true]
  norm_num

theorem relation_conflict_full_belief_on {i j : Fin N} (h : i ≠ j) :
    Conflict.relation RelationType.CONFLICT (full_belief_on i) (full_belief_on j) = 1 := by
  unfold Conflict.relation
  simp only [degree_of_conflict]
  split_ifs with hN
  · subst hN
    simp only [degree_of_conflict_binomial, getBinomialProjection, uncertainty_full_belief_on,
      belief, front]
    simp only [full_belief_on]
    fin_cases i <;> fin_cases j <;> first | exact absurd rfl h | simp
  · simp only [getProjection, uncertainty_full_belief_on, zero_mul, add_zero]
    simp only [full_belief_on, sum_abs_sub_indicator h]
    norm_num

theorem accumulate_pairs_of_pairwise (rel : RelationType) (l : List (OpinionNoBase N))
    (h : l.Pairwise fun x y => Conflict.relation rel x y = 1) :
    Conflict.accumulate_pairs rel l = (l.length.choose 2 : ℕ) := by
  induction l with
  | nil => simp [Conflict.accumulate_pairs]
  | cons a t ih =>
    rw [List.pairwise_cons] at h
    have hsum : (t.map fun inner => Conflict.relation rel a inner).sum = (t.length : ℚ) := by
      rw [List.map_congr_left (g := fun _ => (1 : ℚ)) (fun x hx => h.1 x hx)]
      simp
    simp only [Conflict.accumulate_pairs, hsum, ih h.2, List.length_cons]
    rw [Nat.choose_succ_succ, Nat.choose_one_right]
    push_cast
    ring

theorem pairwise_distinct_full_beliefs (N : ℕ) :
    (distinct_full_beliefs N).Pairwise
      fun x y => Conflict.relation RelationType.CONFLICT x y = 1 := by
  unfold distinct_full_beliefs
  rw [List.pairwise_map]
  exact (List.nodup_finRange N).imp fun hij => relation_conflict_full_belief_on hij

theorem length_distinct_full_beliefs (N : ℕ) : (distinct_full_beliefs N).length = N := by
  simp [distinct_full_beliefs]

/-- C9. For a dimension `N >= 2` (below `2 ^ 32`, so that the `N` opinions of `N` masses
exist and `N * (N - 1)` does not wrap in `std::size_t`), the `N` opinions of which the `i`-th
puts belief mass `1` on hypothesis `i` have ACCUMULATE conflict `N (N - 1) / 2` and AVERAGE
conflict `1`. -/
theorem C9_max_conflict_max_dim (N : ℕ) (h2 : 2 ≤ N) (h32 : N < 2 ^ 32) :
    Conflict.conflict ConflictType.ACCUMULATE (distinct_full_beliefs N) none =
      .ok ((N : ℚ) * ((N : ℚ) - 1) / 2) ∧
    Conflict.conflict ConflictType.AVERAGE (distinct_full_beliefs N) none = .ok 1 := by
  have hacc : Conflict.accumulated_operator RelationType.CONFLICT (distinct_full_beliefs N) =
      (N.choose 2 : ℕ) := by
    unfold Conflict.accumulated_operator
    rw [if_neg (by rw [length_distinct_full_beliefs]; omega),
      accumulate_pairs_of_pairwise _ _ (pairwise_distinct_full_beliefs N),
      length_distinct_full_beliefs]
  have hchoose : 0 < N.choose 2 := Nat.choose_pos h2
  constructor
  · simp only [Conflict.conflict, Conflict.function_switch, hacc, Nat.cast_choose_two]
  · have hpred : size_t_pred N = N - 1 :=
      size_t_pred_of_pos (by omega) (lt_trans h32 (by norm_num))
    have hlt : N * (N - 1) < 2 ^ 64 := by
      have h1 : N * (N - 1) ≤ N * N := Nat.mul_le_mul_left N (Nat.sub_le N 1)
      have h3 : N * N < 2 ^ 32 * 2 ^ 32 := Nat.mul_lt_mul'' h32 h32
      have h4 : (2 : ℕ) ^ 32 * 2 ^ 32 = 2 ^ 64 := by norm_num
      omega
    have hconn : (N * size_t_pred N) % 2 ^ 64 / 2 = N.choose 2 := by
      rw [hpred, Nat.mod_eq_of_lt hlt, Nat.choose_two_right]
    simp only [Conflict.conflict, Conflict.function_switch, Conflict.average_operator]
    rw [if_neg (by rw [length_distinct_full_beliefs]; omega), hacc,
      length_distinct_full_beliefs, hconn]
    have : ((N.choose 2 : ℕ) : ℚ) ≠ 0 := by exact_mod_cast hchoose.ne'
    rw [div_self this]

/-- C9, instance: dimension `3`, conflict `3` accumulated and `1` on average. -/
theorem C9_max_conflict_max_dim_witness :
    Conflict.conflict ConflictType.ACCUMULATE (distinct_full_beliefs 3) none =
      .ok (((3 : ℕ) : ℚ) * (((3 : ℕ) : ℚ) - 1) / 2) ∧
    Conflict.conflict ConflictType.AVERAGE (distinct_full_beliefs 3) none = .ok 1 :=
  C9_max_conflict_max_dim 3 (by decide) (by decide)

/-! ## Conflict shares -/

theorem zip_replicate_true_filter {α : Type} (l : List α) :
    ((l.zip (List.replicate l.length true)).filter fun p => p.2).map Prod.fst = l := by
  induction l with
  | nil => simp
  | cons a t ih => simpa [List.replicate_succ, List.filter_cons] using ih

theorem zip_mask_filter_eq_eraseIdx {α : Type} (l : List α) (i : ℕ) :
    ((l.zip ((List.replicate l.length true).set i false)).filter fun p => p.2).map Prod.fst =
      l.eraseIdx i := by
  induction l generalizing i with
  | nil => simp
  | cons a t ih =>
    cases i with
    | zero =>
      simpa [List.replicate_succ, List.filter_cons] using zip_replicate_true_filter t
    | succ i =>
      simpa [List.replicate_succ, List.filter_cons] using ih i

theorem mapM_ok_eq_map {α β : Type} (f : α → Except String β) (g : α → β) (l : List α)
    (h : ∀ x, f x = .ok (g x)) : l.mapM f = .ok (l.map g) := by
  induction l with
  | nil => rfl
  | cons a t ih =>
    rw [List.mapM_cons, h a, ih]
    rfl

theorem relation_conflict_binomial (b d b' d' : ℚ) :
    Conflict.relation RelationType.CONFLICT (binomial b d) (binomial b' d') =
      |(b + (1 - (b + d)) * (1 / 2)) - (b' + (1 - (b' + d')) * (1 / 2))| *
        ((1 - (1 - (b + d))) * (1 - (1 - (b' + d')))) := by
  unfold Conflict.relation
  simp only [degree_of_conflict, ↓reduceIte, degree_of_conflict_binomial,
    getBinomialProjection, uncertainty_binomial]
  simp [belief, front, NeutralBeliefDistr, binomial]

theorem conflict_shares_average_eq (k : List (OpinionNoBase N)) :
    Conflict.conflict_shares RelationType.CONFLICT ConflictType.AVERAGE k =
      .ok (if Conflict.average_operator RelationType.CONFLICT k < EPS then
          (0, List.replicate k.length 0)
        else
          (Conflict.average_operator RelationType.CONFLICT k,
            (List.range k.length).map fun i =>
              1 - Conflict.average_operator RelationType.CONFLICT (k.eraseIdx i) /
                Conflict.average_operator RelationType.CONFLICT k)) := by
  simp only [Conflict.conflict_shares, Conflict.conflict, Conflict.function_switch,
    zip_mask_filter_eq_eraseIdx]
  by_cases hc : Conflict.average_operator RelationType.CONFLICT k < EPS
  · rw [if_pos hc]
    show (if Conflict.average_operator RelationType.CONFLICT k < EPS then _ else _) = _
    rw [if_pos hc]
    rfl
  · rw [if_neg hc]
    show (if Conflict.average_operator RelationType.CONFLICT k < EPS then _ else _) = _
    rw [if_neg hc, mapM_ok_eq_map _
      (fun i => 1 - Conflict.average_operator RelationType.CONFLICT (k.eraseIdx i) /
        Conflict.average_operator RelationType.CONFLICT k)]
    · rfl
    · intro x
      rfl

theorem conflict_shares_average_example :
    Conflict.conflict_shares RelationType.CONFLICT ConflictType.AVERAGE
        [binomial 1 0, binomial 1 0, binomial 0 1] = .ok (2 / 3, [-1 / 2, -1 / 2, 1]) := by
  have hconn : (3 * size_t_pred 3) % 18446744073709551616 / 2 = 3 := by decide
  have hconn2 : (2 * size_t_pred 2) % 18446744073709551616 / 2 = 1 := by decide
  have havg : Conflict.average_operator RelationType.CONFLICT
      [binomial 1 0, binomial 1 0, binomial 0 1] = 2 / 3 := by
    simp only [Conflict.average_operator, Conflict.accumulated_operator,
      Conflict.accumulate_pairs, relation_conflict_binomial, List.length_cons, List.length_nil,
      List.map_cons, List.map_nil, List.sum_cons, List.sum_nil]
    norm_num [hconn]
  have h0 : Conflict.average_operator RelationType.CONFLICT
      [binomial 1 0, binomial 0 1] = 1 := by
    simp only [Conflict.average_operator, Conflict.accumulated_operator,
      Conflict.accumulate_pairs, relation_conflict_binomial, List.length_cons, List.length_nil,
      List.map_cons, List.map_nil, List.sum_cons, List.sum_nil]
    norm_num [hconn2]
  have h2 : Conflict.average_operator RelationType.CONFLICT
      [binomial 1 0, binomial 1 0] = 0 := by
    simp only [Conflict.average_operator, Conflict.accumulated_operator,
      Conflict.accumulate_pairs, relation_conflict_binomial, List.length_cons, List.length_nil,
      List.map_cons, List.map_nil, List.sum_cons, List.sum_nil]
    norm_num [hconn2]
  rw [conflict_shares_average_eq, havg, if_neg (by norm_num [EPS])]
  have hr : List.range [binomial 1 0, binomial 1 0, binomial 0 1].length = [0, 1, 2] := rfl
  rw [hr]
  simp only [List.map_cons, List.map_nil, List.eraseIdx_cons_zero, List.eraseIdx_cons_succ,
    h0, h2]
  norm_num

/-- C10. `Conflict::conflict_shares<CONFLICT>(AVERAGE, list)`: with `c` the AVERAGE conflict
of the list, the result is conflict `0` and share `0` at every position when `c < EPS`, and
otherwise `c` together with the share `1 - c_i / c` at every position `i`, where `c_i` is the
AVERAGE conflict of the list without its `i`-th element.  The three binomial opinions
`(1,0), (1,0), (0,1)` get the shares `(-1/2, -1/2, 1)`. -/
theorem C10_conflict_shares_average (l : List (OpinionNoBase N)) :
    (∀ m : List (OpinionNoBase N), Conflict.conflict ConflictType.AVERAGE m none =
      .ok (Conflict.average_operator RelationType.CONFLICT m)) ∧
    Conflict.conflict_shares RelationType.CONFLICT ConflictType.AVERAGE l =
      .ok (if Conflict.average_operator RelationType.CONFLICT l < EPS then
          (0, List.replicate l.length 0)
        else
          (Conflict.average_operator RelationType.CONFLICT l,
            (List.range l.length).map fun i =>
              1 - Conflict.average_operator RelationType.CONFLICT (l.eraseIdx i) /
                Conflict.average_operator RelationType.CONFLICT l)) ∧
    Conflict.conflict_shares RelationType.CONFLICT ConflictType.AVERAGE
        [binomial 1 0, binomial 1 0, binomial 0 1] = .ok (2 / 3, [-1 / 2, -1 / 2, 1]) := by
  exact ⟨fun m => rfl, conflict_shares_average_eq l, conflict_shares_average_example⟩

end multisource

end subjective_logic

namespace subjective_logic

/-! ## Uncertainty differentials -/

theorem sum_map_div_const {α : Type} (l : List α) (f : α → ℚ) (c : ℚ) :
    (l.map fun x => f x / c).sum = (l.map f).sum / c := by
  induction l with
  | nil => simp
  | cons a t ih => simp [ih, add_div]

theorem foldl_add_map_eq_sum {α : Type} (l : List α) (f : α → ℚ) (acc : ℚ) :
    l.foldl (fun sum x => sum + f x) acc = acc + (l.map f).sum := by
  induction l generalizing acc with
  | nil => simp
  | cons a t ih => simp [ih, add_assoc]

namespace multisource

open OpinionNoBase

variable {N : ℕ}

theorem uncertainty_differentials_eq (l : List (OpinionNoBase N)) :
    Conflict.uncertainty_differentials l =
      if (l.map OpinionNoBase.uncertainty).sum < EPS then List.replicate l.length 0
      else l.map fun o => o.uncertainty / (l.map OpinionNoBase.uncertainty).sum := by
  simp only [Conflict.uncertainty_differentials, foldl_add_map_eq_sum, zero_add]

theorem opinion_uncertainty_differentials_eq (l : List (Opinion N)) :
    ConflictOpinion.uncertainty_differentials l =
      if (l.map Opinion.uncertainty).sum < EPS then List.replicate l.length 0
      else l.map fun o => o.uncertainty / (l.map Opinion.uncertainty).sum := by
  simp only [ConflictOpinion.uncertainty_differentials, foldl_add_map_eq_sum, zero_add]

/-- C11. `Conflict::uncertainty_differentials`: with `S` the sum of the uncertainties of the
list, the result is `u_i / S` at every position when `S >= EPS` (and its entries then sum to
`1`), and `0` at every position when `S < EPS`, for `OpinionNoBase` and `Opinion` lists; the
overload for `TrustedOpinion`s returns the differentials of the extracted trusts. -/
theorem C11_uncertainty_differentials (l : List (OpinionNoBase N)) (m : List (Opinion N))
    {O : Type} (L : List (TrustedOpinion O)) :
    (EPS ≤ (l.map OpinionNoBase.uncertainty).sum →
      Conflict.uncertainty_differentials l =
        l.map (fun o => o.uncertainty / (l.map OpinionNoBase.uncertainty).sum) ∧
      (Conflict.uncertainty_differentials l).sum = 1) ∧
    ((l.map OpinionNoBase.uncertainty).sum < EPS →
      Conflict.uncertainty_differentials l = List.replicate l.length 0) ∧
    (EPS ≤ (m.map Opinion.uncertainty).sum →
      ConflictOpinion.uncertainty_differentials m =
        m.map (fun o => o.uncertainty / (m.map Opinion.uncertainty).sum) ∧
      (ConflictOpinion.uncertainty_differentials m).sum = 1) ∧
    ((m.map Opinion.uncertainty).sum < EPS →
      ConflictOpinion.uncertainty_differentials m = List.replicate m.length 0) ∧
    Conflict.uncertainty_differentials_trusted L =
      ConflictOpinion.uncertainty_differentials (L.map fun top => top.trust) := by
  refine ⟨?_, ?_, ?_, ?_, rfl⟩
  · intro h
    have hS : (l.map OpinionNoBase.uncertainty).sum ≠ 0 := by
      have := EPS_pos
      intro h0
      rw [h0] at h
      exact absurd this (not_lt.mpr h)
    rw [uncertainty_differentials_eq, if_neg (not_lt.mpr h)]
    exact ⟨rfl, by rw [sum_map_div_const, div_self hS]⟩
  · intro h
    rw [uncertainty_differentials_eq, if_pos h]
  · intro h
    have hS : (m.map Opinion.uncertainty).sum ≠ 0 := by
      have := EPS_pos
      intro h0
      rw [h0] at h
      exact absurd this (not_lt.mpr h)
    rw [opinion_uncertainty_differentials_eq, if_neg (not_lt.mpr h)]
    exact ⟨rfl, by rw [sum_map_div_const, div_self hS]⟩
  · intro h
    rw [opinion_uncertainty_differentials_eq, if_pos h]

/-! ## Trust revision of a binomial opinion -/

theorem clamp_eq_max_min (f : ℚ) : clamp f (-1) 1 = max (-1) (min f 1) := by
  unfold clamp
  by_cases h1 : f < -1
  · rw [if_pos h1, min_eq_left (by linarith), max_eq_left (by linarith)]
  · rw [if_neg h1]
    by_cases h2 : 1 < f
    · rw [if_pos h2, min_eq_right (by linarith), max_eq_right (by linarith)]
    · rw [if_neg h2, min_eq_left (by linarith), max_eq_right (by linarith)]

theorem uncertainty_two (o : OpinionNoBase 2) :
    o.uncertainty = 1 - (o.belief_masses 0 + o.belief_masses 1) := by
  simp [uncertainty, Fin.sum_univ_two]

theorem revise_trust__zero (o : OpinionNoBase 2) : o.revise_trust_ 0 = o := by
  have hc : clamp 0 (-1) 1 = 0 := by norm_num [clamp]
  ext idx
  simp only [revise_trust_, hc, lt_irrefl, if_false]
  fin_cases idx <;> simp

/-- C14. `revise_trust(f)` of a binomial opinion `(b, d)` with uncertainty `u`, where `g` is
`f` clamped to `[-1, 1]`: for `g >= 0` the belief is `b (1 - g)` and the disbelief
`d + (1 - d) g`; for `g < 0` the belief is `b + (1 - b) |g|` and the disbelief `d (1 - |g|)`;
the uncertainty is `u (1 - |g|)` in both cases, and `revise_trust(0)` returns the opinion. -/
theorem C14_revise_trust (o : OpinionNoBase 2) (f : ℚ) :
    (0 ≤ max (-1) (min f 1) →
      (o.revise_trust_ f).belief_masses 0 = o.belief_masses 0 * (1 - max (-1) (min f 1)) ∧
      (o.revise_trust_ f).belief_masses 1 =
        o.belief_masses 1 + (1 - o.belief_masses 1) * max (-1) (min f 1)) ∧
    (max (-1) (min f 1) < 0 →
      (o.revise_trust_ f).belief_masses 0 =
        o.belief_masses 0 + (1 - o.belief_masses 0) * |max (-1) (min f 1)| ∧
      (o.revise_trust_ f).belief_masses 1 =
        o.belief_masses 1 * (1 - |max (-1) (min f 1)|)) ∧
    (o.revise_trust_ f).uncertainty = o.uncertainty * (1 - |max (-1) (min f 1)|) ∧
    o.revise_trust_ 0 = o := by
  rw [← clamp_eq_max_min]
  refine ⟨?_, ?_, ?_, revise_trust__zero o⟩
  · intro h
    simp [revise_trust_, not_lt.mpr h]
  · intro h
    simp only [revise_trust_, if_pos h, abs_of_neg h]
    constructor <;> simp
  · by_cases h : clamp f (-1) 1 < 0
    · rw [uncertainty_two, uncertainty_two]
      simp only [revise_trust_, if_pos h, abs_of_neg h]
      simp
      ring
    · rw [uncertainty_two, uncertainty_two]
      simp only [revise_trust_, if_neg h, abs_of_nonneg (not_lt.mp h)]
      simp
      ring

/-! ## Trust discounting -/

theorem uncertainty_trust_discount_ (x : OpinionNoBase N) (prop : ℚ) :
    (x.trust_discount_ prop).uncertainty = 1 - prop * (1 - x.uncertainty) := by
  simp only [uncertainty, trust_discount_, ← Finset.sum_mul]
  ring

/-- C15. `trust_discount(prop)` multiplies every belief mass by `prop` and has uncertainty
`1 - prop (1 - u)`; discounting by a binomial trust opinion is discounting by the projected
probability of that opinion, `belief + uncertainty * base rate`; for an `Opinion` the belief
masses are discounted in the same way and the prior is kept. -/
theorem C15_trust_discount (x : OpinionNoBase N) (y : Opinion N) (prop : ℚ)
    (t : OpinionNoBase 2) (base_rate : ℚ) (discount : Opinion 2) :
    (∀ idx, (x.trust_discount_ prop).belief_masses idx = prop * x.belief_masses idx) ∧
    (x.trust_discount_ prop).uncertainty = 1 - prop * (1 - x.uncertainty) ∧
    x.trust_discount_by_opinion_ t base_rate =
      x.trust_discount_ (t.belief_masses 0 + t.uncertainty * base_rate) ∧
    (∀ idx, (y.trust_discount_ prop).belief_masses idx = prop * y.belief_masses idx) ∧
    (y.trust_discount_ prop).uncertainty = 1 - prop * (1 - y.uncertainty) ∧
    (y.trust_discount_ prop).prior = y.prior ∧
    y.trust_discount_by_opinion_ discount =
      y.trust_discount_
        (discount.belief_masses 0 + discount.uncertainty * discount.prior 0) := by
  refine ⟨?_, uncertainty_trust_discount_ x prop, ?_, ?_,
    uncertainty_trust_discount_ y.opinion_no_base prop, rfl, ?_⟩
  · intro idx
    simp [trust_discount_, mul_comm]
  · simp [trust_discount_by_opinion_, getBinomialProjection, belief, front]
  · intro idx
    simp [Opinion.trust_discount_, Opinion.belief_masses, trust_discount_, mul_comm]
  · simp [Opinion.trust_discount_by_opinion_, Opinion.trust_discount_,
      Opinion.getBinomialProjection, Opinion.getBinomialPrior, getBinomialProjection, belief,
      front, Opinion.belief_masses, Opinion.uncertainty]

end multisource

end subjective_logic

namespace subjective_logic.multisource

open OpinionNoBase

variable {N : ℕ}

/-- C16. `limited_trust_discount(limit, prop)` of an opinion with uncertainty `u < 1`: when
`u <= limit` the result has uncertainty at most `limit`, exactly `limit` when
`prop <= (1 - limit) / (1 - u)`, and all its belief masses are those of the opinion times one
common factor; when `u > limit` the opinion is returned unchanged.  For an `Opinion` the
belief masses are treated in the same way and the prior is kept. -/
theorem C16_limited_trust_discount (o : OpinionNoBase N) (limit prop : ℚ)
    (hu : o.uncertainty < 1) (p : Opinion N) :
    (o.uncertainty ≤ limit →
      (o.limited_trust_discount_ limit prop).uncertainty ≤ limit ∧
      (prop ≤ (1 - limit) / (1 - o.uncertainty) →
        (o.limited_trust_discount_ limit prop).uncertainty = limit) ∧
      ∃ k : ℚ, ∀ idx,
        (o.limited_trust_discount_ limit prop).belief_masses idx = k * o.belief_masses idx) ∧
    (limit < o.uncertainty → o.limited_trust_discount_ limit prop = o) ∧
    (p.limited_trust_discount_ limit prop).opinion_no_base =
      p.opinion_no_base.limited_trust_discount_ limit prop ∧
    (p.limited_trust_discount_ limit prop).prior = p.prior := by
  have h1u : 0 < 1 - o.uncertainty := by linarith
  refine ⟨?_, ?_, rfl, rfl⟩
  · intro hle
    have hm : (1 - limit) / (1 - o.uncertainty) ≤ 1 := by
      rw [div_le_one h1u]; linarith
    refine ⟨?_, ?_, ?_⟩
    · simp only [limited_trust_discount_, uncertainty_trust_discount_]
      have hge : (1 - limit) / (1 - o.uncertainty) ≤
          min 1 (max ((1 - limit) / (1 - o.uncertainty)) prop) :=
        le_min hm (le_max_left _ _)
      have := mul_le_mul_of_nonneg_right hge h1u.le
      rw [div_mul_cancel₀ _ h1u.ne'] at this
      linarith
    · intro hp
      simp only [limited_trust_discount_, uncertainty_trust_discount_]
      rw [max_eq_left hp, min_eq_right hm, div_mul_cancel₀ _ h1u.ne']
      ring
    · exact ⟨min 1 (max ((1 - limit) / (1 - o.uncertainty)) prop), fun idx => by
        simp [limited_trust_discount_, trust_discount_, mul_comm]⟩
  · intro hlt
    have hm : 1 < (1 - limit) / (1 - o.uncertainty) := by
      rw [one_lt_div h1u]; linarith
    ext idx
    simp only [limited_trust_discount_, trust_discount_]
    rw [min_eq_left (le_trans hm.le (le_max_left _ _)), mul_one]

/-- C16, instance: the dogmatic `(1, 0)` with limit `0.3` and `prop = 0.1` of the unit test;
below, `u = 0 <= 0.3` and `0.1 <= 0.7`, so the new uncertainty is `0.3`. -/
theorem C16_limited_trust_discount_witness :
    ((binomial 1 0).limited_trust_discount_ (3/10) (1/10)).uncertainty = 3/10 :=
  ((C16_limited_trust_discount (binomial 1 0) (3/10) (1/10)
    (by norm_num [uncertainty_binomial]) Opinion.vacuous).1
      (by norm_num [uncertainty_binomial])).2.1
    (by norm_num [uncertainty_binomial])

/-! ## Trust revision of a trusted opinion -/

/-- C19. `TrustedOpinion::revise_trust_(factor)` and the pairwise
`TrustedOpinion::revise_trust_(other)` leave the opinion component and the prior of the trust
of every `TrustedOpinion` involved as they were: only the belief masses of the trusts
change, and they become those of `Opinion::revise_trust_` with the respective factor. -/
theorem C19_revise_trust_frame {O : Type} [OpinionOps O] (t other : TrustedOpinion O)
    (f : ℚ) :
    (t.revise_trust_ f).opinion = t.opinion ∧
    (t.revise_trust_ f).trust.prior = t.trust.prior ∧
    (t.revise_trust_ f).trust.opinion_no_base = t.trust.opinion_no_base.revise_trust_ f ∧
    (t.revise_trust_pair_ other).1.opinion = t.opinion ∧
    (t.revise_trust_pair_ other).1.trust.prior = t.trust.prior ∧
    (t.revise_trust_pair_ other).2.opinion = other.opinion ∧
    (t.revise_trust_pair_ other).2.trust.prior = other.trust.prior ∧
    (t.revise_trust_pair_ other).1.trust.opinion_no_base =
      t.trust.opinion_no_base.revise_trust_
        (t.trust.uncertainty_differential other.trust *
          OpinionOps.degree_of_conflict t.opinion other.opinion) ∧
    (t.revise_trust_pair_ other).2.trust.opinion_no_base =
      other.trust.opinion_no_base.revise_trust_
        (other.trust.uncertainty_differential t.trust *
          OpinionOps.degree_of_conflict t.opinion other.opinion) :=
  ⟨rfl, rfl, rfl, rfl, rfl, rfl, rfl, rfl, rfl⟩

/-! ## Degree of conflict and degree of harmony -/

theorem opinion_degree_of_conflict_binomial_eq (x y : Opinion 2)
    (hx : x.prior 0 + x.prior 1 = 1) (hy : y.prior 0 + y.prior 1 = 1) :
    x.degree_of_conflict y = own_prior_degree_of_conflict x y := by
  have hux := uncertainty_two x.opinion_no_base
  have huy := uncertainty_two y.opinion_no_base
  have h1 : x.getProjection 1 - y.getProjection 1 =
      -(x.getProjection 0 - y.getProjection 0) := by
    simp only [Opinion.getProjection, OpinionNoBase.getProjection]
    have ex : x.prior 1 = 1 - x.prior 0 := by linarith
    have ey : y.prior 1 = 1 - y.prior 0 := by linarith
    rw [ex, ey, hux, huy]
    ring
  have hL : x.degree_of_conflict y =
      |x.getProjection 0 - y.getProjection 0| *
        ((1 - x.uncertainty) * (1 - y.uncertainty)) := by
    simp only [Opinion.degree_of_conflict, if_true, degree_of_conflict_binomial,
      OpinionNoBase.getBinomialProjection, belief, front, Opinion.getBinomialPrior,
      Opinion.getProjection, OpinionNoBase.getProjection, Opinion.uncertainty]
    rfl
  rw [hL]
  simp only [own_prior_degree_of_conflict, Fin.sum_univ_two, h1, abs_neg]
  ring

/-- C12, failing input. The `Opinion<3>` values `x` and `y`, both with belief masses
`(1/2, 0, 0)`, have the priors `(1, 0, 0)` and `(0, 1, 0)`.  Projected with their own priors
they are `(1, 0, 0)` and `(1/2, 1/2, 0)`, which gives the degree of conflict `1/8`;
`x.degree_of_conflict(y)` projects `y` with the prior of `x` and returns `0`. -/
theorem C12_degree_of_conflict_ignores_other_prior :
    (∑ idx, (![1, 0, 0] : Fin 3 → ℚ) idx) = 1 ∧
    (∑ idx, (![0, 1, 0] : Fin 3 → ℚ) idx) = 1 ∧
    Opinion.degree_of_conflict (⟨⟨![1/2, 0, 0]⟩, ![1, 0, 0]⟩ : Opinion 3)
      ⟨⟨![1/2, 0, 0]⟩, ![0, 1, 0]⟩ = 0 ∧
    own_prior_degree_of_conflict (⟨⟨![1/2, 0, 0]⟩, ![1, 0, 0]⟩ : Opinion 3)
      ⟨⟨![1/2, 0, 0]⟩, ![0, 1, 0]⟩ = 1 / 8 := by
  have hu : (⟨![1/2, 0, 0]⟩ : OpinionNoBase 3).uncertainty = 1 / 2 := by
    simp [uncertainty, Fin.sum_univ_three]
    norm_num
  refine ⟨by simp [Fin.sum_univ_three], by simp [Fin.sum_univ_three], ?_, ?_⟩
  · simp only [Opinion.degree_of_conflict, degree_of_conflict, OpinionNoBase.getProjection, hu]
    simp [Fin.sum_univ_three]
  · simp only [own_prior_degree_of_conflict, Opinion.getProjection,
      OpinionNoBase.getProjection, Opinion.uncertainty, hu]
    simp [Fin.sum_univ_three]
    norm_num [abs_of_pos]

theorem relation_harmony_binomial (b d b' d' : ℚ) :
    Conflict.relation RelationType.HARMONY (binomial b d) (binomial b' d') =
      |(b + (1 - (b + d)) * (1 / 2)) - (b' + (1 - (b' + d')) * (1 / 2))| *
        ((1 - (1 - (b + d))) * (1 - (1 - (b' + d')))) := by
  unfold Conflict.relation
  simp only [degree_of_harmony, ↓reduceIte, degree_of_conflict_binomial,
    getBinomialProjection, uncertainty_binomial]
  simp [belief, front, NeutralBeliefDistr, binomial]

/-- C13, failing input. For the binomial `x = y = (1/2, 0)` with neutral base rates the
projected probabilities coincide, so the distance `d` is `0`, `x.degree_of_conflict(y)` is `0`
and `(1 - d) (1 - u_x) (1 - u_y)` is `1/4`, the value of the scalar overload
`degree_of_harmony(y, 1/2, 1/2)`.  The overload `degree_of_harmony(y, a, a')` with base-rate
vectors returns `0`, the degree of conflict, and `Conflict::harmony(ACCUMULATE, {x, y})`
returns `0` as well. -/
theorem C13_binomial_degree_of_harmony_is_conflict :
    (binomial (1/2) 0).degree_of_conflict (binomial (1/2) 0) NeutralBeliefDistr
      NeutralBeliefDistr = 0 ∧
    (1 - 0) * ((1 - (binomial (1/2) 0).uncertainty) * (1 - (binomial (1/2) 0).uncertainty)) =
      (1 / 4 : ℚ) ∧
    (binomial (1/2) 0).degree_of_harmony_binomial (binomial (1/2) 0) (1/2) (1/2) = 1 / 4 ∧
    (binomial (1/2) 0).degree_of_harmony (binomial (1/2) 0) NeutralBeliefDistr
      NeutralBeliefDistr = 0 ∧
    Conflict.harmony ConflictType.ACCUMULATE [binomial (1/2) 0, binomial (1/2) 0] none =
      .ok 0 := by
  have hc := relation_conflict_binomial (1/2) 0 (1/2) 0
  have hh := relation_harmony_binomial (1/2) 0 (1/2) 0
  simp only [Conflict.relation] at hc hh
  refine ⟨?_, ?_, ?_, ?_, ?_⟩
  · rw [hc]; norm_num
  · norm_num [uncertainty_binomial]
  · simp only [degree_of_harmony_binomial, getBinomialProjection, uncertainty_binomial]
    simp [belief, front, binomial]
    norm_num
  · rw [hh]; norm_num
  · simp only [Conflict.harmony, Conflict.function_switch, Conflict.accumulated_operator,
      Conflict.accumulate_pairs, relation_harmony_binomial, List.length_cons, List.length_nil,
      List.map_cons, List.map_nil, List.sum_cons, List.sum_nil]
    norm_num

end subjective_logic.multisource

namespace subjective_logic

/-! ## Trusted fusion without revision -/

theorem zipWith_replicate_right {α β γ : Type} (f : α → β → γ) (l : List α) (c : β) :
    List.zipWith f l (List.replicate l.length c) = l.map fun x => f x c := by
  induction l with
  | nil => rfl
  | cons a t ih => simp [List.replicate_succ, ih]

theorem map_fst_zipWith_pair {α β γ : Type} (g : α → β → γ) (l : List α) (ws : List β)
    (h : ws.length = l.length) :
    (List.zipWith (fun x w => (x, g x w)) l ws).map Prod.fst = l := by
  induction l generalizing ws with
  | nil => simp
  | cons a t ih =>
    cases ws with
    | nil => simp at h
    | cons w ws => simp [ih ws (by simpa using h)]

namespace multisource

open OpinionNoBase

theorem opinion_revise_trust__zero (t : Opinion 2) : t.revise_trust_ 0 = t := by
  simp [Opinion.revise_trust_, revise_trust__zero]

theorem trusted_revise_trust__zero {O : Type} (t : TrustedOpinion O) :
    t.revise_trust_ 0 = t := by
  simp [TrustedOpinion.revise_trust_, opinion_revise_trust__zero]

namespace TrustedFusion

variable {O : Type} [MultiSourceOps O]

theorem weighted_revision_factors_nil (L : List (TrustedOpinion O)) :
    weighted_revision_factors [] L = .ok (List.replicate L.length 0) := rfl

theorem fusion_calculation_nil_copy (t : FusionType) (L : List (TrustedOpinion O)) :
    fusion_calculation t [] L revision_function_copy =
      (L, MultiSourceOps.fuse_opinions t (TrustedOpinion.extractDiscountedOpinions L)) := by
  simp only [fusion_calculation, weighted_revision_factors_nil, zipWith_replicate_right,
    List.map_map, TrustedOpinion.extractDiscountedOpinions]
  congr 1
  · simp [revision_function_copy, Function.comp_def]
  · congr 1
    simp [revision_function_copy, Function.comp_def, trusted_revise_trust__zero]

theorem fusion_calculation_nil_inplace (t : FusionType) (L : List (TrustedOpinion O)) :
    fusion_calculation t [] L revision_function_inplace =
      (L, MultiSourceOps.fuse_opinions t (TrustedOpinion.extractDiscountedOpinions L)) := by
  simp only [fusion_calculation, weighted_revision_factors_nil, zipWith_replicate_right,
    List.map_map, TrustedOpinion.extractDiscountedOpinions]
  congr 1
  · simp [revision_function_inplace, Function.comp_def, trusted_revise_trust__zero]
  · congr 1
    simp [revision_function_inplace, Function.comp_def, trusted_revise_trust__zero]

end TrustedFusion

variable {N : ℕ}

/-- C17. With no revision triples — `TrustedFusion::fuse_opinions(type, L)` and the weighted
entry points, copying or in-place, with an empty triple list — the result is
`Fusion::fuse_opinions(type, D)` with `D[i] = L[i].opinion.trust_discount(p_i)`, `p_i` the
projected probability of `L[i].trust`, and the list is left as it was (no trust is revised);
for every fusion type, the error of WEIGHTED included, and for lists of
`TrustedOpinion<OpinionNoBase<N>>` and of `TrustedOpinion<Opinion<N>>`. -/
theorem C17_fuse_opinions_without_revision (t : FusionType)
    (L : List (TrustedOpinion (OpinionNoBase N))) (M : List (TrustedOpinion (Opinion N))) :
    TrustedFusion.fuse_opinions t L =
      (L, Fusion.fuse_opinions t
        (L.map fun top => top.opinion.trust_discount_ top.trust.getBinomialProjection)) ∧
    TrustedFusion.fuse_opinions_weighted t [] L = TrustedFusion.fuse_opinions t L ∧
    TrustedFusion.fuse_opinions_weighted_ t [] L = TrustedFusion.fuse_opinions t L ∧
    TrustedFusion.fuse_opinions t M =
      (M, FusionOpinion.fuse_opinions t
        (M.map fun top => top.opinion.trust_discount_ top.trust.getBinomialProjection)) ∧
    TrustedFusion.fuse_opinions_weighted t [] M = TrustedFusion.fuse_opinions t M ∧
    TrustedFusion.fuse_opinions_weighted_ t [] M = TrustedFusion.fuse_opinions t M := by
  refine ⟨?_, rfl, ?_, ?_, rfl, ?_⟩
  · exact TrustedFusion.fusion_calculation_nil_copy t L
  · simp only [TrustedFusion.fuse_opinions_weighted_, TrustedFusion.fuse_opinions,
      TrustedFusion.fusion_calculation_nil_copy, TrustedFusion.fusion_calculation_nil_inplace]
  · exact TrustedFusion.fusion_calculation_nil_copy t M
  · simp only [TrustedFusion.fuse_opinions_weighted_, TrustedFusion.fuse_opinions,
      TrustedFusion.fusion_calculation_nil_copy, TrustedFusion.fusion_calculation_nil_inplace]

end multisource

end subjective_logic

namespace subjective_logic

/-! ## Trusted fusion, in place and copying -/

theorem range_map_getD (l : List ℚ) : (List.range l.length).map (fun i => l.getD i 0) = l := by
  apply List.ext_getElem
  · simp
  · intro i h1 h2
    simp [List.getD_eq_getElem?_getD, List.getElem?_eq_getElem h2]

theorem getD_range_map (n : ℕ) (f : ℕ → ℚ) {i : ℕ} (h : i < n) :
    ((List.range n).map f).getD i 0 = f i := by
  simp [List.getD_eq_getElem?_getD, List.getElem?_map, List.getElem?_range h]

namespace multisource

open OpinionNoBase

namespace TrustedFusion

variable {O : Type} [MultiSourceOps O]

theorem weighted_fold_spec (L : List (TrustedOpinion O)) (w : List WeightedTypes) :
    ∀ (init ws : List ℚ), init.length = L.length →
      w.foldlM
        (fun weighted_revision_factors (types : WeightedTypes) => do
          let revision_factors ←
            TrustRevision.revision_factors types.1 types.2.1 L none
          pure ((List.range L.length).map fun op_idx =>
            weighted_revision_factors.getD op_idx 0 +
              types.2.2 * revision_factors.getD op_idx 0))
        init = Except.ok ws →
      ∃ fs : List (List ℚ),
        List.Forall₂
          (fun (ty : WeightedTypes) f =>
            TrustRevision.revision_factors ty.1 ty.2.1 L none = Except.ok f) w fs ∧
        ws = (List.range L.length).map fun i =>
          init.getD i 0 + ((w.zip fs).map fun p => p.1.2.2 * p.2.getD i 0).sum := by
  induction w with
  | nil =>
    intro init ws hinit h
    refine ⟨[], List.Forall₂.nil, ?_⟩
    have hws : init = ws := by
      simpa [List.foldlM, pure, Except.pure] using h
    subst hws
    simp only [List.zip_nil_right, List.map_nil, List.sum_nil, add_zero]
    rw [← hinit, range_map_getD]
  | cons ty w ih =>
    intro init ws hinit h
    rw [List.foldlM_cons] at h
    cases hrf : TrustRevision.revision_factors ty.1 ty.2.1 L none with
    | error e =>
      rw [hrf] at h
      cases h
    | ok rf =>
      rw [hrf] at h
      obtain ⟨fs, hfs, hws⟩ := ih _ ws (by simp) h
      refine ⟨rf :: fs, List.Forall₂.cons hrf hfs, ?_⟩
      rw [hws]
      apply List.map_congr_left
      intro i hi
      rw [getD_range_map _ _ (List.mem_range.mp hi)]
      simp only [List.zip_cons_cons, List.map_cons, List.sum_cons]
      ring

theorem weighted_revision_factors_spec (L : List (TrustedOpinion O)) (w : List WeightedTypes)
    (ws : List ℚ) (h : weighted_revision_factors w L = Except.ok ws) :
    ∃ fs : List (List ℚ),
      List.Forall₂
        (fun (ty : WeightedTypes) f =>
          TrustRevision.revision_factors ty.1 ty.2.1 L none = Except.ok f) w fs ∧
      ws = (List.range L.length).map fun i =>
        ((w.zip fs).map fun p => p.1.2.2 * p.2.getD i 0).sum := by
  obtain ⟨fs, hfs, hws⟩ := weighted_fold_spec L w (List.replicate L.length 0) ws (by simp) h
  refine ⟨fs, hfs, ?_⟩
  rw [hws]
  apply List.map_congr_left
  intro i hi
  have : (List.replicate L.length (0 : ℚ)).getD i 0 = 0 := by
    simp [List.getD_eq_getElem?_getD, List.getElem?_replicate, List.mem_range.mp hi]
  rw [this, zero_add]

theorem weighted_revision_factors_length (L : List (TrustedOpinion O))
    (w : List WeightedTypes) (ws : List ℚ)
    (h : weighted_revision_factors w L = Except.ok ws) : ws.length = L.length := by
  obtain ⟨fs, _, hws⟩ := weighted_revision_factors_spec L w ws h
  rw [hws]
  simp

theorem map_snd_zipWith_inplace (L : List (TrustedOpinion O)) (ws : List ℚ) :
    (List.zipWith revision_function_inplace L ws).map Prod.snd =
      (List.zipWith revision_function_copy L ws).map Prod.snd := by
  rw [List.map_zipWith, List.map_zipWith]
  rfl

theorem map_fst_zipWith_inplace (L : List (TrustedOpinion O)) (ws : List ℚ) :
    (List.zipWith revision_function_inplace L ws).map Prod.fst =
      List.zipWith (fun top c => (⟨top.trust.revise_trust_ c, top.opinion⟩ : TrustedOpinion O))
        L ws := by
  rw [List.map_zipWith]
  rfl

end TrustedFusion

/-- C18. For every fusion type, list of weighted triples and list `L` of `TrustedOpinion`s (of
either opinion type): the in-place `TrustedFusion::fuse_opinions_` and the copying
`TrustedFusion::fuse_opinions` return the same opinion (or raise the same error); the copying
one leaves `L` as it was; and when the in-place one returns, there are revision factors
`fs[k]`, computed for the `k`-th triple on the original `L`, such that afterwards `L[i]` has
its old opinion and its old trust revised by `sum_k weight_k * fs[k][i]`. -/
theorem C18_inplace_and_copy_agree {O : Type} [MultiSourceOps O] (t : FusionType)
    (w : List WeightedTypes) (L : List (TrustedOpinion O)) :
    (TrustedFusion.fuse_opinions_weighted_ t w L).2 =
      (TrustedFusion.fuse_opinions_weighted t w L).2 ∧
    (TrustedFusion.fuse_opinions_weighted t w L).1 = L ∧
    ∀ r, (TrustedFusion.fuse_opinions_weighted_ t w L).2 = Except.ok r →
      ∃ fs : List (List ℚ),
        List.Forall₂
          (fun (ty : WeightedTypes) f =>
            TrustRevision.revision_factors ty.1 ty.2.1 L none = Except.ok f) w fs ∧
        (TrustedFusion.fuse_opinions_weighted_ t w L).1 =
          List.zipWith
            (fun top c => (⟨top.trust.revise_trust_ c, top.opinion⟩ : TrustedOpinion O)) L
            ((List.range L.length).map fun i =>
              ((w.zip fs).map fun p => p.1.2.2 * p.2.getD i 0).sum) := by
  simp only [TrustedFusion.fuse_opinions_weighted_, TrustedFusion.fuse_opinions_weighted,
    TrustedFusion.fusion_calculation]
  cases hw : TrustedFusion.weighted_revision_factors w L with
  | error e =>
    refine ⟨rfl, rfl, ?_⟩
    intro r hr
    cases hr
  | ok ws =>
    have hlen := TrustedFusion.weighted_revision_factors_length L w ws hw
    refine ⟨?_, ?_, ?_⟩
    · simp only [TrustedFusion.map_snd_zipWith_inplace]
    · exact map_fst_zipWith_pair _ L ws hlen
    · intro r _
      obtain ⟨fs, hfs, hws⟩ := TrustedFusion.weighted_revision_factors_spec L w ws hw
      refine ⟨fs, hfs, ?_⟩
      simp only [TrustedFusion.map_fst_zipWith_inplace]
      rw [← hws]

end multisource

end subjective_logic

namespace subjective_logic

/-! ## Trust revision against a reference fusion -/

theorem range_map_getD_comp (l : List ℚ) (f : ℚ → ℚ) :
    (List.range l.length).map (fun i => f (l.getD i 0)) = l.map f := by
  have h := congrArg (List.map f) (range_map_getD l)
  rw [List.map_map] at h
  exact h

namespace multisource

namespace TrustRevision

variable {O : Type} [MultiSourceOps O]

end TrustRevision

end multisource

end subjective_logic

namespace subjective_logic.multisource

open OpinionNoBase

end subjective_logic.multisource

namespace subjective_logic

/-! ## Belief constraint fusion of two opinions -/

namespace OpinionNoBase

variable {N : ℕ}

theorem sum_belief_eq (x : OpinionNoBase N) : ∑ idx, x.belief_masses idx = 1 - x.uncertainty := by
  simp [uncertainty]

theorem conflict_eq (x y : OpinionNoBase N) :
    x.conflict y = (1 - x.uncertainty) * (1 - y.uncertainty) -
      ∑ idx, x.belief_masses idx * y.belief_masses idx := by
  have h : ∀ idx1 : Fin N,
      (∑ idx2, if idx1 = idx2 then 0 else x.belief_masses idx1 * y.belief_masses idx2) =
        x.belief_masses idx1 * (1 - y.uncertainty) -
          x.belief_masses idx1 * y.belief_masses idx1 := by
    intro idx1
    have h2 : ∀ idx2 : Fin N,
        (if idx1 = idx2 then 0 else x.belief_masses idx1 * y.belief_masses idx2) =
          x.belief_masses idx1 * y.belief_masses idx2 -
            (if idx1 = idx2 then x.belief_masses idx1 * y.belief_masses idx2 else 0) := by
      intro idx2
      by_cases hh : idx1 = idx2 <;> simp [hh]
    simp only [h2, Finset.sum_sub_distrib, Finset.sum_ite_eq, Finset.mem_univ, if_true,
      ← Finset.mul_sum, sum_belief_eq]
  simp only [conflict, h, Finset.sum_sub_distrib, ← Finset.sum_mul, sum_belief_eq]

theorem sum_harmony_eq (x y : OpinionNoBase N) :
    ∑ idx, x.harmony y idx = 1 - x.conflict y - x.uncertainty * y.uncertainty := by
  rw [conflict_eq]
  simp only [harmony, Finset.sum_add_distrib, ← Finset.sum_mul, sum_belief_eq]
  ring

theorem bc_fuse__of_ge (x y : OpinionNoBase N) (h : EPS ≤ |1 - x.conflict y|) :
    x.bc_fuse_ y = ⟨fun idx => x.harmony y idx / (1 - x.conflict y)⟩ := by
  simp only [bc_fuse_]
  rw [if_neg (not_lt.mpr h)]

theorem bc_fuse__of_lt (x y : OpinionNoBase N) (h : |1 - x.conflict y| < EPS) :
    x.bc_fuse_ y = ⟨NeutralBeliefDistr⟩ := by
  simp only [bc_fuse_]
  rw [if_pos h]

theorem uncertainty_bc_fuse_ (x y : OpinionNoBase N) (h : EPS ≤ |1 - x.conflict y|) :
    (x.bc_fuse_ y).uncertainty = x.uncertainty * y.uncertainty / (1 - x.conflict y) := by
  have hne : 1 - x.conflict y ≠ 0 := by
    intro h0
    rw [h0, abs_zero] at h
    exact absurd h (not_le.mpr EPS_pos)
  rw [bc_fuse__of_ge x y h]
  simp only [uncertainty]
  rw [← Finset.sum_div, sum_harmony_eq]
  simp only [uncertainty]
  field_simp

end OpinionNoBase

open OpinionNoBase

/-- C30. `x.bc_fuse(y)`: when `|1 - conflict(x, y)| >= EPS` the belief masses are
`harmony_i / (1 - conflict)` and the uncertainty is `u_x u_y / (1 - conflict)`; when
`|1 - conflict(x, y)| < EPS` every belief mass is `1 / N`.  `Opinion::bc_fuse` applies the
same operator to the belief masses. -/
theorem C30_bc_fuse {N : ℕ} (x y : OpinionNoBase N) (p q : Opinion N) :
    (EPS ≤ |1 - x.conflict y| →
      (∀ idx, (x.bc_fuse y).belief_masses idx = x.harmony y idx / (1 - x.conflict y)) ∧
      (x.bc_fuse y).uncertainty = x.uncertainty * y.uncertainty / (1 - x.conflict y)) ∧
    (|1 - x.conflict y| < EPS → ∀ idx, (x.bc_fuse y).belief_masses idx = 1 / (N : ℚ)) ∧
    (p.bc_fuse_ q).opinion_no_base = p.opinion_no_base.bc_fuse q.opinion_no_base := by
  refine ⟨fun h => ⟨fun idx => ?_, ?_⟩, fun h idx => ?_, ?_⟩
  · rw [bc_fuse, bc_fuse__of_ge x y h]
  · rw [bc_fuse, uncertainty_bc_fuse_ x y h]
  · rw [bc_fuse, bc_fuse__of_lt x y h]
    rfl
  · simp only [Opinion.bc_fuse_, bc_fuse]
    split <;> rfl

end subjective_logic

namespace subjective_logic

/-! ## Consensus and compromise fusion -/

open OpinionNoBase

theorem round_half_even_eq (q : ℚ) (m : ℤ) (h1 : (m : ℚ) - 1 / 2 < q)
    (h2 : q < (m : ℚ) + 1 / 2) : round_half_even q = m := by
  unfold round_half_even
  by_cases hq : (m : ℚ) ≤ q
  · have hf : ⌊q⌋ = m := by
      rw [Int.floor_eq_iff]
      exact ⟨hq, by linarith⟩
    simp only [hf]
    rw [if_pos (by linarith)]
  · have hf : ⌊q⌋ = m - 1 := by
      rw [Int.floor_eq_iff]
      push_cast
      exact ⟨by linarith, by linarith [not_le.mp hq]⟩
    simp only [hf]
    push_cast
    rw [if_neg (by linarith), if_pos (by linarith)]
    ring

theorem round_half_even_nonneg (q : ℚ) (h : 0 ≤ q) : 0 ≤ round_half_even q := by
  have hf : 0 ≤ ⌊q⌋ := Int.floor_nonneg.mpr h
  unfold round_half_even
  simp only []
  split_ifs <;> omega

theorem to_float_zero : to_float 0 = 0 := by
  have h : round_half_even 0 = 0 := round_half_even_eq 0 0 (by norm_num) (by norm_num)
  simp [to_float, h]

theorem to_float_nonneg (x : ℚ) (h : 0 ≤ x) : 0 ≤ to_float x := by
  unfold to_float
  simp only []
  rw [if_neg (not_lt.mpr h)]
  apply mul_nonneg
  · exact_mod_cast round_half_even_nonneg _ (div_nonneg (abs_nonneg _) (by positivity))
  · positivity

theorem to_float_eq (x : ℚ) (e m : ℤ) (h1 : (2 : ℚ) ^ e ≤ x) (h2 : x < (2 : ℚ) ^ (e + 1))
    (he : -126 ≤ e) (hm1 : (m : ℚ) - 1 / 2 < x / (2 : ℚ) ^ (e - 23))
    (hm2 : x / (2 : ℚ) ^ (e - 23) < (m : ℚ) + 1 / 2) :
    to_float x = (m : ℚ) * (2 : ℚ) ^ (e - 23) := by
  have hx : 0 < x := lt_of_lt_of_le (by positivity) h1
  have hlog : Int.log 2 x = e := by
    apply le_antisymm
    · have := (Int.lt_zpow_iff_log_lt (b := 2) (by norm_num) hx).mp (by exact_mod_cast h2)
      omega
    · exact (Int.zpow_le_iff_le_log (b := 2) (by norm_num) hx).mp (by exact_mod_cast h1)
  unfold to_float
  simp only []
  rw [abs_of_pos hx, hlog, max_eq_left he, if_neg (not_lt.mpr hx.le),
    round_half_even_eq _ m hm1 hm2]

theorem to_float_one_tenth : to_float (1 / 10) = 13421773 / 134217728 := by
  rw [to_float_eq (1 / 10) (-4) 13421773 (by norm_num) (by norm_num) (by norm_num)
    (by norm_num) (by norm_num)]
  norm_num

theorem to_float_one_hundredth : to_float (1 / 100) = 5368709 / 536870912 := by
  rw [to_float_eq (1 / 100) (-7) 10737418 (by norm_num) (by norm_num) (by norm_num)
    (by norm_num) (by norm_num)]
  norm_num

theorem to_float_one_half : to_float (1 / 2) = 1 / 2 := by
  rw [to_float_eq (1 / 2) (-1) 8388608 (by norm_num) (by norm_num) (by norm_num)
    (by norm_num) (by norm_num)]
  norm_num

theorem fminf_self (a : ℚ) : fminf a a = to_float a := min_self _

theorem fminf_zero_right (a : ℚ) (h : 0 ≤ a) : fminf a 0 = 0 := by
  rw [fminf, to_float_zero]
  exact min_eq_right (to_float_nonneg a h)

theorem fminf_zero_left (a : ℚ) (h : 0 ≤ a) : fminf 0 a = 0 := by
  rw [fminf, to_float_zero]
  exact min_eq_left (to_float_nonneg a h)

theorem cc_fuse__eq {N : ℕ} (x y : OpinionNoBase N) :
    x.cc_fuse_ y =
      if |cc_compromise_sum x y| < EPS then ⟨VacuousBeliefDistr⟩
      else ⟨fun idx => cc_consensus x y idx +
        (1 - (∑ i, cc_consensus x y i) - x.uncertainty * y.uncertainty) /
          cc_compromise_sum x y * cc_compromise x y idx⟩ := rfl

theorem cc_compromise_sum_same_binomial (b : ℚ) :
    cc_compromise_sum (binomial b 0) (binomial b 0) =
      2 * (b - to_float b) * (1 - b) + (b - to_float b) * (b - to_float b) := by
  simp only [cc_compromise_sum, cc_compromise, cc_consensus, uncertainty_binomial,
    Fin.sum_univ_two]
  simp only [binomial, Matrix.cons_val_zero, Matrix.cons_val_one, Matrix.head_cons,
    fminf_self, to_float_zero]
  simp
  ring

theorem fin_three_ne :
    ((0 : Fin 3) = 1) = False ∧ ((0 : Fin 3) = 2) = False ∧ ((1 : Fin 3) = 0) = False ∧
    ((1 : Fin 3) = 2) = False ∧ ((2 : Fin 3) = 0) = False ∧ ((2 : Fin 3) = 1) = False :=
  ⟨eq_false (by decide), eq_false (by decide), eq_false (by decide), eq_false (by decide),
    eq_false (by decide), eq_false (by decide)⟩

theorem cc_example_compromise_sum :
    cc_compromise_sum (⟨![99/100, 1/100, 0]⟩ : OpinionNoBase 3) ⟨![0, 1/100, 99/100]⟩ =
      353118239742316511241 / 180143985094819840000 := by
  have h1 : fminf (99 / 100) 0 = 0 := fminf_zero_right _ (by norm_num)
  have h2 : fminf 0 (99 / 100) = 0 := fminf_zero_left _ (by norm_num)
  have h3 : fminf (1 / 100) (1 / 100) = 5368709 / 536870912 := by
    rw [fminf_self, to_float_one_hundredth]
  simp only [cc_compromise_sum, cc_compromise, cc_consensus, uncertainty, Fin.sum_univ_three,
    Matrix.cons_val_zero, Matrix.cons_val_one, Matrix.cons_val_two, Matrix.head_cons,
    Matrix.tail_cons, h1, h2, h3, fin_three_ne.1, fin_three_ne.2.1, fin_three_ne.2.2.1,
    fin_three_ne.2.2.2.1, fin_three_ne.2.2.2.2.1, fin_three_ne.2.2.2.2.2, if_false]
  norm_num

/-- C29. The consensus of `cc_fuse_` is taken with `fminf`, which converts its arguments to
`float`, also when `FloatT` is `double`.  On the compromise sum that the code computes the
two branches are as documented: not within `EPS` of zero, the belief masses of the result sum
to `1 - u_x u_y`; within `EPS` of zero, the result is vacuous.  But for `x = y = (0.1, 0)`,
whose compromise is zero when the consensus is the exact minimum, the compromise sum computed
is about `-2.7e-9` and the result is `(0.19, 0)` instead of the vacuous opinion, whereas
`x = y = (0.5, 0)` is fused to the vacuous opinion.  The opinions `(0.99, 0.01, 0)` and
`(0, 0.01, 0.99)` are fused to `(0.495, 0.01, 0.495)` up to `1e-9`. -/
theorem C29_cc_fuse_consensus_in_single_precision {N : ℕ} (x y : OpinionNoBase N) :
    (EPS ≤ |cc_compromise_sum x y| →
      ∑ idx, (x.cc_fuse y).belief_masses idx = 1 - x.uncertainty * y.uncertainty ∧
      (x.cc_fuse y).uncertainty = x.uncertainty * y.uncertainty) ∧
    (|cc_compromise_sum x y| < EPS → x.cc_fuse y = vacuous) ∧
    exact_cc_compromise_sum (binomial (1/10) 0) (binomial (1/10) 0) = 0 ∧
    cc_compromise_sum (binomial (1/10) 0) (binomial (1/10) 0) =
      -1207959551 / 450359962737049600 ∧
    (binomial (1/10) 0).cc_fuse (binomial (1/10) 0) = binomial (19/100) 0 ∧
    (binomial (1/10) 0).cc_fuse (binomial (1/10) 0) ≠ vacuous ∧
    (binomial (1/2) 0).cc_fuse (binomial (1/2) 0) = vacuous ∧
    (∀ idx, |((⟨![99/100, 1/100, 0]⟩ : OpinionNoBase 3).cc_fuse
        ⟨![0, 1/100, 99/100]⟩).belief_masses idx -
      (![495/1000, 1/100, 495/1000] : BeliefType 3) idx| < 1 / 1000000000) := by
  have hsum : EPS ≤ |cc_compromise_sum x y| →
      ∑ idx, (x.cc_fuse y).belief_masses idx = 1 - x.uncertainty * y.uncertainty := by
    intro h
    have hne : cc_compromise_sum x y ≠ 0 := by
      intro h0
      rw [h0, abs_zero] at h
      exact absurd h (not_le.mpr EPS_pos)
    rw [cc_fuse, cc_fuse__eq, if_neg (not_lt.mpr h)]
    simp only [Finset.sum_add_distrib, ← Finset.mul_sum]
    have hc : ∑ i, cc_compromise x y i = cc_compromise_sum x y := rfl
    rw [hc]
    field_simp
    ring
  have hcs : cc_compromise_sum (binomial (1/10) 0) (binomial (1/10) 0) =
      -1207959551 / 450359962737049600 := by
    rw [cc_compromise_sum_same_binomial, to_float_one_tenth]
    norm_num
  have hres : (binomial (1/10) 0).cc_fuse (binomial (1/10) 0) = binomial (19/100) 0 := by
    rw [cc_fuse, cc_fuse__eq, hcs, if_neg (by norm_num [EPS, abs_lt])]
    ext idx
    fin_cases idx
    · simp only [cc_compromise, cc_consensus, uncertainty_binomial, Fin.sum_univ_two]
      simp only [binomial, Matrix.cons_val_zero, Matrix.cons_val_one, Matrix.head_cons,
        fminf_self, to_float_zero, to_float_one_tenth, Fin.zero_eta]
      norm_num
    · simp only [cc_compromise, cc_consensus, uncertainty_binomial, Fin.sum_univ_two]
      simp only [binomial, Matrix.cons_val_zero, Matrix.cons_val_one, Matrix.head_cons,
        fminf_self, to_float_zero, to_float_one_tenth, Fin.mk_one]
      norm_num
  refine ⟨fun h => ⟨hsum h, ?_⟩, fun h => ?_, ?_, hcs, hres, ?_, ?_, ?_⟩
  · simp only [uncertainty, hsum h]
    ring
  · rw [cc_fuse, cc_fuse__eq, if_pos h]
    rfl
  · simp [exact_cc_compromise_sum, binomial, Fin.sum_univ_two]
  · rw [hres]
    intro h
    have h0 := congrFun (congrArg OpinionNoBase.belief_masses h) 0
    norm_num [binomial, vacuous] at h0
  · have hz : cc_compromise_sum (binomial (1/2) 0) (binomial (1/2) 0) = 0 := by
      rw [cc_compromise_sum_same_binomial, to_float_one_half]
      norm_num
    rw [cc_fuse, cc_fuse__eq, hz, if_pos (by norm_num [EPS])]
    rfl
  · have h1 : fminf (99 / 100) 0 = 0 := fminf_zero_right _ (by norm_num)
    have h2 : fminf 0 (99 / 100) = 0 := fminf_zero_left _ (by norm_num)
    have h3 : fminf (1 / 100) (1 / 100) = 5368709 / 536870912 := by
      rw [fminf_self, to_float_one_hundredth]
    intro idx
    rw [cc_fuse, cc_fuse__eq, cc_example_compromise_sum, if_neg (by norm_num [EPS, abs_lt])]
    fin_cases idx
    all_goals
      simp only [cc_compromise, cc_consensus, uncertainty, Fin.sum_univ_three,
        Matrix.cons_val_zero, Matrix.cons_val_one, Matrix.cons_val_two, Matrix.head_cons,
        Matrix.tail_cons, h1, h2, h3, Fin.zero_eta, Fin.mk_one, Fin.reduceFinMk,
        fin_three_ne.1, fin_three_ne.2.1, fin_three_ne.2.2.1, fin_three_ne.2.2.2.1,
        fin_three_ne.2.2.2.2.1, fin_three_ne.2.2.2.2.2, if_false]
      norm_num [abs_lt]

end subjective_logic

namespace subjective_logic

/-! ## Conversions between opinions and Dirichlet distributions -/

open OpinionNoBase

theorem toOpinionNoBase_uncertainty {N : ℕ} (d : DirichletDistribution N)
    (hne : (∑ i, d.evidence i) + (N : ℚ) ≠ 0) :
    d.toOpinionNoBase.uncertainty = (N : ℚ) / ((∑ i, d.evidence i) + (N : ℚ)) := by
  simp only [DirichletDistribution.toOpinionNoBase, uncertainty]
  rw [← Finset.sum_div]
  field_simp

end subjective_logic

namespace subjective_logic

open OpinionNoBase

theorem toOpinion_uncertainty_ne_zero {N : ℕ} (d : DirichletDistribution N) (idx : Fin N)
    (hne : (∑ i, d.evidence i) + (N : ℚ) ≠ 0) : d.toOpinion.uncertainty ≠ 0 := by
  have hN : (N : ℚ) ≠ 0 := by exact_mod_cast idx.pos.ne'
  have h := toOpinionNoBase_uncertainty d hne
  have h2 : d.toOpinion.uncertainty = d.toOpinionNoBase.uncertainty := rfl
  rw [h2, h]
  exact div_ne_zero hN hne

/-- C23, counterexample. The dogmatic binomial opinion with belief masses `(1, 0)` and prior
`(1/2, 1/2)` is valid and has uncertainty `0`, the divisor of
`N * belief_masses / uncertainty`.  The conversion to a `DirichletDistribution` and back does
not reproduce its belief mass `1` (with the quotient by zero taken as `0` the result is `0`; in
IEEE arithmetic the evidence is `(inf, NaN)`).  No value of the evidence can repair this: every
distribution whose `evidence_.sum() + N` is not zero is converted to an opinion of non-zero
uncertainty. -/
theorem C23_counterexample :
    (∀ idx, 0 ≤ (⟨binomial 1 0, ![1/2, 1/2]⟩ : Opinion 2).belief_masses idx) ∧
    (∑ idx, (⟨binomial 1 0, ![1/2, 1/2]⟩ : Opinion 2).belief_masses idx) ≤ 1 ∧
    (∑ idx, (⟨binomial 1 0, ![1/2, 1/2]⟩ : Opinion 2).prior idx) = 1 ∧
    (⟨binomial 1 0, ![1/2, 1/2]⟩ : Opinion 2).uncertainty = 0 ∧
    (⟨binomial 1 0, ![1/2, 1/2]⟩ : Opinion 2).belief_masses 0 = 1 ∧
    (⟨binomial 1 0, ![1/2, 1/2]⟩ : Opinion 2).toDirichletDistribution.toOpinion.belief_masses 0 =
      0 ∧
    (∀ d : DirichletDistribution 2, (∑ i, d.evidence i) + ((2 : ℕ) : ℚ) ≠ 0 →
      d.toOpinion.uncertainty ≠ (⟨binomial 1 0, ![1/2, 1/2]⟩ : Opinion 2).uncertainty) := by
  have hu : (⟨binomial 1 0, ![1/2, 1/2]⟩ : Opinion 2).uncertainty = 0 := by
    simp [Opinion.uncertainty, uncertainty_binomial]
  refine ⟨?_, ?_, ?_, hu, ?_, ?_, ?_⟩
  · intro idx
    fin_cases idx <;> simp [Opinion.belief_masses, binomial]
  · simp [Opinion.belief_masses, binomial, Fin.sum_univ_two]
  · simp [Fin.sum_univ_two]
    norm_num
  · simp [Opinion.belief_masses, binomial]
  · simp only [DirichletDistribution.toOpinion, Opinion.toDirichletDistribution,
      Opinion.belief_masses, hu]
    simp
  · intro d hd
    rw [hu]
    exact toOpinion_uncertainty_ne_zero d 0 hd

/-- C23. For every `Opinion` `o` whose uncertainty is not zero (every valid opinion that is
not dogmatic), the conversion to a `DirichletDistribution` and back to an `Opinion`
reproduces the belief masses and the prior of `o`. -/
theorem C23_opinion_round_trip {N : ℕ} (o : Opinion N) (hu : o.uncertainty ≠ 0) :
    o.toDirichletDistribution.toOpinion = o ∧
    o.toDirichletDistribution.toOpinion.belief_masses = o.belief_masses ∧
    o.toDirichletDistribution.toOpinion.prior = o.prior := by
  have h : o.toDirichletDistribution.toOpinion = o := by
    apply Opinion.ext
    · apply OpinionNoBase.ext
      funext idx
      have hN : (N : ℚ) ≠ 0 := by exact_mod_cast idx.pos.ne'
      have hs : ∑ i, o.opinion_no_base.belief_masses i = 1 - o.uncertainty := by
        simp [Opinion.uncertainty, uncertainty]
      simp only [DirichletDistribution.toOpinion, Opinion.toDirichletDistribution,
        Opinion.belief_masses]
      rw [← Finset.sum_div, ← Finset.mul_sum, hs]
      have hd : (N : ℚ) * (1 - o.uncertainty) / o.uncertainty + (N : ℚ) =
          (N : ℚ) / o.uncertainty := by
        field_simp
        ring
      rw [hd]
      field_simp
    · rfl
  exact ⟨h, by rw [h], by rw [h]⟩

theorem C23_opinion_round_trip_witness :
    (⟨binomial (1/2) 0, ![1/2, 1/2]⟩ : Opinion 2).uncertainty ≠ 0 ∧
    (⟨binomial (1/2) 0, ![1/2, 1/2]⟩ : Opinion 2).toDirichletDistribution.toOpinion =
      ⟨binomial (1/2) 0, ![1/2, 1/2]⟩ :=
  ⟨by norm_num [Opinion.uncertainty, uncertainty_binomial],
    (C23_opinion_round_trip ⟨binomial (1/2) 0, ![1/2, 1/2]⟩
      (by norm_num [Opinion.uncertainty, uncertainty_binomial])).1⟩

end subjective_logic

namespace subjective_logic

/-! ## The prior of the averaging fusion -/

open OpinionNoBase

/-- C25, counterexample. For `x = (1/2, 0)` with prior `(9/10, 1/10)` and the vacuous `y` with
prior `(1/10, 9/10)` the value `2 - u_x - u_y` is `1/2`; the prior belief of
`x.average_fuse(y)` is `1/2`, the plain mean, while the certainty-weighted mean is `9/10`. -/
theorem C25_counterexample :
    2 - (⟨binomial (1/2) 0, ![9/10, 1/10]⟩ : Opinion 2).uncertainty -
      (⟨binomial 0 0, ![1/10, 9/10]⟩ : Opinion 2).uncertainty = 1 / 2 ∧
    ((⟨binomial (1/2) 0, ![9/10, 1/10]⟩ : Opinion 2).average_fuse
      ⟨binomial 0 0, ![1/10, 9/10]⟩).prior 0 = 1 / 2 ∧
    ((⟨binomial (1/2) 0, ![9/10, 1/10]⟩ : Opinion 2).prior 0 *
        (1 - (⟨binomial (1/2) 0, ![9/10, 1/10]⟩ : Opinion 2).uncertainty) +
      (⟨binomial 0 0, ![1/10, 9/10]⟩ : Opinion 2).prior 0 *
        (1 - (⟨binomial 0 0, ![1/10, 9/10]⟩ : Opinion 2).uncertainty)) /
      (2 - (⟨binomial (1/2) 0, ![9/10, 1/10]⟩ : Opinion 2).uncertainty -
        (⟨binomial 0 0, ![1/10, 9/10]⟩ : Opinion 2).uncertainty) = 9 / 10 := by
  refine ⟨?_, ?_, ?_⟩
  · norm_num [Opinion.uncertainty, uncertainty_binomial]
  · norm_num [Opinion.average_fuse, Opinion.average_fuse_]
  · norm_num [Opinion.uncertainty, uncertainty_binomial]

/-- C25. Every component of the prior of `x.average_fuse(y)` is the plain mean
`(a_x + a_y) / 2` of the two priors, in every dimension.  When the two priors are equal, as in
the test `AverageFusion`, and `2 - u_x - u_y` is not zero, this is also the
certainty-weighted mean `(a_x (1 - u_x) + a_y (1 - u_y)) / (2 - u_x - u_y)`. -/
theorem C25_average_fuse_prior {N : ℕ} (x y : Opinion N) (idx : Fin N) :
    (x.average_fuse y).prior idx = (x.prior idx + y.prior idx) / 2 ∧
    (x.prior = y.prior → 2 - x.uncertainty - y.uncertainty ≠ 0 →
      (x.average_fuse y).prior idx =
        (x.prior idx * (1 - x.uncertainty) + y.prior idx * (1 - y.uncertainty)) /
          (2 - x.uncertainty - y.uncertainty)) := by
  refine ⟨rfl, fun hp hne => ?_⟩
  simp only [Opinion.average_fuse, Opinion.average_fuse_, hp]
  field_simp
  ring

/-! ## Deduction -/

theorem deduction_binomial__eq (x : OpinionNoBase 2) (base_x : ℚ)
    (cond_1 cond_2 : OpinionNoBase 2) :
    x.deduction_binomial_ base_x cond_1 cond_2 =
      (let a_y := induced_base_rate base_x cond_1 cond_2
      let P_apex_bel := base_x * cond_1.getBinomialProjection a_y +
        (1 - base_x) * cond_2.getBinomialProjection a_y
      let uncert_apex :=
        min ((P_apex_bel - min cond_1.belief cond_2.belief) / a_y)
          (((1 - P_apex_bel) - min cond_1.disbelief cond_2.disbelief) / (1 - a_y))
      let uncert_y_x := uncert_apex -
        ((uncert_apex - cond_1.uncertainty) * x.belief +
          (uncert_apex - cond_2.uncertainty) * x.disbelief)
      let P_y_x :=
        cond_1.getBinomialProjection a_y * x.getBinomialProjection base_x +
          cond_2.getBinomialProjection a_y * (1 - x.getBinomialProjection base_x)
      ⟨![P_y_x - a_y * uncert_y_x, 1 - (P_y_x - a_y * uncert_y_x) - uncert_y_x]⟩) := rfl

/-- C26, failing input. `x = (0.2, 0.3)` with prior `(1/2, 1/2)` and both conditionals
`(0, EPS / 2)`: the denominator `1 - (a_x u_c1 + (1 - a_x) u_c2)` is `EPS / 2`, within `EPS`
of zero and not zero.  The belief-mass computation `OpinionNoBase::deduction_` falls back to
the induced base rate `a_x = 1/2`, but `Opinion::deduction` returns the prior `(0, 1)`, the
unguarded quotient `a_y_nom / a_y_denom`, not the input base rate `(1/2, 1/2)`. -/
theorem C26_deduction_prior_without_fallback :
    1 - ((1 / 2 : ℚ) * (binomial 0 (EPS / 2)).uncertainty +
      (1 - 1 / 2) * (binomial 0 (EPS / 2)).uncertainty) = EPS / 2 ∧
    |EPS / 2| < EPS ∧ EPS / 2 ≠ 0 ∧
    (⟨binomial (1/5) (3/10), ![1/2, 1/2]⟩ : Opinion 2).prior = ![1/2, 1 - 1/2] ∧
    induced_base_rate (1 / 2) (binomial 0 (EPS / 2)) (binomial 0 (EPS / 2)) = 1 / 2 ∧
    ((⟨binomial (1/5) (3/10), ![1/2, 1/2]⟩ : Opinion 2).deduction
      ⟨binomial 0 (EPS / 2), ![1/2, 1/2]⟩ ⟨binomial 0 (EPS / 2), ![1/2, 1/2]⟩).prior =
      ![0, 1] := by
  have hd : 1 - ((1 / 2 : ℚ) * (binomial 0 (EPS / 2)).uncertainty +
      (1 - 1 / 2) * (binomial 0 (EPS / 2)).uncertainty) = EPS / 2 := by
    rw [uncertainty_binomial]
    ring
  refine ⟨hd, ?_, ?_, ?_, ?_, ?_⟩
  · norm_num [EPS, abs_lt]
  · norm_num [EPS]
  · norm_num
  · rw [induced_base_rate, hd, if_neg]
    norm_num [EPS, abs_le]
  · simp only [Opinion.deduction, Opinion.deduction_, Opinion.belief, Opinion.uncertainty,
      uncertainty_binomial]
    simp [belief, front, binomial]

end subjective_logic

namespace subjective_logic

open OpinionNoBase

theorem util_min_two (f : Fin 2 → ℚ) : util_min f = min (f 0) (f 1) := by
  have h : (List.finRange 2).tail = [1] := rfl
  simp only [util_min, h, List.foldl_cons, List.foldl_nil]
  by_cases hlt : f 1 < f 0
  · rw [if_pos hlt, min_eq_right hlt.le]
  · rw [if_neg hlt, min_eq_left (not_lt.mp hlt)]

theorem belief_eq_two (o : OpinionNoBase 2) : o.belief = o.belief_masses 0 := by
  simp [belief, front]

theorem disbelief_eq_two (o : OpinionNoBase 2) : o.disbelief = o.belief_masses 1 := by
  simp [disbelief]

/-- In exact arithmetic the two deduction forms differ where the denominator
`1 - (a u_c1 + (1 - a) u_c2)` is `EPS` itself, a value that is not a dyadic rational: for
`x = (1/2, 1/4)`, base rate `1/2` and the conditionals `(EPS/2, EPS/2)` and `(EPS/4, 3 EPS/4)`
the binomial form tests `|denominator| > EPS` and falls back to the base rate `1/2`, the N-ary
form tests `denominator < EPS` and takes the quotient `3/8`. -/
theorem deduction_forms_differ_at_EPS :
    1 - ((1 / 2 : ℚ) * (binomial (EPS / 2) (EPS / 2)).uncertainty +
      (1 - 1 / 2) * (binomial (EPS / 4) (3 * EPS / 4)).uncertainty) = EPS ∧
    ((1 / 2 : ℚ) * (binomial (EPS / 2) (EPS / 2)).belief +
      (1 - 1 / 2) * (binomial (EPS / 4) (3 * EPS / 4)).belief) / EPS = 3 / 8 ∧
    ((binomial (1/2) (1/4)).deduction_binomial_ (1 / 2) (binomial (EPS / 2) (EPS / 2))
      (binomial (EPS / 4) (3 * EPS / 4))).belief_masses 0 = 3 / 80000000000 ∧
    ((binomial (1/2) (1/4)).deduction_ ![1 / 2, 1 - 1 / 2]
      ![binomial (EPS / 2) (EPS / 2), binomial (EPS / 4) (3 * EPS / 4)]).belief_masses 0 =
      31 / 800000000000 := by
  have hd : 1 - ((1 / 2 : ℚ) * (binomial (EPS / 2) (EPS / 2)).uncertainty +
      (1 - 1 / 2) * (binomial (EPS / 4) (3 * EPS / 4)).uncertainty) = EPS := by
    rw [uncertainty_binomial, uncertainty_binomial]
    ring
  have hnz : ¬ ∃ _y_idx : Fin 2, 1 - ((1 / 2 : ℚ) * (binomial (EPS / 2) (EPS / 2)).uncertainty +
      (1 - 1 / 2) * (binomial (EPS / 4) (3 * EPS / 4)).uncertainty) < EPS := by
    rintro ⟨_, h⟩
    rw [hd] at h
    exact lt_irrefl _ h
  refine ⟨hd, ?_, ?_, ?_⟩
  · simp only [belief_eq_two, binomial, Matrix.cons_val_zero]
    norm_num [EPS]
  · rw [deduction_binomial__eq, induced_base_rate, hd, if_neg (by norm_num [EPS, abs_le])]
    simp only [getBinomialProjection, belief_eq_two, disbelief_eq_two, uncertainty_binomial]
    simp only [binomial, Matrix.cons_val_zero, Matrix.cons_val_one, Matrix.head_cons]
    norm_num [EPS, min_def]
  · simp only [deduction_, util_min_two, Fin.sum_univ_two, Matrix.cons_val_zero,
      Matrix.cons_val_one, Matrix.head_cons, getProjection]
    simp only [decide_eq_true_eq, hnz, if_false, uncertainty_binomial]
    simp only [binomial, Matrix.cons_val_zero, Matrix.cons_val_one, Matrix.head_cons]
    norm_num [EPS, min_def]

end subjective_logic

namespace subjective_logic

/-! ## Deduction with zero denominators -/

open OpinionNoBase

namespace FloatX

theorem fin_add (a b : ℚ) : fin a + fin b = fin (a + b) := rfl

theorem fin_sub (a b : ℚ) : fin a - fin b = fin (a - b) := by
  show add (fin a) (neg (fin b)) = fin (a - b)
  simp [add, neg, sub_eq_add_neg]

theorem fin_mul (a b : ℚ) : fin a * fin b = fin (a * b) := rfl

theorem fin_div (a b : ℚ) (h : b ≠ 0) : fin a / fin b = fin (a / b) := by
  show div (fin a) (fin b) = fin (a / b)
  simp [div, h]

theorem zero_div_zero : fin 0 / fin 0 = nan := by
  show div (fin 0) (fin 0) = nan
  simp [div]

theorem pos_div_zero (a : ℚ) (h : 0 < a) : fin a / fin 0 = inf false := by
  show div (fin a) (fin 0) = inf false
  simp [div, h.ne', not_lt.mpr h.le]

theorem abs_fin (a : ℚ) : abs (fin a) = fin |a| := rfl

theorem lt_fin (a b : ℚ) : lt (fin a) (fin b) = decide (a < b) := rfl

theorem std_min_fin (a b : ℚ) : std_min (fin a) (fin b) = fin (min a b) := by
  simp only [std_min, lt_fin, decide_eq_true_eq]
  by_cases h : b < a
  · rw [if_pos h, min_eq_right h.le]
  · rw [if_neg h, min_eq_left (not_lt.mp h)]

theorem std_min_fin_nan (a : ℚ) : std_min (fin a) nan = fin a := rfl

theorem std_min_fin_inf (a : ℚ) : std_min (fin a) (inf false) = fin a := rfl

theorem std_min_fin_div_zero (q r : ℚ) (hr : 0 ≤ r) :
    std_min (fin q) (fin r / fin 0) = fin q := by
  rcases lt_or_eq_of_le hr with h | h
  · rw [pos_div_zero r h]
    rfl
  · rw [← h, zero_div_zero]
    rfl

theorem getBinomialProjection_fin (o : OpinionNoBase 2) (r : ℚ) :
    getBinomialProjection o (fin r) = fin (o.getBinomialProjection r) := rfl

/-- Where no divisor is zero, the evaluation over `FloatX` returns the finite values of the
evaluation over the rationals. -/
theorem deduction_binomial__eq_fin (x : OpinionNoBase 2) (base_x : ℚ)
    (cond_1 cond_2 : OpinionNoBase 2)
    (h0 : induced_base_rate base_x cond_1 cond_2 ≠ 0)
    (h1 : 1 - induced_base_rate base_x cond_1 cond_2 ≠ 0) :
    FloatX.deduction_binomial_ x base_x cond_1 cond_2 =
      (fin (x.deduction_binomial_ base_x cond_1 cond_2).belief,
        fin (x.deduction_binomial_ base_x cond_1 cond_2).disbelief) := by
  have hay : (if lt (fin EPS) (abs (fin 1 -
      (fin base_x * fin cond_1.uncertainty + (fin 1 - fin base_x) * fin cond_2.uncertainty))) then
        (fin base_x * fin cond_1.belief + (fin 1 - fin base_x) * fin cond_2.belief) /
          (fin 1 - (fin base_x * fin cond_1.uncertainty +
            (fin 1 - fin base_x) * fin cond_2.uncertainty))
      else fin base_x) = fin (induced_base_rate base_x cond_1 cond_2) := by
    simp only [fin_mul, fin_sub, fin_add, abs_fin, lt_fin, decide_eq_true_eq,
      induced_base_rate]
    by_cases hg : EPS < |1 - (base_x * cond_1.uncertainty + (1 - base_x) * cond_2.uncertainty)|
    · have hne : 1 - (base_x * cond_1.uncertainty + (1 - base_x) * cond_2.uncertainty) ≠ 0 := by
        intro h
        rw [h, abs_zero] at hg
        exact absurd hg (not_lt.mpr EPS_pos.le)
      rw [if_pos hg, if_pos hg, fin_div _ _ hne]
    · rw [if_neg hg, if_neg hg]
  rw [subjective_logic.deduction_binomial__eq]
  simp only [FloatX.deduction_binomial_, hay]
  simp only [getBinomialProjection_fin, fin_mul, fin_sub, fin_add, std_min_fin,
    fin_div _ _ h0, fin_div _ _ h1, belief_eq_two, disbelief_eq_two, Matrix.cons_val_zero,
    Matrix.cons_val_one, Matrix.head_cons]

end FloatX

theorem deduction_binomial__dogmatic_vacuous (y c : OpinionNoBase 2) :
    ∃ U B : ℚ,
      FloatX.deduction_binomial_ y 1 (binomial 0 0) c =
        (FloatX.fin B, FloatX.fin (1 - B - U)) ∧
      U = (1 - min 0 c.belief) -
        (((1 - min 0 c.belief) - 1) * y.belief +
          ((1 - min 0 c.belief) - c.uncertainty) * y.disbelief) ∧
      B = (y.belief + y.uncertainty) +
        (c.belief + c.uncertainty) * (1 - (y.belief + y.uncertainty)) - U := by
  have hu : (binomial 0 0).uncertainty = 1 := by
    rw [uncertainty_binomial]
    norm_num
  have hb : (binomial 0 0).belief = 0 := by simp [belief_eq_two, binomial]
  have hdis : (binomial 0 0).disbelief = 0 := by simp [disbelief_eq_two, binomial]
  have hr : 0 ≤ 0 - min 0 c.disbelief := by
    have := min_le_left 0 c.disbelief
    linarith
  refine ⟨_, _, ?_, rfl, rfl⟩
  simp only [FloatX.deduction_binomial_, hu, hb, hdis]
  simp only [FloatX.fin_mul, FloatX.fin_sub, FloatX.fin_add, FloatX.abs_fin, FloatX.lt_fin,
    one_mul, sub_self, zero_mul, add_zero, abs_zero, mul_zero, zero_add]
  rw [if_neg (by simp [not_lt.mpr EPS_pos.le])]
  simp only [FloatX.getBinomialProjection, hu, hb, FloatX.fin_mul, FloatX.fin_sub,
    FloatX.fin_add, one_mul, zero_add, mul_one, FloatX.std_min_fin,
    FloatX.fin_div _ _ one_ne_zero, div_one, sub_self, zero_mul, add_zero,
    FloatX.std_min_fin_div_zero _ _ hr]

/-- C28. Binomial deduction with the dogmatic base rate `base_x = 1` and a vacuous first
conditional, evaluated with the special values of IEEE 754: for every opinion `x` and every
second conditional the belief and the disbelief of the result are finite numbers.  The
denominator `1 - (base_x u_c1 + (1 - base_x) u_c2)` is `0`, so the base rate `1` is taken for
`a_y`; the divisor `1 - a_y` is `0` and the second quotient of `uncert_apex` is NaN or an
infinity, which `std::min` discards as its second argument.  For `x = (0.2, 0.3)` and
`cond_2 = (0.5, 0.5)` the second quotient is `0 / 0` and the result is `(0.15, 0.15)`. -/
theorem C28_deduction_zero_denominators (x cond_2 : OpinionNoBase 2) :
    1 - ((1 : ℚ) * (binomial 0 0).uncertainty + (1 - 1) * cond_2.uncertainty) = 0 ∧
    induced_base_rate 1 (binomial 0 0) cond_2 = 1 ∧
    (∃ b d : ℚ,
      FloatX.deduction_binomial_ x 1 (binomial 0 0) cond_2 = (FloatX.fin b, FloatX.fin d)) ∧
    FloatX.fin 0 / FloatX.fin (1 - 1) = FloatX.nan ∧
    FloatX.deduction_binomial_ (binomial (2/10) (3/10)) 1 (binomial 0 0)
      (binomial (1/2) (1/2)) = (FloatX.fin (15/100), FloatX.fin (15/100)) := by
  have hu : (binomial 0 0).uncertainty = 1 := by
    rw [uncertainty_binomial]
    norm_num
  have hd : 1 - ((1 : ℚ) * (binomial 0 0).uncertainty + (1 - 1) * cond_2.uncertainty) = 0 := by
    rw [hu]
    ring
  refine ⟨hd, ?_, ?_, ?_, ?_⟩
  · rw [induced_base_rate, hd, if_neg]
    simp [EPS_pos.le]
  · obtain ⟨U, B, h, -, -⟩ := deduction_binomial__dogmatic_vacuous x cond_2
    exact ⟨B, 1 - B - U, h⟩
  · rw [sub_self]
    exact FloatX.zero_div_zero
  · obtain ⟨U, B, h, hU, hB⟩ := deduction_binomial__dogmatic_vacuous (binomial (2/10) (3/10))
      (binomial (1/2) (1/2))
    have hU2 : U = 7 / 10 := by
      rw [hU, uncertainty_binomial]
      simp only [belief_eq_two, disbelief_eq_two, binomial, Matrix.cons_val_zero,
        Matrix.cons_val_one, Matrix.head_cons]
      norm_num
    have hB2 : B = 15 / 100 := by
      rw [hB, hU2, uncertainty_binomial, uncertainty_binomial]
      simp only [belief_eq_two, binomial, Matrix.cons_val_zero]
      norm_num
    rw [h, hU2, hB2]
    norm_num

end subjective_logic

namespace subjective_logic

/-! ## Trust revision by conflict shares -/

theorem mapM_ok_length {α β : Type} (f : α → Except String β) :
    ∀ (l : List α) (r : List β), l.mapM f = Except.ok r → r.length = l.length := by
  intro l
  induction l with
  | nil =>
    intro r h
    have h2 : (Except.ok [] : Except String (List β)) = Except.ok r := h
    cases h2
    rfl
  | cons a t ih =>
    intro r h
    rw [List.mapM_cons] at h
    cases hfa : f a with
    | error e =>
      rw [hfa] at h
      cases h
    | ok b =>
      rw [hfa] at h
      cases ht : t.mapM f with
      | error e =>
        rw [ht] at h
        cases h
      | ok bs =>
        rw [ht] at h
        have h2 : (Except.ok (b :: bs) : Except String (List β)) = Except.ok r := h
        cases h2
        simp [ih bs ht]

namespace multisource

theorem shares_length_aux (n : ℕ) (first : Except String ℚ)
    (g : ℚ → ℕ → Except String ℚ) (r : ℚ × List ℚ)
    (h : (first >>= fun avg_conflict =>
        if avg_conflict < EPS then pure (0, List.replicate n 0)
        else (List.range n).mapM (g avg_conflict) >>= fun shares =>
          pure (avg_conflict, shares)) = Except.ok r) :
    r.2.length = n := by
  cases first with
  | error e => cases h
  | ok v =>
    simp only [bind, Except.bind, pure, Except.pure] at h
    by_cases hv : v < EPS
    · rw [if_pos hv] at h
      cases h
      simp
    · rw [if_neg hv] at h
      cases hm : (List.range n).mapM (g v) with
      | error e =>
        rw [hm] at h
        cases h
      | ok s =>
        rw [hm] at h
        cases h
        exact (mapM_ok_length _ _ _ hm).trans (List.length_range _)

theorem conflict_shares_length {N : ℕ} (rel : RelationType) (ct : ConflictType)
    (l : List (OpinionNoBase N)) (r : ℚ × List ℚ)
    (h : Conflict.conflict_shares rel ct l = Except.ok r) : r.2.length = l.length := by
  cases rel
  · exact shares_length_aux l.length (Conflict.conflict ct l none)
      (fun avg_conflict idx =>
        Conflict.conflict ct l (some ((List.replicate l.length true).set idx false)) >>=
          fun conflict_wo_self => pure (1 - conflict_wo_self / avg_conflict)) r h
  · exact shares_length_aux l.length (Conflict.harmony ct l none)
      (fun avg_conflict idx =>
        Conflict.harmony ct l (some ((List.replicate l.length true).set idx false)) >>=
          fun conflict_wo_self => pure (1 - conflict_wo_self / avg_conflict)) r h

theorem opinion_conflict_shares_length {N : ℕ} (rel : RelationType) (ct : ConflictType)
    (l : List (Opinion N)) (r : ℚ × List ℚ)
    (h : ConflictOpinion.conflict_shares rel ct l = Except.ok r) : r.2.length = l.length := by
  cases rel
  · exact shares_length_aux l.length (ConflictOpinion.conflict ct l none)
      (fun avg_conflict idx =>
        ConflictOpinion.conflict ct l (some ((List.replicate l.length true).set idx false)) >>=
          fun conflict_wo_self => pure (1 - conflict_wo_self / avg_conflict)) r h
  · exact shares_length_aux l.length (ConflictOpinion.harmony ct l none)
      (fun avg_conflict idx =>
        ConflictOpinion.harmony ct l (some ((List.replicate l.length true).set idx false)) >>=
          fun conflict_wo_self => pure (1 - conflict_wo_self / avg_conflict)) r h

namespace TrustRevision

variable {O : Type} [MultiSourceOps O]

theorem conflict_shares_trust_revision_eq (rel : RelationType) (ct : ConflictType)
    (L : List (TrustedOpinion O)) (positive_scores_only : Bool) (cavg c : ℚ)
    (shares : List ℚ)
    (hs : MultiSourceOps.conflict_shares rel ConflictType.AVERAGE
      (TrustedOpinion.extractOpinions L) = Except.ok (cavg, shares))
    (hlen : shares.length = L.length)
    (hc1 : ct = ConflictType.AVERAGE → c = cavg)
    (hc2 : ct ≠ ConflictType.AVERAGE →
      (match rel with
        | .CONFLICT =>
          MultiSourceOps.conflict ct (TrustedOpinion.extractDiscountedOpinions L) none
        | .HARMONY =>
          MultiSourceOps.harmony ct (TrustedOpinion.extractDiscountedOpinions L) none) =
        Except.ok c) :
    conflict_shares_trust_revision rel ct L positive_scores_only =
      Except.ok (shares.map (shares_factor rel (!positive_scores_only) c)) := by
  have hmap : ∀ (G : ℕ → ℚ) (F : ℚ → ℚ), (∀ idx, G idx = F (shares.getD idx 0)) →
      (List.range L.length).map G = shares.map F := by
    intro G F hGF
    rw [← hlen, ← range_map_getD_comp shares F]
    exact List.map_congr_left fun idx _ => hGF idx
  unfold conflict_shares_trust_revision
  simp only [hs, bind, Except.bind, pure, Except.pure]
  by_cases hct : ct = ConflictType.AVERAGE
  · have hcc := hc1 hct
    subst hct
    subst hcc
    simp only [ne_eq, not_true_eq_false, if_false]
    cases rel <;> cases positive_scores_only <;>
      simp only [Bool.false_and, Bool.true_and, Bool.not_false, Bool.not_true,
        decide_eq_true_eq, Bool.false_eq_true, if_false] <;>
      rw [hmap _ (shares_factor _ _ c)] <;> intro idx <;> simp [shares_factor]
  · have hcc := hc2 hct
    cases rel <;> cases positive_scores_only <;> dsimp only at hcc <;>
      simp only [ne_eq, hct, not_false_eq_true, if_true, hcc, Bool.false_and, Bool.true_and,
        Bool.not_false, Bool.not_true, decide_eq_true_eq, Bool.false_eq_true, if_false] <;>
      rw [hmap _ (shares_factor _ _ c)] <;> intro idx <;> simp [shares_factor]

end TrustRevision

open OpinionNoBase

/-- C21. For the shares strategies of `revision_factors` (relation CONFLICT or HARMONY,
without or with ALLOW_NEGATIVE), let `shares` be the shares that
`Conflict::conflict_shares` computes with conflict type AVERAGE from the opinions of the
sources, one per source, and `c` the aggregate of the requested conflict type: the value
returned with the shares when AVERAGE is requested, and otherwise `Conflict::conflict`
(`Conflict::harmony` for HARMONY) of the trust-discounted opinions.  Then the factor of
every source with a negative share is `0` unless ALLOW_NEGATIVE is set, and the factor of
every other source is `c * share`, negated for HARMONY.  For both opinion types the shares
have one entry per source. -/
theorem C21_shares_revision_factors {O : Type} [MultiSourceOps O] (rel : RelationType)
    (allow_negative : Bool) (ct : ConflictType) (L : List (TrustedOpinion O)) (cavg c : ℚ)
    (shares : List ℚ)
    (hs : MultiSourceOps.conflict_shares rel ConflictType.AVERAGE
      (TrustedOpinion.extractOpinions L) = Except.ok (cavg, shares))
    (hlen : shares.length = L.length)
    (hc1 : ct = ConflictType.AVERAGE → c = cavg)
    (hc2 : ct ≠ ConflictType.AVERAGE →
      (match rel with
        | .CONFLICT =>
          MultiSourceOps.conflict ct (TrustedOpinion.extractDiscountedOpinions L) none
        | .HARMONY =>
          MultiSourceOps.harmony ct (TrustedOpinion.extractDiscountedOpinions L) none) =
        Except.ok c) :
    TrustRevision.revision_factors (shares_revision_type rel allow_negative) ct L none =
      Except.ok (shares.map (shares_factor rel allow_negative c)) ∧
    (∀ share : ℚ, share < 0 → shares_factor rel false c share = 0) ∧
    (∀ share : ℚ, 0 ≤ share → shares_factor .CONFLICT allow_negative c share = c * share ∧
      shares_factor .HARMONY allow_negative c share = -(c * share)) ∧
    (∀ share : ℚ, shares_factor .CONFLICT true c share = c * share ∧
      shares_factor .HARMONY true c share = -(c * share)) ∧
    (∀ (N : ℕ) (r : RelationType) (t : ConflictType) (l : List (OpinionNoBase N))
      (res : ℚ × List ℚ), Conflict.conflict_shares r t l = Except.ok res →
        res.2.length = l.length) ∧
    (∀ (N : ℕ) (r : RelationType) (t : ConflictType) (l : List (Opinion N))
      (res : ℚ × List ℚ), ConflictOpinion.conflict_shares r t l = Except.ok res →
        res.2.length = l.length) := by
  refine ⟨?_, ?_, ?_, ?_, fun N r t l res h => conflict_shares_length r t l res h,
    fun N r t l res h => opinion_conflict_shares_length r t l res h⟩
  · have h := TrustRevision.conflict_shares_trust_revision_eq rel ct L (!allow_negative) cavg c
      shares hs hlen hc1 hc2
    rw [Bool.not_not] at h
    rw [← h]
    cases rel <;> cases allow_negative <;> rfl
  · intro share hneg
    simp [shares_factor, hneg]
  · intro share hpos
    simp [shares_factor, not_lt.mpr hpos]
  · intro share
    simp [shares_factor]

theorem C21_shares_revision_factors_witness :
    MultiSourceOps.conflict_shares RelationType.CONFLICT ConflictType.AVERAGE
      (TrustedOpinion.extractOpinions contradicting_sources) =
        Except.ok (2 / 3, [-1 / 2, -1 / 2, 1]) ∧
    TrustRevision.revision_factors TrustRevisionType.CONFLICT_SHARES ConflictType.AVERAGE
      contradicting_sources none =
        Except.ok ([-1 / 2, -1 / 2, 1].map
          (shares_factor RelationType.CONFLICT false (2 / 3))) ∧
    [-1 / 2, -1 / 2, 1].map (shares_factor RelationType.CONFLICT false (2 / 3)) =
      [0, 0, 2 / 3] :=
  ⟨conflict_shares_average_example,
    (C21_shares_revision_factors RelationType.CONFLICT false ConflictType.AVERAGE
      contradicting_sources (2 / 3) (2 / 3) [-1 / 2, -1 / 2, 1]
      conflict_shares_average_example rfl (fun _ => rfl) (fun h => absurd rfl h)).1,
    by norm_num [shares_factor]⟩

end multisource

end subjective_logic

namespace subjective_logic

/-! ## Order independence of the belief constraint fusion -/

namespace OpinionNoBase

variable {N : ℕ}

theorem one_sub_conflict_ge (w a : OpinionNoBase N) (hw0 : ∀ i, 0 ≤ w.belief_masses i)
    (hw1 : 0 ≤ w.uncertainty) (ha0 : ∀ i, 0 ≤ a.belief_masses i) (ha1 : EPS ≤ a.uncertainty) :
    EPS ≤ 1 - w.conflict a := by
  rw [conflict_eq]
  have hsum : 0 ≤ ∑ idx, w.belief_masses idx * a.belief_masses idx :=
    Finset.sum_nonneg fun i _ => mul_nonneg (hw0 i) (ha0 i)
  have hW : 0 ≤ 1 - w.uncertainty := by
    rw [← sum_belief_eq]
    exact Finset.sum_nonneg fun i _ => hw0 i
  have hA : 0 ≤ 1 - a.uncertainty := by
    rw [← sum_belief_eq]
    exact Finset.sum_nonneg fun i _ => ha0 i
  have h1 : (1 - w.uncertainty) * (1 - a.uncertainty) ≤ 1 * (1 - a.uncertainty) :=
    mul_le_mul_of_nonneg_right (by linarith) hA
  linarith

theorem abs_one_sub_conflict_ge (w a : OpinionNoBase N) (hw0 : ∀ i, 0 ≤ w.belief_masses i)
    (hw1 : 0 ≤ w.uncertainty) (ha0 : ∀ i, 0 ≤ a.belief_masses i) (ha1 : EPS ≤ a.uncertainty) :
    EPS ≤ |1 - w.conflict a| :=
  le_trans (one_sub_conflict_ge w a hw0 hw1 ha0 ha1) (le_abs_self _)

theorem bc_fuse__valid (w a : OpinionNoBase N) (hw0 : ∀ i, 0 ≤ w.belief_masses i)
    (hw1 : 0 ≤ w.uncertainty) (ha0 : ∀ i, 0 ≤ a.belief_masses i) (ha1 : EPS ≤ a.uncertainty) :
    (∀ i, 0 ≤ (w.bc_fuse_ a).belief_masses i) ∧ 0 ≤ (w.bc_fuse_ a).uncertainty := by
  have hK := one_sub_conflict_ge w a hw0 hw1 ha0 ha1
  have hKpos : 0 < 1 - w.conflict a := lt_of_lt_of_le EPS_pos hK
  have habs := abs_one_sub_conflict_ge w a hw0 hw1 ha0 ha1
  have hua : 0 ≤ a.uncertainty := le_trans EPS_pos.le ha1
  refine ⟨fun i => ?_, ?_⟩
  · rw [bc_fuse__of_ge w a habs]
    apply div_nonneg _ hKpos.le
    simp only [harmony]
    have h1 := mul_nonneg (hw0 i) hua
    have h2 := mul_nonneg (ha0 i) hw1
    have h3 := mul_nonneg (hw0 i) (ha0 i)
    linarith
  · rw [uncertainty_bc_fuse_ w a habs]
    exact div_nonneg (mul_nonneg hw1 hua) hKpos.le

theorem bc_fuse__bc_fuse_ (w a b : OpinionNoBase N) (hw0 : ∀ i, 0 ≤ w.belief_masses i)
    (hw1 : 0 ≤ w.uncertainty) (ha0 : ∀ i, 0 ≤ a.belief_masses i) (ha1 : EPS ≤ a.uncertainty)
    (hb0 : ∀ i, 0 ≤ b.belief_masses i) (hb1 : EPS ≤ b.uncertainty) :
    (w.bc_fuse_ a).bc_fuse_ b =
      ⟨fun idx => bc_triple_harmony w a b idx /
        ((∑ i, bc_triple_harmony w a b i) + w.uncertainty * a.uncertainty * b.uncertainty)⟩ := by
  have hK := one_sub_conflict_ge w a hw0 hw1 ha0 ha1
  have hKne : 1 - w.conflict a ≠ 0 := (lt_of_lt_of_le EPS_pos hK).ne'
  have habs := abs_one_sub_conflict_ge w a hw0 hw1 ha0 ha1
  obtain ⟨hr0, hr1⟩ := bc_fuse__valid w a hw0 hw1 ha0 ha1
  have habs2 := abs_one_sub_conflict_ge (w.bc_fuse_ a) b hr0 hr1 hb0 hb1
  have hur := uncertainty_bc_fuse_ w a habs
  have hrm : ∀ i, (w.bc_fuse_ a).belief_masses i = w.harmony a i / (1 - w.conflict a) := by
    intro i
    rw [bc_fuse__of_ge w a habs]
  have hh : ∀ i, (w.bc_fuse_ a).harmony b i =
      bc_triple_harmony w a b i / (1 - w.conflict a) := by
    intro i
    simp only [harmony, bc_triple_harmony] at *
    rw [hrm i, hur]
    field_simp
    ring
  have hden : 1 - (w.bc_fuse_ a).conflict b =
      ((∑ i, bc_triple_harmony w a b i) + w.uncertainty * a.uncertainty * b.uncertainty) /
        (1 - w.conflict a) := by
    have h := sum_harmony_eq (w.bc_fuse_ a) b
    have h2 : 1 - (w.bc_fuse_ a).conflict b =
        (∑ idx, (w.bc_fuse_ a).harmony b idx) + (w.bc_fuse_ a).uncertainty * b.uncertainty := by
      rw [h]
      ring
    rw [h2, hur]
    simp only [hh]
    rw [← Finset.sum_div]
    field_simp
  rw [bc_fuse__of_ge _ b habs2]
  congr 1
  funext idx
  rw [hh idx, hden]
  field_simp

theorem bc_triple_harmony_comm (w a b : OpinionNoBase N) :
    bc_triple_harmony w a b = bc_triple_harmony w b a := by
  funext idx
  simp only [bc_triple_harmony]
  ring

theorem bc_fuse__right_comm (w a b : OpinionNoBase N) (hw0 : ∀ i, 0 ≤ w.belief_masses i)
    (hw1 : 0 ≤ w.uncertainty) (ha0 : ∀ i, 0 ≤ a.belief_masses i) (ha1 : EPS ≤ a.uncertainty)
    (hb0 : ∀ i, 0 ≤ b.belief_masses i) (hb1 : EPS ≤ b.uncertainty) :
    (w.bc_fuse_ a).bc_fuse_ b = (w.bc_fuse_ b).bc_fuse_ a := by
  rw [bc_fuse__bc_fuse_ w a b hw0 hw1 ha0 ha1 hb0 hb1,
    bc_fuse__bc_fuse_ w b a hw0 hw1 hb0 hb1 ha0 ha1, bc_triple_harmony_comm w a b,
    mul_right_comm w.uncertainty a.uncertainty b.uncertainty]

theorem foldl_bc_fuse__perm {l l' : List (OpinionNoBase N)} (h : l.Perm l') :
    (∀ o ∈ l, (∀ i, 0 ≤ o.belief_masses i) ∧ EPS ≤ o.uncertainty) →
    ∀ w : OpinionNoBase N, (∀ i, 0 ≤ w.belief_masses i) → 0 ≤ w.uncertainty →
      l.foldl (fun result opinion => result.bc_fuse_ opinion) w =
        l'.foldl (fun result opinion => result.bc_fuse_ opinion) w := by
  induction h with
  | nil => intro _ _ _ _; rfl
  | cons x _ ih =>
    intro hl w hw0 hw1
    obtain ⟨hx0, hx1⟩ := hl x (List.mem_cons_self _ _)
    obtain ⟨hr0, hr1⟩ := bc_fuse__valid w x hw0 hw1 hx0 hx1
    simp only [List.foldl_cons]
    exact ih (fun o ho => hl o (List.mem_cons_of_mem _ ho)) _ hr0 hr1
  | swap x y t =>
    intro hl w hw0 hw1
    obtain ⟨hx0, hx1⟩ := hl x (List.mem_cons_of_mem _ (List.mem_cons_self _ _))
    obtain ⟨hy0, hy1⟩ := hl y (List.mem_cons_self _ _)
    simp only [List.foldl_cons]
    rw [bc_fuse__right_comm w y x hw0 hw1 hy0 hy1 hx0 hx1]
  | trans h1 _ ih1 ih2 =>
    intro hl w hw0 hw1
    rw [ih1 hl w hw0 hw1]
    exact ih2 (fun o ho => hl o (h1.symm.subset ho)) w hw0 hw1

end OpinionNoBase

end subjective_logic

namespace subjective_logic

namespace multisource

open OpinionNoBase

variable {N : ℕ}

theorem Fusion.fuse_opinions__perm_of_regular {l l' : List (OpinionNoBase N)} (h : l.Perm l')
    (op : List (OpinionNoBase N) → List ℚ → ℚ → OpinionNoBase N)
    (hop : (dogmatic l).isEmpty = true →
      op l' (l'.map OpinionNoBase.uncertainty) (l'.map OpinionNoBase.uncertainty).prod =
        op l (l.map OpinionNoBase.uncertainty) (l.map OpinionNoBase.uncertainty).prod) :
    Fusion.fuse_opinions_ l' op = Fusion.fuse_opinions_ l op := by
  by_cases h1 : l.length = 1
  · obtain ⟨o, rfl⟩ := List.length_eq_one.mp h1
    have : l' = [o] := List.perm_singleton.mp h.symm
    rw [this]
  · have h1' : l'.length ≠ 1 := by rw [← h.length_eq]; exact h1
    have hE := perm_isEmpty (Fusion.dogmatic_perm h)
    cases hd : (dogmatic l).isEmpty
    · rw [Fusion.fuse_opinions__dogmatic l h1 hd, Fusion.fuse_opinions__dogmatic l' h1' (hE ▸ hd),
        Fusion.belief_mean_perm (Fusion.dogmatic_perm h)]
    · rw [Fusion.fuse_opinions__regular l h1 hd, Fusion.fuse_opinions__regular l' h1' (hE ▸ hd),
        hop hd]

theorem FusionOpinion.opinion_fuse_opinions__perm_of_regular {l l' : List (Opinion N)}
    (h : l.Perm l') (op : List (Opinion N) → List ℚ → ℚ → Opinion N)
    (hop : (dogmatic_opinions l).isEmpty = true →
      (op l' (l'.map Opinion.uncertainty) (l'.map Opinion.uncertainty).prod).opinion_no_base =
        (op l (l.map Opinion.uncertainty) (l.map Opinion.uncertainty).prod).opinion_no_base) :
    FusionOpinion.fuse_opinions_ l' op = FusionOpinion.fuse_opinions_ l op := by
  by_cases h1 : l.length = 1
  · obtain ⟨o, rfl⟩ := List.length_eq_one.mp h1
    have : l' = [o] := List.perm_singleton.mp h.symm
    rw [this]
  · have h1' : l'.length ≠ 1 := by rw [← h.length_eq]; exact h1
    have hp : (dogmatic_opinions l).Perm (dogmatic_opinions l') := h.filter _
    have hE := perm_isEmpty hp
    cases hd : (dogmatic_opinions l).isEmpty
    · rw [FusionOpinion.opinion_fuse_opinions__dogmatic l h1 hd,
        FusionOpinion.opinion_fuse_opinions__dogmatic l' h1' (hE ▸ hd),
        Fusion.belief_mean_perm (hp.map Opinion.opinion_no_base)]
    · rw [FusionOpinion.opinion_fuse_opinions__regular l h1 hd,
        FusionOpinion.opinion_fuse_opinions__regular l' h1' (hE ▸ hd), hop hd,
        FusionOpinion.average_prior_perm h]

theorem foldl_opinion_bc_fuse_ (l : List (Opinion N)) :
    ∀ p : Opinion N,
      (l.foldl (fun result opinion => result.bc_fuse_ opinion) p).opinion_no_base =
        (l.map Opinion.opinion_no_base).foldl (fun result opinion => result.bc_fuse_ opinion)
          p.opinion_no_base := by
  induction l with
  | nil => intro p; rfl
  | cons a t ih =>
    intro p
    simp only [List.foldl_cons, List.map_cons]
    rw [ih]
    congr 1
    simp only [Opinion.bc_fuse_]
    split <;> rfl

theorem regular_of_valid (l : List (OpinionNoBase N))
    (hv : ∀ o ∈ l, (∀ idx, 0 ≤ o.belief_masses idx) ∧ (∑ idx, o.belief_masses idx) ≤ 1)
    (hd : (dogmatic l).isEmpty = true) :
    ∀ o ∈ l, (∀ i, 0 ≤ o.belief_masses i) ∧ EPS ≤ o.uncertainty := by
  intro o ho
  refine ⟨(hv o ho).1, ?_⟩
  have hnil : dogmatic l = [] := List.isEmpty_iff.mp hd
  have hf := (List.filter_eq_nil_iff.mp hnil) o ho
  have hu : 0 ≤ o.uncertainty := by
    have := (hv o ho).2
    simp only [uncertainty]
    linarith
  simp only [decide_eq_true_eq, not_lt] at hf
  rwa [abs_of_nonneg hu] at hf

theorem vacuous_valid : (∀ i, 0 ≤ (vacuous : OpinionNoBase N).belief_masses i) ∧
    0 ≤ (vacuous : OpinionNoBase N).uncertainty := by
  constructor
  · intro i
    simp [vacuous]
  · simp [vacuous, uncertainty]

theorem binomial_valid (b d : ℚ) (hb : 0 ≤ b) (hd : 0 ≤ d) (h : b + d ≤ 1) :
    (∀ idx, 0 ≤ (binomial b d).belief_masses idx) ∧
      (∑ idx, (binomial b d).belief_masses idx) ≤ 1 := by
  constructor
  · intro idx
    fin_cases idx
    · simpa [binomial] using hb
    · simpa [binomial] using hd
  · simpa [binomial, Fin.sum_univ_two] using h

/-- C24. `Fusion::fuse_opinions(BELIEF_CONSTRAINT, .)` returns the same opinion, hence the same
belief masses, on every permutation of a list of valid opinions (belief masses `>= 0` that sum
to at most `1`), for `OpinionNoBase` lists and for `Opinion` lists: a single opinion and the
mean of the dogmatic opinions do not depend on the order, and for valid opinions of
uncertainty `>= EPS` no step of the `bc_fuse` fold from the vacuous opinion takes the neutral
fallback, so that two steps can be exchanged. -/
theorem C24_belief_constraint_perm_invariant (l l' : List (OpinionNoBase N)) (h : l'.Perm l)
    (hv : ∀ o ∈ l, (∀ idx, 0 ≤ o.belief_masses idx) ∧ (∑ idx, o.belief_masses idx) ≤ 1)
    (m m' : List (Opinion N)) (hm : m'.Perm m)
    (hmv : ∀ o ∈ m, (∀ idx, 0 ≤ o.belief_masses idx) ∧ (∑ idx, o.belief_masses idx) ≤ 1) :
    Fusion.fuse_opinions .BELIEF_CONSTRAINT l' = Fusion.fuse_opinions .BELIEF_CONSTRAINT l ∧
    FusionOpinion.fuse_opinions .BELIEF_CONSTRAINT m' =
      FusionOpinion.fuse_opinions .BELIEF_CONSTRAINT m := by
  constructor
  · simp only [Fusion.fuse_opinions]
    rw [Fusion.fuse_opinions__perm_of_regular h.symm]
    intro hd
    simp only [Fusion.belief_constraint_fusion_operator]
    exact (foldl_bc_fuse__perm h.symm (regular_of_valid l hv hd) vacuous vacuous_valid.1
      vacuous_valid.2).symm
  · simp only [FusionOpinion.fuse_opinions]
    rw [FusionOpinion.opinion_fuse_opinions__perm_of_regular hm.symm]
    intro hd
    simp only [FusionOpinion.belief_constraint_fusion_operator]
    rw [foldl_opinion_bc_fuse_, foldl_opinion_bc_fuse_]
    have hv2 : ∀ o ∈ m.map Opinion.opinion_no_base,
        (∀ idx, 0 ≤ o.belief_masses idx) ∧ (∑ idx, o.belief_masses idx) ≤ 1 := by
      intro o ho
      obtain ⟨p, hp, rfl⟩ := List.mem_map.mp ho
      exact hmv p hp
    have hd2 : (dogmatic (m.map Opinion.opinion_no_base)).isEmpty = true := by
      have hnil : dogmatic_opinions m = [] := List.isEmpty_iff.mp hd
      rw [List.isEmpty_iff]
      apply List.filter_eq_nil_iff.mpr
      intro o ho
      obtain ⟨p, hp, rfl⟩ := List.mem_map.mp ho
      exact (List.filter_eq_nil_iff.mp hnil) p hp
    exact (foldl_bc_fuse__perm (hm.symm.map Opinion.opinion_no_base)
      (regular_of_valid _ hv2 hd2) _ vacuous_valid.1 vacuous_valid.2).symm

theorem C24_belief_constraint_perm_invariant_witness :
    [binomial (1/4) (1/2), binomial (1/2) (1/4)].Perm
      [binomial (1/2) (1/4), binomial (1/4) (1/2)] ∧
    Fusion.fuse_opinions FusionType.BELIEF_CONSTRAINT
        [binomial (1/4) (1/2), binomial (1/2) (1/4)] =
      Fusion.fuse_opinions FusionType.BELIEF_CONSTRAINT
        [binomial (1/2) (1/4), binomial (1/4) (1/2)] ∧
    FusionOpinion.fuse_opinions FusionType.BELIEF_CONSTRAINT
        [⟨binomial (1/4) (1/2), ![1/2, 1/2]⟩, ⟨binomial (1/2) (1/4), ![1/2, 1/2]⟩] =
      FusionOpinion.fuse_opinions FusionType.BELIEF_CONSTRAINT
        [⟨binomial (1/2) (1/4), ![1/2, 1/2]⟩, ⟨binomial (1/4) (1/2), ![1/2, 1/2]⟩] :=
  ⟨List.Perm.swap _ _ [],
    C24_belief_constraint_perm_invariant
      [binomial (1/2) (1/4), binomial (1/4) (1/2)]
      [binomial (1/4) (1/2), binomial (1/2) (1/4)] (List.Perm.swap _ _ [])
      (by
        intro o ho
        simp only [List.mem_cons, List.mem_singleton, List.not_mem_nil, or_false] at ho
        rcases ho with rfl | rfl
        · exact binomial_valid _ _ (by norm_num) (by norm_num) (by norm_num)
        · exact binomial_valid _ _ (by norm_num) (by norm_num) (by norm_num))
      [⟨binomial (1/2) (1/4), ![1/2, 1/2]⟩, ⟨binomial (1/4) (1/2), ![1/2, 1/2]⟩]
      [⟨binomial (1/4) (1/2), ![1/2, 1/2]⟩, ⟨binomial (1/2) (1/4), ![1/2, 1/2]⟩]
      (List.Perm.swap _ _ [])
      (by
        intro o ho
        simp only [List.mem_cons, List.mem_singleton, List.not_mem_nil, or_false] at ho
        rcases ho with rfl | rfl
        · exact binomial_valid _ _ (by norm_num) (by norm_num) (by norm_num)
        · exact binomial_valid _ _ (by norm_num) (by norm_num) (by norm_num))⟩

end multisource

end subjective_logic

namespace subjective_logic

/-! ## The vacuous opinion in pairwise fusion -/

open OpinionNoBase

/-- C31. The vacuous opinion is a neutral element on the right of cumulative and of belief
constraint fusion: for every `OpinionNoBase` `x`, `x.cum_fuse(vacuous)` and
`x.bc_fuse(vacuous)` are `x`, with the belief masses and the uncertainty of `x`. -/
theorem C31_vacuous_neutral {N : ℕ} (x : OpinionNoBase N) :
    (vacuous : OpinionNoBase N).uncertainty = 1 ∧
    (∀ idx, (vacuous : OpinionNoBase N).belief_masses idx = 0) ∧
    x.cum_fuse vacuous = x ∧
    (x.cum_fuse vacuous).uncertainty = x.uncertainty ∧
    x.bc_fuse vacuous = x ∧
    (x.bc_fuse vacuous).uncertainty = x.uncertainty := by
  have hu : (vacuous : OpinionNoBase N).uncertainty = 1 := by simp [vacuous, uncertainty]
  have hc : x.cum_fuse vacuous = x := by
    simp only [cum_fuse, cum_fuse_, hu]
    rw [if_neg (by norm_num [EPS, abs_lt])]
    ext idx
    simp [vacuous]
  have hconf : x.conflict vacuous = 0 := by simp [conflict, vacuous]
  have hb : x.bc_fuse vacuous = x := by
    simp only [bc_fuse, bc_fuse_, hconf]
    rw [if_neg (by norm_num [EPS, abs_lt])]
    ext idx
    simp only [harmony, hu]
    simp [vacuous]
  exact ⟨hu, fun _ => rfl, hc, by rw [hc], hb, by rw [hb]⟩

/-! ## Evidence and cumulative fusion -/

theorem cum_fuse_belief_masses {N : ℕ} (x y : OpinionNoBase N)
    (h : EPS ≤ |x.uncertainty + y.uncertainty - x.uncertainty * y.uncertainty|) (idx : Fin N) :
    (x.cum_fuse y).belief_masses idx =
      (x.belief_masses idx * y.uncertainty + y.belief_masses idx * x.uncertainty) /
        (x.uncertainty + y.uncertainty - x.uncertainty * y.uncertainty) := by
  simp only [cum_fuse, cum_fuse_]
  rw [if_neg (not_lt.mpr h)]

/-- C37. Cumulative fusion adds evidence: for `x` and `y` with non-zero uncertainties and
`|u_x + u_y - u_x u_y| >= EPS`, `x.cum_fuse(y).evidence()` is `x.evidence() + y.evidence()`
in every component, where `evidence()` is `N * b / u`. -/
theorem C37_cum_fuse_adds_evidence {N : ℕ} (x y : OpinionNoBase N)
    (hx : x.uncertainty ≠ 0) (hy : y.uncertainty ≠ 0)
    (h : EPS ≤ |x.uncertainty + y.uncertainty - x.uncertainty * y.uncertainty|) :
    (∀ idx, (x.cum_fuse y).evidence idx = x.evidence idx + y.evidence idx) ∧
    (∀ idx, x.evidence idx = (N : ℚ) * x.belief_masses idx / x.uncertainty) := by
  have hD : x.uncertainty + y.uncertainty - x.uncertainty * y.uncertainty ≠ 0 := by
    intro h0
    rw [h0, abs_zero] at h
    exact absurd EPS_pos (not_lt.mpr h)
  refine ⟨fun idx => ?_, fun idx => ?_⟩
  · simp only [evidence]
    rw [uncertainty_cum_fuse x y h, cum_fuse_belief_masses x y h]
    field_simp
    ring
  · simp only [evidence]
    ring

theorem C37_cum_fuse_adds_evidence_witness :
    (binomial (1/2) 0).uncertainty ≠ 0 ∧ (binomial 0 (1/4)).uncertainty ≠ 0 ∧
    ∀ idx, ((binomial (1/2) 0).cum_fuse (binomial 0 (1/4))).evidence idx =
      (binomial (1/2) 0).evidence idx + (binomial 0 (1/4)).evidence idx :=
  ⟨by rw [uncertainty_binomial]; norm_num, by rw [uncertainty_binomial]; norm_num,
    (C37_cum_fuse_adds_evidence (binomial (1/2) 0) (binomial 0 (1/4))
      (by rw [uncertainty_binomial]; norm_num) (by rw [uncertainty_binomial]; norm_num)
      (by rw [uncertainty_binomial, uncertainty_binomial]; norm_num [EPS, le_abs])).1⟩

/-! ## Binomial multiplication -/

/-- C38. Binomial multiplication is multiplicative on projected probabilities: for binomial
`Opinion`s `x`, `y` with `a_x a_y ≠ 1`, the projected probability of `x.multiply(y)` is the
product of the projected probabilities of `x` and `y`, and the prior of the product is
`(a_x a_y, 1 - a_x a_y)`. -/
theorem C38_multiply_projection (x y : Opinion 2)
    (h : x.prior_belief * y.prior_belief ≠ 1) :
    (x.multiply y).getBinomialProjection = x.getBinomialProjection * y.getBinomialProjection ∧
    (x.multiply y).prior = ![x.prior_belief * y.prior_belief,
      1 - x.prior_belief * y.prior_belief] := by
  refine ⟨?_, rfl⟩
  have hne : 1 - x.prior 0 * y.prior 0 ≠ 0 := by
    intro h0
    apply h
    simp only [Opinion.prior_belief]
    linarith
  simp only [Opinion.multiply, Opinion.multiply_, Opinion.getBinomialProjection,
    Opinion.getBinomialPrior, OpinionNoBase.getBinomialProjection, OpinionNoBase.multiply_,
    Opinion.prior_belief, belief_eq_two, disbelief_eq_two, multisource.uncertainty_two, front,
    Matrix.cons_val_zero, Matrix.cons_val_one, Matrix.head_cons]
  simp only [Nat.ofNat_pos, dite_true, Fin.zero_eta, Matrix.cons_val_zero]
  field_simp
  ring

theorem C38_multiply_projection_witness :
    (⟨binomial (3/4) (3/20), ![1/2, 1/2]⟩ : Opinion 2).prior_belief *
      (⟨binomial (1/10) 0, ![1/5, 4/5]⟩ : Opinion 2).prior_belief ≠ 1 ∧
    ((⟨binomial (3/4) (3/20), ![1/2, 1/2]⟩ : Opinion 2).multiply
      ⟨binomial (1/10) 0, ![1/5, 4/5]⟩).getBinomialProjection =
      (⟨binomial (3/4) (3/20), ![1/2, 1/2]⟩ : Opinion 2).getBinomialProjection *
        (⟨binomial (1/10) 0, ![1/5, 4/5]⟩ : Opinion 2).getBinomialProjection :=
  ⟨by norm_num [Opinion.prior_belief],
    (C38_multiply_projection ⟨binomial (3/4) (3/20), ![1/2, 1/2]⟩
      ⟨binomial (1/10) 0, ![1/5, 4/5]⟩ (by norm_num [Opinion.prior_belief])).1⟩

end subjective_logic

namespace subjective_logic

open OpinionNoBase

/-! ## The prior of the pairwise fusions -/

theorem sum_prior_mean {N : ℕ} (x y : Opinion N) (hx : ∑ idx, x.prior idx = 1)
    (hy : ∑ idx, y.prior idx = 1) : ∑ idx, (x.prior idx + y.prior idx) / 2 = 1 := by
  rw [← Finset.sum_div, Finset.sum_add_distrib, hx, hy]
  norm_num

theorem sum_prior_weighted {N : ℕ} (x y : Opinion N) (hx : ∑ idx, x.prior idx = 1)
    (hy : ∑ idx, y.prior idx = 1) (c1 c2 d : ℚ) (hd : c1 + c2 = d) (hne : d ≠ 0) :
    ∑ idx, (x.prior idx * c1 + y.prior idx * c2) / d = 1 := by
  rw [← Finset.sum_div, Finset.sum_add_distrib, ← Finset.sum_mul, ← Finset.sum_mul, hx, hy,
    one_mul, one_mul, hd]
  exact div_self hne

theorem ne_zero_of_not_abs_lt_EPS {d : ℚ} (h : ¬ |d| < EPS) : d ≠ 0 := by
  intro h0
  apply h
  rw [h0, abs_zero]
  exact EPS_pos

/-- C39. The pairwise fusions of `Opinion` keep the prior a distribution: if the priors of `x`
and `y` each sum to `1`, so do the priors of `x.cum_fuse(y)`, `x.bc_fuse(y)`,
`x.average_fuse(y)`, `x.wb_fuse(y)` and `x.cc_fuse(y)`, whichever branch is taken. -/
theorem C39_fusion_prior_sums_to_one {N : ℕ} (x y : Opinion N)
    (hx : ∑ idx, x.prior idx = 1) (hy : ∑ idx, y.prior idx = 1) :
    ∑ idx, (x.cum_fuse y).prior idx = 1 ∧
    ∑ idx, (x.bc_fuse y).prior idx = 1 ∧
    ∑ idx, (x.average_fuse y).prior idx = 1 ∧
    ∑ idx, (x.wb_fuse y).prior idx = 1 ∧
    ∑ idx, (x.cc_fuse y).prior idx = 1 := by
  refine ⟨?_, ?_, ?_, ?_, hx⟩
  · simp only [Opinion.cum_fuse, Opinion.cum_fuse_]
    split
    · exact sum_prior_mean x y hx hy
    · rename_i hd
      have hne := ne_zero_of_not_abs_lt_EPS hd
      have h := sum_prior_weighted x y hx hy
        (y.uncertainty - x.uncertainty * y.uncertainty)
        (x.uncertainty - x.uncertainty * y.uncertainty) _ (by ring) hne
      rw [← h]
      apply Finset.sum_congr rfl
      intro idx _
      ring
  · simp only [Opinion.bc_fuse, Opinion.bc_fuse_]
    split
    · exact sum_prior_mean x y hx hy
    · rename_i hd
      exact sum_prior_weighted x y hx hy _ _ _ (by ring) (ne_zero_of_not_abs_lt_EPS hd)
  · exact sum_prior_mean x y hx hy
  · simp only [Opinion.wb_fuse, Opinion.wb_fuse_]
    split
    · exact sum_prior_mean x y hx hy
    · rename_i hd
      exact sum_prior_weighted x y hx hy _ _ _ (by ring) (ne_zero_of_not_abs_lt_EPS hd)

theorem C39_fusion_prior_sums_to_one_witness :
    ∑ idx, (⟨binomial (1/2) 0, ![9/10, 1/10]⟩ : Opinion 2).prior idx = 1 ∧
    ∑ idx, (⟨binomial 0 (1/4), ![3/10, 7/10]⟩ : Opinion 2).prior idx = 1 ∧
    ∑ idx, ((⟨binomial (1/2) 0, ![9/10, 1/10]⟩ : Opinion 2).cum_fuse
      ⟨binomial 0 (1/4), ![3/10, 7/10]⟩).prior idx = 1 :=
  ⟨by norm_num [Fin.sum_univ_two], by norm_num [Fin.sum_univ_two],
    (C39_fusion_prior_sums_to_one ⟨binomial (1/2) 0, ![9/10, 1/10]⟩
      ⟨binomial 0 (1/4), ![3/10, 7/10]⟩ (by norm_num [Fin.sum_univ_two])
      (by norm_num [Fin.sum_univ_two])).1⟩

/-! ## The moment-matching update -/

theorem moment_matching_update__alphas {N : ℕ} (d : DirichletDistribution N)
    (p : BeliefType N) (idx : Fin N) :
    (d.moment_matching_update p).alphas idx =
      (d.alphas idx + p idx) / (1 + ∑ i, d.alphas i) * moment_matching_factor d p := by
  simp only [DirichletDistribution.moment_matching_update,
    DirichletDistribution.moment_matching_update_, DirichletDistribution.alphas,
    moment_matching_factor]
  ring

/-- C40. The moment-matching update matches the first moment: for a distribution with alpha
values `alpha_i` of sum `S` and an observation vector `p` of sum `1`, if no divisor
(`1 + S`, `2 + S`, `denom.sum()`) is zero and the scaling factor `nom.sum() / denom.sum()` is
not zero, the mean after `moment_matching_update(p)` is `(alpha_i + p_i) / (S + 1)` in every
component, and the prior is unchanged. -/
theorem C40_moment_matching_mean {N : ℕ} (d : DirichletDistribution N) (p : BeliefType N)
    (hp : ∑ idx, p idx = 1) (h1 : 1 + ∑ idx, d.alphas idx ≠ 0)
    (_h2 : 2 + ∑ idx, d.alphas idx ≠ 0) (hf : moment_matching_factor d p ≠ 0) :
    (∀ idx, (d.moment_matching_update p).mean idx =
      (d.alphas idx + p idx) / ((∑ i, d.alphas i) + 1)) ∧
    (d.moment_matching_update p).prior = d.prior := by
  refine ⟨fun idx => ?_, rfl⟩
  have hsum : ∑ i, (d.moment_matching_update p).alphas i = moment_matching_factor d p := by
    simp only [moment_matching_update__alphas]
    rw [← Finset.sum_mul, ← Finset.sum_div, Finset.sum_add_distrib, hp,
      add_comm (∑ i, d.alphas i) 1, div_self h1, one_mul]
  simp only [DirichletDistribution.mean]
  rw [hsum, moment_matching_update__alphas, add_comm (∑ i, d.alphas i) 1]
  field_simp
  ring

theorem C40_moment_matching_mean_witness :
    (∑ idx, (![1, 0] : BeliefType 2) idx = 1) ∧
    moment_matching_factor (⟨![1, 2], ![1/2, 1/2]⟩ : DirichletDistribution 2) ![1, 0] ≠ 0 ∧
    ((∀ idx, ((⟨![1, 2], ![1/2, 1/2]⟩ : DirichletDistribution 2).moment_matching_update
        ![1, 0]).mean idx =
      ((⟨![1, 2], ![1/2, 1/2]⟩ : DirichletDistribution 2).alphas idx +
          (![1, 0] : BeliefType 2) idx) /
        ((∑ i, (⟨![1, 2], ![1/2, 1/2]⟩ : DirichletDistribution 2).alphas i) + 1)) ∧
    ((⟨![1, 2], ![1/2, 1/2]⟩ : DirichletDistribution 2).moment_matching_update ![1, 0]).prior =
      ![1/2, 1/2]) :=
  ⟨by norm_num [Fin.sum_univ_two],
    by norm_num [moment_matching_factor, DirichletDistribution.alphas, Fin.sum_univ_two],
    C40_moment_matching_mean ⟨![1, 2], ![1/2, 1/2]⟩ ![1, 0]
      (by norm_num [Fin.sum_univ_two])
      (by norm_num [DirichletDistribution.alphas, Fin.sum_univ_two])
      (by norm_num [DirichletDistribution.alphas, Fin.sum_univ_two])
      (by norm_num [moment_matching_factor, DirichletDistribution.alphas, Fin.sum_univ_two])⟩

end subjective_logic

namespace subjective_logic

open OpinionNoBase

/-! ## Reduction of the hypothesis space -/

theorem foldl_update_add {N newN : ℕ} (m : Fin N → Fin newN) (b : BeliefType N)
    (l : List (Fin N)) (init : BeliefType newN) (j : Fin newN) :
    (l.foldl (fun out idx => Function.update out (m idx) (out (m idx) + b idx)) init) j =
      init j + (l.map fun i => if m i = j then b i else 0).sum := by
  induction l generalizing init with
  | nil => simp
  | cons a t ih =>
    rw [List.foldl_cons, ih, List.map_cons, List.sum_cons, ← add_assoc]
    congr 1
    by_cases h : m a = j
    · subst h
      simp
    · rw [Function.update_noteq (Ne.symm h), if_neg h, add_zero]

theorem foldl_update_add_pair {N newN : ℕ} (m : Fin N → Fin newN) (b a : BeliefType N)
    (l : List (Fin N)) (init : BeliefType newN × BeliefType newN) :
    l.foldl
      (fun (out : BeliefType newN × BeliefType newN) idx =>
        (Function.update out.1 (m idx) (out.1 (m idx) + b idx),
          Function.update out.2 (m idx) (out.2 (m idx) + a idx))) init =
      (l.foldl (fun out idx => Function.update out (m idx) (out (m idx) + b idx)) init.1,
        l.foldl (fun out idx => Function.update out (m idx) (out (m idx) + a idx)) init.2) := by
  induction l generalizing init with
  | nil => rfl
  | cons x t ih => rw [List.foldl_cons, ih]; rfl

theorem sum_fibres {N newN : ℕ} (m : Fin N → Fin newN) (b : BeliefType N) :
    ∑ j, ∑ i, (if m i = j then b i else 0) = ∑ i, b i := by
  rw [Finset.sum_comm]
  apply Finset.sum_congr rfl
  intro i _
  simp

theorem OpinionNoBase.getReducedOpinion_belief_masses {N newN : ℕ} (o : OpinionNoBase N)
    (m : Fin N → Fin newN) (j : Fin newN) :
    (o.getReducedOpinion m).belief_masses j =
      ∑ i, if m i = j then o.belief_masses i else 0 := by
  simp only [OpinionNoBase.getReducedOpinion]
  rw [foldl_update_add, zero_add, Fin.sum_univ_def]

theorem Opinion.getReducedOpinion_eq {N newN : ℕ} (o : Opinion N) (m : Fin N → Fin newN) :
    (∀ j, (o.getReducedOpinion m).belief_masses j =
      ∑ i, if m i = j then o.belief_masses i else 0) ∧
    (∀ j, (o.getReducedOpinion m).prior_belief_masses j =
      ∑ i, if m i = j then o.prior_belief_masses i else 0) := by
  constructor <;> intro j
  · simp only [Opinion.getReducedOpinion, Opinion.belief_masses]
    rw [foldl_update_add_pair]
    dsimp only
    rw [foldl_update_add m o.opinion_no_base.belief_masses, zero_add, Fin.sum_univ_def]
  · simp only [Opinion.getReducedOpinion, Opinion.prior_belief_masses]
    rw [foldl_update_add_pair]
    dsimp only
    rw [foldl_update_add m o.prior, zero_add, Fin.sum_univ_def]

/-- C32. For an `Opinion<N>` and an index mapping `m` from `{0..N-1}` into `{0..newN-1}`,
`getReducedOpinion<newN>(m)` has, for each new hypothesis `j`, belief mass equal to the sum of
`b_i` over all `i` with `m(i) = j` and prior equal to the sum of `a_i` over the same `i`; the
uncertainty and the total prior mass are preserved. The same holds for the belief masses and
the uncertainty of the reduction of an `OpinionNoBase<N>`. -/
theorem C32_reduced_opinion {N newN : ℕ} (o : Opinion N) (m : Fin N → Fin newN) :
    (∀ j, (o.getReducedOpinion m).belief_masses j =
      ∑ i, if m i = j then o.belief_masses i else 0) ∧
    (∀ j, (o.getReducedOpinion m).prior_belief_masses j =
      ∑ i, if m i = j then o.prior_belief_masses i else 0) ∧
    (o.getReducedOpinion m).uncertainty = o.uncertainty ∧
    ∑ j, (o.getReducedOpinion m).prior_belief_masses j = ∑ i, o.prior_belief_masses i ∧
    (∀ j, (o.opinion_no_base.getReducedOpinion m).belief_masses j =
      ∑ i, if m i = j then o.belief_masses i else 0) ∧
    (o.opinion_no_base.getReducedOpinion m).uncertainty = o.uncertainty := by
  have h := Opinion.getReducedOpinion_eq o m
  refine ⟨h.1, h.2, ?_, ?_, fun j => OpinionNoBase.getReducedOpinion_belief_masses _ m j, ?_⟩
  · have h1 := h.1
    simp only [Opinion.belief_masses] at h1
    simp only [Opinion.uncertainty, OpinionNoBase.uncertainty, h1, sum_fibres]
  · simp only [h.2, sum_fibres]
  · simp only [Opinion.uncertainty, OpinionNoBase.uncertainty,
      OpinionNoBase.getReducedOpinion_belief_masses, sum_fibres]

/-! ## Dissonance -/

/-- C33. The member `dissonance()` does not compute the dissonance of the reference: the
function `balance(a, b)` of the code is `1 - |a - b|` whenever `a + b >= EPS`, without the
division by `a + b`. For the binomial opinion `(0.2, 0.1)` the code yields `0.27` and the
reference `0.2`. The stated witnesses agree: `(0.5, 0.5)` has dissonance `1`, and `(1, 0)` and
`(0, 1)` have dissonance `0`, in the code and in the reference. -/
theorem C33_dissonance_balance_not_normalised :
    (∀ a b : ℚ, EPS ≤ a + b → balance a b = 1 - |a - b|) ∧
    (binomial (1/5) (1/10)).dissonance = 27/100 ∧
    reference_dissonance (binomial (1/5) (1/10)) = 1/5 ∧
    (binomial (1/2) (1/2)).dissonance = 1 ∧
    reference_dissonance (binomial (1/2) (1/2)) = 1 ∧
    (binomial 1 0).dissonance = 0 ∧ reference_dissonance (binomial 1 0) = 0 ∧
    (binomial 0 1).dissonance = 0 ∧ reference_dissonance (binomial 0 1) = 0 := by
  refine ⟨?_, ?_, ?_, ?_, ?_, ?_, ?_, ?_, ?_⟩
  · intro a b h
    simp only [balance, not_lt.mpr h, if_false]
    split
    · rename_i hd
      rw [abs_of_neg hd]; ring
    · rename_i hd
      rw [abs_of_nonneg (not_lt.mp hd)]
  all_goals
    norm_num [OpinionNoBase.dissonance, reference_dissonance, reference_balance, balance,
      binomial, Fin.sum_univ_two, EPS, abs_of_nonneg, abs_of_neg]

end subjective_logic

namespace subjective_logic.multisource

open OpinionNoBase

/-! ## Errors of the in-place trusted fusion -/

namespace TrustedFusion

theorem weighted_fold_error {O : Type} [MultiSourceOps O] (L : List (TrustedOpinion O))
    (w : List WeightedTypes)
    (h : ∃ ty ∈ w, ∃ e, TrustRevision.revision_factors ty.1 ty.2.1 L none = Except.error e) :
    ∀ init : List ℚ, ∃ e,
      w.foldlM
        (fun weighted_revision_factors (types : WeightedTypes) => do
          let revision_factors ←
            TrustRevision.revision_factors types.1 types.2.1 L none
          pure ((List.range L.length).map fun op_idx =>
            weighted_revision_factors.getD op_idx 0 +
              types.2.2 * revision_factors.getD op_idx 0))
        init = Except.error e := by
  induction w with
  | nil =>
    obtain ⟨ty, hty, _⟩ := h
    cases hty
  | cons ty w ih =>
    intro init
    rw [List.foldlM_cons]
    cases hrf : TrustRevision.revision_factors ty.1 ty.2.1 L none with
    | error e => exact ⟨e, rfl⟩
    | ok rf =>
      obtain ⟨ty2, hty2, e, he⟩ := h
      rcases List.mem_cons.mp hty2 with heq | hmem
      · subst heq
        rw [hrf] at he
        cases he
      · exact ih ⟨ty2, hmem, e, he⟩ _

theorem revision_factors_shares_example :
    TrustRevision.revision_factors TrustRevisionType.CONFLICT_SHARES ConflictType.AVERAGE
      contradicting_sources none = Except.ok [0, 0, 2 / 3] := by
  have h := TrustRevision.conflict_shares_trust_revision_eq RelationType.CONFLICT
    ConflictType.AVERAGE contradicting_sources true (2 / 3) (2 / 3) [-1 / 2, -1 / 2, 1]
    conflict_shares_average_example rfl (fun _ => rfl) (fun h => absurd rfl h)
  simp only [TrustRevision.revision_factors]
  rw [h]
  norm_num [shares_factor]

theorem weighted_revision_factors_shares_example :
    weighted_revision_factors
      [(TrustRevisionType.CONFLICT_SHARES, ConflictType.AVERAGE, 1)] contradicting_sources =
        Except.ok [0, 0, 2 / 3] := by
  unfold weighted_revision_factors
  simp only [List.foldlM_cons, List.foldlM_nil, revision_factors_shares_example, bind,
    Except.bind, pure, Except.pure]
  norm_num [contradicting_sources, List.range_succ]

end TrustedFusion

/-- C36, counterexample: with the fusion type WEIGHTED and the triple
`(CONFLICT_SHARES, AVERAGE, 1)`, the in-place `fuse_opinions_` on three fully trusted sources
with the opinions `(1, 0)`, `(1, 0)`, `(0, 1)` raises the error of the unsupported fusion type,
and the trust of the third source has been revised from `(1, 0)` to `(1/3, 2/3)`. -/
theorem C36_counterexample :
    (TrustedFusion.fuse_opinions_typed_ FusionType.WEIGHTED TrustRevisionType.CONFLICT_SHARES
      ConflictType.AVERAGE contradicting_sources).2 =
        Except.error "MultiSource fusion is not yet implemented for: 3" ∧
    (TrustedFusion.fuse_opinions_typed_ FusionType.WEIGHTED TrustRevisionType.CONFLICT_SHARES
      ConflictType.AVERAGE contradicting_sources).1 =
        [⟨⟨binomial 1 0, ![1/2, 1/2]⟩, binomial 1 0⟩,
          ⟨⟨binomial 1 0, ![1/2, 1/2]⟩, binomial 1 0⟩,
          ⟨⟨binomial (1/3) (2/3), ![1/2, 1/2]⟩, binomial 0 1⟩] ∧
    (TrustedFusion.fuse_opinions_typed_ FusionType.WEIGHTED TrustRevisionType.CONFLICT_SHARES
      ConflictType.AVERAGE contradicting_sources).1 ≠ contradicting_sources := by
  have hcalc : TrustedFusion.fuse_opinions_typed_ FusionType.WEIGHTED
      TrustRevisionType.CONFLICT_SHARES ConflictType.AVERAGE contradicting_sources =
      ((List.zipWith TrustedFusion.revision_function_inplace contradicting_sources
          [0, 0, 2 / 3]).map Prod.fst,
        MultiSourceOps.fuse_opinions FusionType.WEIGHTED
          ((List.zipWith TrustedFusion.revision_function_inplace contradicting_sources
            [0, 0, 2 / 3]).map Prod.snd)) := by
    simp only [TrustedFusion.fuse_opinions_typed_, TrustedFusion.fuse_opinions_weighted_,
      TrustedFusion.fusion_calculation, TrustedFusion.weighted_revision_factors_shares_example]
  have hlist : (List.zipWith TrustedFusion.revision_function_inplace contradicting_sources
      [0, 0, 2 / 3]).map Prod.fst =
      [⟨⟨binomial 1 0, ![1/2, 1/2]⟩, binomial 1 0⟩,
        ⟨⟨binomial 1 0, ![1/2, 1/2]⟩, binomial 1 0⟩,
        ⟨⟨binomial (1/3) (2/3), ![1/2, 1/2]⟩, binomial 0 1⟩] := by
    rw [TrustedFusion.map_fst_zipWith_inplace]
    simp only [contradicting_sources, List.zipWith_cons_cons, List.zipWith_nil_right,
      Opinion.revise_trust_]
    have h0 : (binomial 1 0).revise_trust_ 0 = binomial 1 0 := by
      ext idx
      fin_cases idx <;> norm_num [OpinionNoBase.revise_trust_, clamp, binomial]
    have h1 : (binomial 1 0).revise_trust_ (2 / 3) = binomial (1 / 3) (2 / 3) := by
      ext idx
      fin_cases idx <;> norm_num [OpinionNoBase.revise_trust_, clamp, binomial]
    rw [h0, h1]
  rw [hcalc]
  refine ⟨rfl, hlist, ?_⟩
  dsimp only
  rw [hlist]
  intro h
  have h3 := congrArg
    (fun l => (l.getD 2 ⟨⟨binomial 0 0, ![0, 0]⟩, binomial 0 0⟩).trust.belief_masses 0) h
  norm_num [contradicting_sources, binomial, Opinion.belief_masses] at h3

/-- C36, amended. When the in-place `TrustedFusion::fuse_opinions_` raises because the
revision factors of one of the triples cannot be computed (an unsupported revision or
conflict type), the caller's list of `TrustedOpinion`s is left exactly as it was: no trust has
been revised. (The error of an unsupported fusion type is raised after the trusts have been
revised.) -/
theorem C36_list_unchanged_on_revision_error {O : Type} [MultiSourceOps O] (t : FusionType)
    (w : List WeightedTypes) (L : List (TrustedOpinion O))
    (h : ∃ ty ∈ w, ∃ e, TrustRevision.revision_factors ty.1 ty.2.1 L none = Except.error e) :
    ∃ e, TrustedFusion.fuse_opinions_weighted_ t w L = (L, Except.error e) := by
  obtain ⟨e, he⟩ := TrustedFusion.weighted_fold_error L w h (List.replicate L.length 0)
  refine ⟨e, ?_⟩
  have hw : TrustedFusion.weighted_revision_factors w L = Except.error e := he
  simp only [TrustedFusion.fuse_opinions_weighted_, TrustedFusion.fusion_calculation, hw]

theorem C36_list_unchanged_on_revision_error_witness :
    ∃ e, TrustedFusion.fuse_opinions_weighted_ FusionType.CUMULATIVE
      [(TrustRevisionType.REFERENCE_FUSION, ConflictType.ACCUMULATE, 1)]
      contradicting_sources = (contradicting_sources, Except.error e) :=
  C36_list_unchanged_on_revision_error FusionType.CUMULATIVE
    [(TrustRevisionType.REFERENCE_FUSION, ConflictType.ACCUMULATE, 1)] contradicting_sources
    ⟨_, List.mem_singleton.mpr rfl, _, rfl⟩

end subjective_logic.multisource

namespace subjective_logic

open OpinionNoBase multisource

/-! ## The N-ary cumulative fusion and the fold of the pairwise operator -/

end subjective_logic

namespace subjective_logic

open OpinionNoBase multisource

/-! ## Validity of the fused opinion -/

end subjective_logic

namespace subjective_logic

open OpinionNoBase multisource

end subjective_logic
